import Mathlib

/-!
Verification of the game-theory analysis engine of an interactive
game-theory study tool.  The engine lives in `src/lib` (matrix generation,
dominance analysis, Nash-equilibrium search) and in the engine portions of
`src/components/QuestionPanel.tsx` (IEDS solver, sequential-game builder and
backward-induction solver, question synthesis).

The TypeScript source is embedded shallowly:
* JS numbers holding payoffs are embedded as `Int` (all payoffs are small
  integers produced by `randomInt`),
* JS arrays are embedded as `List`,
* JS `Set` iteration (insertion order, here always ascending indices) is
  embedded as sorted `List Nat`,
* `Math.random()`-driven choices are embedded by threading an explicit
  stream of natural numbers (`List Nat`); each draw consumes the head.
  Every outcome the JS code can produce corresponds to some stream.
-/

/-! ### Data model (src/lib/types.ts) -/

inductive PlayerLabel where
  | A
  | B
deriving DecidableEq, Repr, Inhabited

structure Payoffs where
  a : Int
  b : Int
deriving DecidableEq, Repr, Inhabited

structure PayoffMatrix where
  rows : Nat
  cols : Nat
  cells : List (List Payoffs)
  rowLabels : List String
  colLabels : List String
deriving DecidableEq, Repr, Inhabited

/-- Access `cells[r][c]`.  Indices are in range whenever the matrix is
well-formed; the default is never observed in that case. -/
def PayoffMatrix.cell (m : PayoffMatrix) (r c : Nat) : Payoffs :=
  (m.cells.getD r []).getD c default

/-- The data-model invariant of §3 of the spec: the cell grid is a
`rows × cols` rectangle, labels are positional, and each player has at
least one strategy (the tool only ever builds 2×2 and 3×3 matrices). -/
def PayoffMatrix.WellFormed (m : PayoffMatrix) : Prop :=
  1 ≤ m.rows ∧ 1 ≤ m.cols ∧
  m.cells.length = m.rows ∧
  (∀ row ∈ m.cells, row.length = m.cols) ∧
  m.rowLabels.length = m.rows ∧
  m.colLabels.length = m.cols

instance (m : PayoffMatrix) : Decidable m.WellFormed := by
  unfold PayoffMatrix.WellFormed
  infer_instance

structure Strategy where
  player : PlayerLabel
  index : Nat
  label : String
deriving DecidableEq, Repr, Inhabited

structure DominationResult where
  dominated : Strategy
  by_ : Strategy
  strict : Bool
deriving DecidableEq, Repr, Inhabited

structure NashEquilibrium where
  row : Nat
  col : Nat
  rowLabel : String
  colLabel : String
  payoffs : Payoffs
deriving DecidableEq, Repr, Inhabited

structure CellCoord where
  row : Nat
  col : Nat
deriving DecidableEq, Repr, Inhabited

structure IEDSStep where
  eliminated : Strategy
  reason : String
deriving DecidableEq, Repr, Inhabited

structure IEDSResult where
  steps : List IEDSStep
  survivingCells : List CellCoord
  residualMatrix : Option PayoffMatrix
deriving DecidableEq, Repr, Inhabited

inductive Difficulty where
  | easy
  | medium
  | hard
deriving DecidableEq, Repr, Inhabited

/-! ### Equilibrium finder (`findNashEquilibria`, src/lib/nash.ts)

The source scans all cells in row-major order; for each cell it checks
with early exit that no other row gives Player A a strictly larger payoff
in the same column, and no other column gives Player B a strictly larger
payoff in the same row.  The early-exit loops denote the `List.all`
conditions below. -/

def isBestForA (m : PayoffMatrix) (r c : Nat) : Bool :=
  (List.range m.rows).all fun r2 =>
    r2 == r || decide ((m.cell r2 c).a ≤ (m.cell r c).a)

def isBestForB (m : PayoffMatrix) (r c : Nat) : Bool :=
  (List.range m.cols).all fun c2 =>
    c2 == c || decide ((m.cell r c2).b ≤ (m.cell r c).b)

def findNashEquilibria (m : PayoffMatrix) : List NashEquilibrium :=
  (List.range m.rows).flatMap fun r =>
    (List.range m.cols).filterMap fun c =>
      if isBestForA m r c && isBestForB m r c then
        some { row := r, col := c,
               rowLabel := m.rowLabels.getD r "",
               colLabel := m.colLabels.getD c "",
               payoffs := m.cell r c }
      else none

theorem isBestForA_iff (m : PayoffMatrix) (r c : Nat) :
    isBestForA m r c = true ↔
      ∀ r2, r2 < m.rows → (m.cell r2 c).a ≤ (m.cell r c).a := by
  unfold isBestForA
  rw [List.all_eq_true]
  simp only [List.mem_range, Bool.or_eq_true, beq_iff_eq, decide_eq_true_eq]
  constructor
  · intro h r2 hr2
    rcases h r2 hr2 with h' | h'
    · rw [h']
    · exact h'
  · intro h r2 hr2
    exact Or.inr (h r2 hr2)

theorem isBestForB_iff (m : PayoffMatrix) (r c : Nat) :
    isBestForB m r c = true ↔
      ∀ c2, c2 < m.cols → (m.cell r c2).b ≤ (m.cell r c).b := by
  unfold isBestForB
  rw [List.all_eq_true]
  simp only [List.mem_range, Bool.or_eq_true, beq_iff_eq, decide_eq_true_eq]
  constructor
  · intro h c2 hc2
    rcases h c2 hc2 with h' | h'
    · rw [h']
    · exact h'
  · intro h c2 hc2
    exact Or.inr (h c2 hc2)

theorem mem_findNashEquilibria (m : PayoffMatrix) (ne : NashEquilibrium) :
    ne ∈ findNashEquilibria m ↔
      ne.row < m.rows ∧ ne.col < m.cols ∧
      isBestForA m ne.row ne.col = true ∧ isBestForB m ne.row ne.col = true ∧
      ne = { row := ne.row, col := ne.col,
             rowLabel := m.rowLabels.getD ne.row "",
             colLabel := m.colLabels.getD ne.col "",
             payoffs := m.cell ne.row ne.col } := by
  unfold findNashEquilibria
  rw [List.mem_flatMap]
  constructor
  · rintro ⟨r, hr, hmem⟩
    obtain ⟨c, hc, heq⟩ := List.mem_filterMap.mp hmem
    by_cases h : (isBestForA m r c && isBestForB m r c) = true
    · rw [if_pos h] at heq
      obtain ⟨hA, hB⟩ := Bool.and_eq_true_iff.mp h
      injection heq with heq'
      subst heq'
      exact ⟨List.mem_range.mp hr, List.mem_range.mp hc, hA, hB, rfl⟩
    · rw [if_neg h] at heq
      cases heq
  · rintro ⟨hr, hc, hA, hB, hne⟩
    refine ⟨ne.row, List.mem_range.mpr hr, List.mem_filterMap.mpr ⟨ne.col, List.mem_range.mpr hc, ?_⟩⟩
    rw [if_pos (by rw [hA, hB]; rfl)]
    rw [← hne]

/-- C1: `findNashEquilibria` returns exactly the cells `(r,c)` such that
`cells[r][c].a` is maximal (with `≥`, so ties yield multiple equilibria)
among all rows of column `c` and `cells[r][c].b` is maximal among all
columns of row `r`, and the results appear in row-major order of `(r,c)`. -/
theorem findNashEquilibria_correct (m : PayoffMatrix) (hm : m.WellFormed) :
    (∀ r c : Nat,
      (∃ ne ∈ findNashEquilibria m, ne.row = r ∧ ne.col = c) ↔
        (r < m.rows ∧ c < m.cols ∧
          (∀ r2, r2 < m.rows → (m.cell r2 c).a ≤ (m.cell r c).a) ∧
          (∀ c2, c2 < m.cols → (m.cell r c2).b ≤ (m.cell r c).b))) ∧
    List.Pairwise (fun p q => p.row < q.row ∨ (p.row = q.row ∧ p.col < q.col))
      (findNashEquilibria m) := by
  clear hm
  constructor
  · intro r c
    constructor
    · rintro ⟨ne, hne, hrow, hcol⟩
      obtain ⟨hr, hc, hA, hB, _⟩ := (mem_findNashEquilibria m ne).mp hne
      subst hrow hcol
      exact ⟨hr, hc, (isBestForA_iff m ne.row ne.col).mp hA,
        (isBestForB_iff m ne.row ne.col).mp hB⟩
    · rintro ⟨hr, hc, hA, hB⟩
      refine ⟨{ row := r, col := c, rowLabel := m.rowLabels.getD r "",
                colLabel := m.colLabels.getD c "",
                payoffs := m.cell r c }, ?_, rfl, rfl⟩
      exact (mem_findNashEquilibria m _).mpr
        ⟨hr, hc, (isBestForA_iff m r c).mpr hA, (isBestForB_iff m r c).mpr hB, rfl⟩
  · unfold findNashEquilibria
    rw [List.pairwise_flatMap]
    constructor
    · intro r _
      rw [List.pairwise_filterMap]
      refine List.Pairwise.imp ?_ (List.pairwise_lt_range m.cols)
      intro c1 c2 hlt b hb b' hb'
      have hb1 : b.col = c1 := by
        by_cases h : (isBestForA m r c1 && isBestForB m r c1) = true
        · rw [if_pos h] at hb
          cases hb
          rfl
        · rw [if_neg h] at hb
          cases hb
      have hb2 : b'.col = c2 := by
        by_cases h : (isBestForA m r c2 && isBestForB m r c2) = true
        · rw [if_pos h] at hb'
          cases hb'
          rfl
        · rw [if_neg h] at hb'
          cases hb'
      have hr1 : b.row = r := by
        by_cases h : (isBestForA m r c1 && isBestForB m r c1) = true
        · rw [if_pos h] at hb
          cases hb
          rfl
        · rw [if_neg h] at hb
          cases hb
      have hr2 : b'.row = r := by
        by_cases h : (isBestForA m r c2 && isBestForB m r c2) = true
        · rw [if_pos h] at hb'
          cases hb'
          rfl
        · rw [if_neg h] at hb'
          cases hb'
      right
      rw [hr1, hr2, hb1, hb2]
      exact ⟨rfl, hlt⟩
    · refine List.Pairwise.imp ?_ (List.pairwise_lt_range m.rows)
      intro r1 r2 hlt x hx y hy
      obtain ⟨c1, _, hx'⟩ := List.mem_filterMap.mp hx
      obtain ⟨c2, _, hy'⟩ := List.mem_filterMap.mp hy
      have hr1 : x.row = r1 := by
        by_cases h : (isBestForA m r1 c1 && isBestForB m r1 c1) = true
        · rw [if_pos h] at hx'
          cases hx'
          rfl
        · rw [if_neg h] at hx'
          cases hx'
      have hr2 : y.row = r2 := by
        by_cases h : (isBestForA m r2 c2 && isBestForB m r2 c2) = true
        · rw [if_pos h] at hy'
          cases hy'
          rfl
        · rw [if_neg h] at hy'
          cases hy'
      left
      rw [hr1, hr2]
      exact hlt

/-- The 2×2 example matrix of §8 of the spec: Player-A payoffs
`[[3,1],[2,4]]`, Player-B payoffs `[[2,1],[3,0]]`. -/
def exampleMatrix : PayoffMatrix :=
  { rows := 2, cols := 2,
    cells := [[⟨3, 2⟩, ⟨1, 1⟩], [⟨2, 3⟩, ⟨4, 0⟩]],
    rowLabels := ["Top", "Bottom"],
    colLabels := ["Left", "Right"] }

theorem findNashEquilibria_correct_witness :
    exampleMatrix.WellFormed ∧
    ((∀ r c : Nat,
      (∃ ne ∈ findNashEquilibria exampleMatrix, ne.row = r ∧ ne.col = c) ↔
        (r < exampleMatrix.rows ∧ c < exampleMatrix.cols ∧
          (∀ r2, r2 < exampleMatrix.rows →
            (exampleMatrix.cell r2 c).a ≤ (exampleMatrix.cell r c).a) ∧
          (∀ c2, c2 < exampleMatrix.cols →
            (exampleMatrix.cell r c2).b ≤ (exampleMatrix.cell r c).b))) ∧
    List.Pairwise (fun p q => p.row < q.row ∨ (p.row = q.row ∧ p.col < q.col))
      (findNashEquilibria exampleMatrix)) :=
  ⟨by decide, findNashEquilibria_correct exampleMatrix (by decide)⟩

/-! ### Dominance analyzer (`findDominatedStrategies`, src/lib/dominated.ts)

For each ordered pair of distinct rows `(i, j)` the source walks the
columns computing three flags (`allGreaterOrEqual`, `someStrictlyGreater`,
`allStrictlyGreater`) with an early exit on the first column where `j` is
worse than `i`.  A result is pushed when `allStrictlyGreater ||
(allGreaterOrEqual && someStrictlyGreater)`; the early exit never changes
that condition (when it fires, both `allGreaterOrEqual` and
`allStrictlyGreater` are false), so the flags are embedded as their full
quantifier denotations.  Columns for Player B are symmetric on `.b`. -/

def rowAllGE (m : PayoffMatrix) (i j : Nat) : Bool :=
  (List.range m.cols).all fun c => decide ((m.cell i c).a ≤ (m.cell j c).a)

def rowSomeSG (m : PayoffMatrix) (i j : Nat) : Bool :=
  (List.range m.cols).any fun c => decide ((m.cell i c).a < (m.cell j c).a)

def rowAllSG (m : PayoffMatrix) (i j : Nat) : Bool :=
  (List.range m.cols).all fun c => decide ((m.cell i c).a < (m.cell j c).a)

def colAllGE (m : PayoffMatrix) (c1 c2 : Nat) : Bool :=
  (List.range m.rows).all fun r => decide ((m.cell r c1).b ≤ (m.cell r c2).b)

def colSomeSG (m : PayoffMatrix) (c1 c2 : Nat) : Bool :=
  (List.range m.rows).any fun r => decide ((m.cell r c1).b < (m.cell r c2).b)

def colAllSG (m : PayoffMatrix) (c1 c2 : Nat) : Bool :=
  (List.range m.rows).all fun r => decide ((m.cell r c1).b < (m.cell r c2).b)

def pushRowA (m : PayoffMatrix) (i j : Nat) : Bool :=
  rowAllSG m i j || (rowAllGE m i j && rowSomeSG m i j)

def pushColB (m : PayoffMatrix) (c1 c2 : Nat) : Bool :=
  colAllSG m c1 c2 || (colAllGE m c1 c2 && colSomeSG m c1 c2)

/-- The `alreadyRecorded` duplicate check of the source for Player A rows. -/
def recordedA (results : List DominationResult) (i j : Nat) : Bool :=
  results.any fun r =>
    r.dominated.player == PlayerLabel.A && r.dominated.index == i && r.by_.index == j

/-- The `alreadyRecorded` duplicate check of the source for Player B columns. -/
def recordedB (results : List DominationResult) (c1 c2 : Nat) : Bool :=
  results.any fun r =>
    r.dominated.player == PlayerLabel.B && r.dominated.index == c1 && r.by_.index == c2

def domResultA (m : PayoffMatrix) (i j : Nat) : DominationResult :=
  { dominated := { player := PlayerLabel.A, index := i, label := m.rowLabels.getD i "" },
    by_ := { player := PlayerLabel.A, index := j, label := m.rowLabels.getD j "" },
    strict := rowAllSG m i j }

def domResultB (m : PayoffMatrix) (c1 c2 : Nat) : DominationResult :=
  { dominated := { player := PlayerLabel.B, index := c1, label := m.colLabels.getD c1 "" },
    by_ := { player := PlayerLabel.B, index := c2, label := m.colLabels.getD c2 "" },
    strict := colAllSG m c1 c2 }

def findDominatedStrategies (m : PayoffMatrix) : List DominationResult :=
  let afterRows :=
    (List.range m.rows).foldl (fun results i =>
      (List.range m.rows).foldl (fun results j =>
        if i == j then results
        else if pushRowA m i j then
          if recordedA results i j then results else results ++ [domResultA m i j]
        else results) results) []
  (List.range m.cols).foldl (fun results c1 =>
    (List.range m.cols).foldl (fun results c2 =>
      if c1 == c2 then results
      else if pushColB m c1 c2 then
        if recordedB results c1 c2 then results else results ++ [domResultB m c1 c2]
      else results) results) afterRows

/-- Folding over a `flatMap` is folding the blocks one after the other. -/
theorem foldl_flatMap_blocks {α β γ : Type} (l : List α) (g : α → List β)
    (f : γ → β → γ) (init : γ) :
    (l.flatMap g).foldl f init = l.foldl (fun acc x => (g x).foldl f acc) init := by
  induction l generalizing init with
  | nil => rfl
  | cons x xs ih => rw [List.flatMap_cons, List.foldl_append, List.foldl_cons, ih]

/-- All ordered index pairs `(i, j)` with `i, j < n`, in scan order. -/
def pairList (n : Nat) : List (Nat × Nat) :=
  (List.range n).flatMap fun i => (List.range n).map fun j => (i, j)

theorem mem_pairList (n : Nat) (p : Nat × Nat) :
    p ∈ pairList n ↔ p.1 < n ∧ p.2 < n := by
  unfold pairList
  rw [List.mem_flatMap]
  constructor
  · rintro ⟨i, hi, hp⟩
    obtain ⟨j, hj, rfl⟩ := List.mem_map.mp hp
    exact ⟨List.mem_range.mp hi, List.mem_range.mp hj⟩
  · rintro ⟨h1, h2⟩
    exact ⟨p.1, List.mem_range.mpr h1,
      List.mem_map.mpr ⟨p.2, List.mem_range.mpr h2, rfl⟩⟩

theorem pairList_nodup (n : Nat) : (pairList n).Nodup := by
  unfold pairList
  unfold List.Nodup
  rw [List.pairwise_flatMap]
  constructor
  · intro i _
    rw [List.pairwise_map]
    refine List.Pairwise.imp ?_ (List.pairwise_lt_range n)
    intro a b hab h
    exact absurd (congrArg Prod.snd h) (Nat.ne_of_lt hab)
  · refine List.Pairwise.imp ?_ (List.pairwise_lt_range n)
    intro i1 i2 h12 x hx y hy
    obtain ⟨j1, _, rfl⟩ := List.mem_map.mp hx
    obtain ⟨j2, _, rfl⟩ := List.mem_map.mp hy
    intro h
    exact absurd (congrArg Prod.fst h) (Nat.ne_of_lt h12)

theorem rowAllGE_iff (m : PayoffMatrix) (i j : Nat) :
    rowAllGE m i j = true ↔ ∀ c, c < m.cols → (m.cell i c).a ≤ (m.cell j c).a := by
  unfold rowAllGE
  rw [List.all_eq_true]
  simp only [List.mem_range, decide_eq_true_eq]

theorem rowSomeSG_iff (m : PayoffMatrix) (i j : Nat) :
    rowSomeSG m i j = true ↔ ∃ c, c < m.cols ∧ (m.cell i c).a < (m.cell j c).a := by
  unfold rowSomeSG
  rw [List.any_eq_true]
  simp only [List.mem_range, decide_eq_true_eq]

theorem rowAllSG_iff (m : PayoffMatrix) (i j : Nat) :
    rowAllSG m i j = true ↔ ∀ c, c < m.cols → (m.cell i c).a < (m.cell j c).a := by
  unfold rowAllSG
  rw [List.all_eq_true]
  simp only [List.mem_range, decide_eq_true_eq]

theorem colAllGE_iff (m : PayoffMatrix) (c1 c2 : Nat) :
    colAllGE m c1 c2 = true ↔ ∀ r, r < m.rows → (m.cell r c1).b ≤ (m.cell r c2).b := by
  unfold colAllGE
  rw [List.all_eq_true]
  simp only [List.mem_range, decide_eq_true_eq]

theorem colSomeSG_iff (m : PayoffMatrix) (c1 c2 : Nat) :
    colSomeSG m c1 c2 = true ↔ ∃ r, r < m.rows ∧ (m.cell r c1).b < (m.cell r c2).b := by
  unfold colSomeSG
  rw [List.any_eq_true]
  simp only [List.mem_range, decide_eq_true_eq]

theorem colAllSG_iff (m : PayoffMatrix) (c1 c2 : Nat) :
    colAllSG m c1 c2 = true ↔ ∀ r, r < m.rows → (m.cell r c1).b < (m.cell r c2).b := by
  unfold colAllSG
  rw [List.all_eq_true]
  simp only [List.mem_range, decide_eq_true_eq]

/-- The push condition of the source is exactly weak domination (`≥`
everywhere, `>` somewhere) as soon as there is at least one column. -/
theorem pushRowA_iff (m : PayoffMatrix) (hc : 1 ≤ m.cols) (i j : Nat) :
    pushRowA m i j = true ↔
      ((∀ c, c < m.cols → (m.cell i c).a ≤ (m.cell j c).a) ∧
       (∃ c, c < m.cols ∧ (m.cell i c).a < (m.cell j c).a)) := by
  unfold pushRowA
  rw [Bool.or_eq_true, Bool.and_eq_true_iff, rowAllGE_iff, rowSomeSG_iff, rowAllSG_iff]
  constructor
  · rintro (h | ⟨h1, h2⟩)
    · exact ⟨fun c hcc => le_of_lt (h c hcc), 0, hc, h 0 hc⟩
    · exact ⟨h1, h2⟩
  · rintro ⟨h1, h2⟩
    exact Or.inr ⟨h1, h2⟩

theorem pushColB_iff (m : PayoffMatrix) (hr : 1 ≤ m.rows) (c1 c2 : Nat) :
    pushColB m c1 c2 = true ↔
      ((∀ r, r < m.rows → (m.cell r c1).b ≤ (m.cell r c2).b) ∧
       (∃ r, r < m.rows ∧ (m.cell r c1).b < (m.cell r c2).b)) := by
  unfold pushColB
  rw [Bool.or_eq_true, Bool.and_eq_true_iff, colAllGE_iff, colSomeSG_iff, colAllSG_iff]
  constructor
  · rintro (h | ⟨h1, h2⟩)
    · exact ⟨fun r hrr => le_of_lt (h r hrr), 0, hr, h 0 hr⟩
    · exact ⟨h1, h2⟩
  · rintro ⟨h1, h2⟩
    exact Or.inr ⟨h1, h2⟩

/-- One step of the Player-A double loop, acting on a visited pair. -/
def stepA (m : PayoffMatrix) (results : List DominationResult) (p : Nat × Nat) :
    List DominationResult :=
  if p.1 == p.2 then results
  else if pushRowA m p.1 p.2 then
    if recordedA results p.1 p.2 then results else results ++ [domResultA m p.1 p.2]
  else results

def stepB (m : PayoffMatrix) (results : List DominationResult) (p : Nat × Nat) :
    List DominationResult :=
  if p.1 == p.2 then results
  else if pushColB m p.1 p.2 then
    if recordedB results p.1 p.2 then results else results ++ [domResultB m p.1 p.2]
  else results

def pushOptA (m : PayoffMatrix) (p : Nat × Nat) : Option DominationResult :=
  if p.1 ≠ p.2 ∧ pushRowA m p.1 p.2 = true then some (domResultA m p.1 p.2) else none

def pushOptB (m : PayoffMatrix) (p : Nat × Nat) : Option DominationResult :=
  if p.1 ≠ p.2 ∧ pushColB m p.1 p.2 = true then some (domResultB m p.1 p.2) else none

theorem recordedA_append (acc : List DominationResult) (x : DominationResult) (i j : Nat) :
    recordedA (acc ++ [x]) i j =
      (recordedA acc i j ||
        (x.dominated.player == PlayerLabel.A && x.dominated.index == i && x.by_.index == j)) := by
  unfold recordedA
  rw [List.any_append]
  simp [List.any_cons]

theorem recordedB_append (acc : List DominationResult) (x : DominationResult) (i j : Nat) :
    recordedB (acc ++ [x]) i j =
      (recordedB acc i j ||
        (x.dominated.player == PlayerLabel.B && x.dominated.index == i && x.by_.index == j)) := by
  unfold recordedB
  rw [List.any_append]
  simp [List.any_cons]

theorem recordFoldA (m : PayoffMatrix) (ps : List (Nat × Nat)) (acc : List DominationResult)
    (hnd : ps.Nodup) (hrec : ∀ p ∈ ps, recordedA acc p.1 p.2 = false) :
    ps.foldl (stepA m) acc = acc ++ ps.filterMap (pushOptA m) := by
  induction ps generalizing acc with
  | nil => simp
  | cons p ps ih =>
    rw [List.foldl_cons, List.filterMap_cons]
    have hndtail := (List.nodup_cons.mp hnd).2
    have hhead := (List.nodup_cons.mp hnd).1
    by_cases hcase : p.1 = p.2
    · have h1 : stepA m acc p = acc := by
        unfold stepA
        rw [if_pos (beq_iff_eq.mpr hcase)]
      have h2 : pushOptA m p = none := by
        unfold pushOptA
        rw [if_neg]
        rintro ⟨hne, _⟩
        exact hne hcase
      rw [h1, h2, ih acc hndtail (fun q hq => hrec q (List.mem_cons_of_mem p hq))]
    · by_cases hpush : pushRowA m p.1 p.2 = true
      · have h1 : stepA m acc p = acc ++ [domResultA m p.1 p.2] := by
          unfold stepA
          rw [if_neg (by simpa using hcase), if_pos hpush,
            if_neg (by rw [hrec p (List.mem_cons_self p ps)]; exact Bool.false_ne_true)]
        have h2 : pushOptA m p = some (domResultA m p.1 p.2) := by
          unfold pushOptA
          rw [if_pos ⟨hcase, hpush⟩]
        rw [h1, h2, ih _ hndtail ?_]
        · rw [List.append_assoc]
          rfl
        · intro q hq
          rw [recordedA_append, hrec q (List.mem_cons_of_mem p hq)]
          simp only [Bool.false_or, domResultA]
          rw [Bool.and_eq_false_iff]
          by_cases hq1 : p.1 = q.1
          · right
            rw [beq_eq_false_iff_ne]
            intro hq2
            exact hhead (by
              have : p = q := Prod.ext hq1 hq2
              rw [this]
              exact hq)
          · left
            rw [Bool.and_eq_false_iff]
            right
            rw [beq_eq_false_iff_ne]
            exact hq1
      · have h1 : stepA m acc p = acc := by
          unfold stepA
          rw [if_neg (by simpa using hcase), if_neg hpush]
        have h2 : pushOptA m p = none := by
          unfold pushOptA
          rw [if_neg]
          rintro ⟨_, hp⟩
          exact hpush hp
        rw [h1, h2, ih acc hndtail (fun q hq => hrec q (List.mem_cons_of_mem p hq))]

theorem recordFoldB (m : PayoffMatrix) (ps : List (Nat × Nat)) (acc : List DominationResult)
    (hnd : ps.Nodup) (hrec : ∀ p ∈ ps, recordedB acc p.1 p.2 = false) :
    ps.foldl (stepB m) acc = acc ++ ps.filterMap (pushOptB m) := by
  induction ps generalizing acc with
  | nil => simp
  | cons p ps ih =>
    rw [List.foldl_cons, List.filterMap_cons]
    have hndtail := (List.nodup_cons.mp hnd).2
    have hhead := (List.nodup_cons.mp hnd).1
    by_cases hcase : p.1 = p.2
    · have h1 : stepB m acc p = acc := by
        unfold stepB
        rw [if_pos (beq_iff_eq.mpr hcase)]
      have h2 : pushOptB m p = none := by
        unfold pushOptB
        rw [if_neg]
        rintro ⟨hne, _⟩
        exact hne hcase
      rw [h1, h2, ih acc hndtail (fun q hq => hrec q (List.mem_cons_of_mem p hq))]
    · by_cases hpush : pushColB m p.1 p.2 = true
      · have h1 : stepB m acc p = acc ++ [domResultB m p.1 p.2] := by
          unfold stepB
          rw [if_neg (by simpa using hcase), if_pos hpush,
            if_neg (by rw [hrec p (List.mem_cons_self p ps)]; exact Bool.false_ne_true)]
        have h2 : pushOptB m p = some (domResultB m p.1 p.2) := by
          unfold pushOptB
          rw [if_pos ⟨hcase, hpush⟩]
        rw [h1, h2, ih _ hndtail ?_]
        · rw [List.append_assoc]
          rfl
        · intro q hq
          rw [recordedB_append, hrec q (List.mem_cons_of_mem p hq)]
          simp only [Bool.false_or, domResultB]
          rw [Bool.and_eq_false_iff]
          by_cases hq1 : p.1 = q.1
          · right
            rw [beq_eq_false_iff_ne]
            intro hq2
            exact hhead (by
              have : p = q := Prod.ext hq1 hq2
              rw [this]
              exact hq)
          · left
            rw [Bool.and_eq_false_iff]
            right
            rw [beq_eq_false_iff_ne]
            exact hq1
      · have h1 : stepB m acc p = acc := by
          unfold stepB
          rw [if_neg (by simpa using hcase), if_neg hpush]
        have h2 : pushOptB m p = none := by
          unfold pushOptB
          rw [if_neg]
          rintro ⟨_, hp⟩
          exact hpush hp
        rw [h1, h2, ih acc hndtail (fun q hq => hrec q (List.mem_cons_of_mem p hq))]

theorem stepA_eq_body (m : PayoffMatrix) :
    (fun (acc : List DominationResult) (i : Nat) =>
        ((List.range m.rows).map (fun j => (i, j))).foldl (stepA m) acc) =
      (fun results i =>
        (List.range m.rows).foldl (fun results j =>
          if i == j then results
          else if pushRowA m i j then
            if recordedA results i j then results else results ++ [domResultA m i j]
          else results) results) := by
  funext acc i
  rw [List.foldl_map]
  rfl

theorem stepB_eq_body (m : PayoffMatrix) :
    (fun (acc : List DominationResult) (c1 : Nat) =>
        ((List.range m.cols).map (fun c2 => (c1, c2))).foldl (stepB m) acc) =
      (fun results c1 =>
        (List.range m.cols).foldl (fun results c2 =>
          if c1 == c2 then results
          else if pushColB m c1 c2 then
            if recordedB results c1 c2 then results else results ++ [domResultB m c1 c2]
          else results) results) := by
  funext acc c1
  rw [List.foldl_map]
  rfl

theorem recordedA_eq_false_of_allB (acc : List DominationResult)
    (h : ∀ d ∈ acc, d.dominated.player = PlayerLabel.B) (i j : Nat) :
    recordedA acc i j = false := by
  unfold recordedA
  rw [Bool.eq_false_iff]
  intro hany
  obtain ⟨d, hd, hdp⟩ := List.any_eq_true.mp hany
  obtain ⟨hp, _⟩ := Bool.and_eq_true_iff.mp (Bool.and_eq_true_iff.mp hdp).1
  rw [h d hd] at hp
  exact PlayerLabel.noConfusion (beq_iff_eq.mp hp)

theorem recordedB_eq_false_of_allA (acc : List DominationResult)
    (h : ∀ d ∈ acc, d.dominated.player = PlayerLabel.A) (i j : Nat) :
    recordedB acc i j = false := by
  unfold recordedB
  rw [Bool.eq_false_iff]
  intro hany
  obtain ⟨d, hd, hdp⟩ := List.any_eq_true.mp hany
  obtain ⟨hp, _⟩ := Bool.and_eq_true_iff.mp (Bool.and_eq_true_iff.mp hdp).1
  rw [h d hd] at hp
  exact PlayerLabel.noConfusion (beq_iff_eq.mp hp)

theorem mem_filterMap_pushOptA (m : PayoffMatrix) (d : DominationResult) :
    d ∈ (pairList m.rows).filterMap (pushOptA m) ↔
      ∃ i j, i < m.rows ∧ j < m.rows ∧ i ≠ j ∧ pushRowA m i j = true ∧
        d = domResultA m i j := by
  rw [List.mem_filterMap]
  constructor
  · rintro ⟨p, hp, hpush⟩
    obtain ⟨h1, h2⟩ := (mem_pairList m.rows p).mp hp
    unfold pushOptA at hpush
    by_cases hcond : p.1 ≠ p.2 ∧ pushRowA m p.1 p.2 = true
    · rw [if_pos hcond] at hpush
      injection hpush with hpush
      exact ⟨p.1, p.2, h1, h2, hcond.1, hcond.2, hpush.symm⟩
    · rw [if_neg hcond] at hpush
      cases hpush
  · rintro ⟨i, j, h1, h2, h3, h4, rfl⟩
    refine ⟨(i, j), (mem_pairList m.rows (i, j)).mpr ⟨h1, h2⟩, ?_⟩
    unfold pushOptA
    rw [if_pos ⟨h3, h4⟩]

theorem mem_filterMap_pushOptB (m : PayoffMatrix) (d : DominationResult) :
    d ∈ (pairList m.cols).filterMap (pushOptB m) ↔
      ∃ c1 c2, c1 < m.cols ∧ c2 < m.cols ∧ c1 ≠ c2 ∧ pushColB m c1 c2 = true ∧
        d = domResultB m c1 c2 := by
  rw [List.mem_filterMap]
  constructor
  · rintro ⟨p, hp, hpush⟩
    obtain ⟨h1, h2⟩ := (mem_pairList m.cols p).mp hp
    unfold pushOptB at hpush
    by_cases hcond : p.1 ≠ p.2 ∧ pushColB m p.1 p.2 = true
    · rw [if_pos hcond] at hpush
      injection hpush with hpush
      exact ⟨p.1, p.2, h1, h2, hcond.1, hcond.2, hpush.symm⟩
    · rw [if_neg hcond] at hpush
      cases hpush
  · rintro ⟨c1, c2, h1, h2, h3, h4, rfl⟩
    refine ⟨(c1, c2), (mem_pairList m.cols (c1, c2)).mpr ⟨h1, h2⟩, ?_⟩
    unfold pushOptB
    rw [if_pos ⟨h3, h4⟩]

/-- The duplicate-guarded double loops of the source reduce to plain
filtered scans: each ordered pair is visited exactly once, so the
`alreadyRecorded` check never fires. -/
theorem findDominatedStrategies_eq (m : PayoffMatrix) :
    findDominatedStrategies m =
      (pairList m.rows).filterMap (pushOptA m) ++
      (pairList m.cols).filterMap (pushOptB m) := by
  unfold findDominatedStrategies
  have hA : (List.range m.rows).foldl (fun results i =>
      (List.range m.rows).foldl (fun results j =>
        if i == j then results
        else if pushRowA m i j then
          if recordedA results i j then results else results ++ [domResultA m i j]
        else results) results) [] =
      (pairList m.rows).filterMap (pushOptA m) := by
    rw [← stepA_eq_body m, ← foldl_flatMap_blocks]
    have h := recordFoldA m (pairList m.rows) [] (pairList_nodup m.rows)
      (fun p _ => rfl)
    unfold pairList at h
    rw [h, List.nil_append]
    rfl
  rw [hA]
  have hrecB : ∀ p ∈ pairList m.cols,
      recordedB ((pairList m.rows).filterMap (pushOptA m)) p.1 p.2 = false := by
    intro p _
    apply recordedB_eq_false_of_allA
    intro d hd
    obtain ⟨i, j, _, _, _, _, rfl⟩ := (mem_filterMap_pushOptA m d).mp hd
    rfl
  have hB := recordFoldB m (pairList m.cols)
    ((pairList m.rows).filterMap (pushOptA m)) (pairList_nodup m.cols) hrecB
  rw [← stepB_eq_body m, ← foldl_flatMap_blocks]
  exact hB

theorem pushOptA_mem_eq (m : PayoffMatrix) (p : Nat × Nat) (b : DominationResult)
    (h : b ∈ pushOptA m p) : b = domResultA m p.1 p.2 := by
  unfold pushOptA at h
  by_cases hc : p.1 ≠ p.2 ∧ pushRowA m p.1 p.2 = true
  · rw [if_pos hc] at h
    exact Option.mem_some_iff.mp h |>.symm
  · rw [if_neg hc] at h
    cases h

theorem pushOptB_mem_eq (m : PayoffMatrix) (p : Nat × Nat) (b : DominationResult)
    (h : b ∈ pushOptB m p) : b = domResultB m p.1 p.2 := by
  unfold pushOptB at h
  by_cases hc : p.1 ≠ p.2 ∧ pushColB m p.1 p.2 = true
  · rw [if_pos hc] at h
    exact Option.mem_some_iff.mp h |>.symm
  · rw [if_neg hc] at h
    cases h

/-- C5: `findDominatedStrategies` reports `(dominated = i, by = j)` exactly
when `j` is at least as good as `i` everywhere with a strict improvement
somewhere (columns for Player A rows, rows for Player B columns); it never
reports a strategy as dominated by itself; each `(dominated, by)` pair
appears at most once; and `strict = true` exactly when the inequality is
strict in every compared column/row. -/
theorem findDominatedStrategies_correct (m : PayoffMatrix) (hm : m.WellFormed) :
    (∀ i j : Nat,
      ((∃ d ∈ findDominatedStrategies m,
          d.dominated.player = PlayerLabel.A ∧ d.dominated.index = i ∧ d.by_.index = j) ↔
        (i < m.rows ∧ j < m.rows ∧ i ≠ j ∧
          (∀ c, c < m.cols → (m.cell i c).a ≤ (m.cell j c).a) ∧
          (∃ c, c < m.cols ∧ (m.cell i c).a < (m.cell j c).a))) ∧
      ((∃ d ∈ findDominatedStrategies m,
          d.dominated.player = PlayerLabel.B ∧ d.dominated.index = i ∧ d.by_.index = j) ↔
        (i < m.cols ∧ j < m.cols ∧ i ≠ j ∧
          (∀ r, r < m.rows → (m.cell r i).b ≤ (m.cell r j).b) ∧
          (∃ r, r < m.rows ∧ (m.cell r i).b < (m.cell r j).b)))) ∧
    (∀ d ∈ findDominatedStrategies m,
      d.dominated.player = d.by_.player ∧ d.dominated.index ≠ d.by_.index) ∧
    ((findDominatedStrategies m).map
      (fun d => (d.dominated.player, d.dominated.index, d.by_.index))).Nodup ∧
    (∀ d ∈ findDominatedStrategies m,
      (d.dominated.player = PlayerLabel.A →
        (d.strict = true ↔
          ∀ c, c < m.cols → (m.cell d.dominated.index c).a < (m.cell d.by_.index c).a)) ∧
      (d.dominated.player = PlayerLabel.B →
        (d.strict = true ↔
          ∀ r, r < m.rows → (m.cell r d.dominated.index).b < (m.cell r d.by_.index).b))) := by
  obtain ⟨hr1, hc1, -, -, -, -⟩ := hm
  refine ⟨?_, ?_, ?_, ?_⟩
  · intro i j
    constructor
    · constructor
      · rintro ⟨d, hd, hpl, hdi, hdj⟩
        rw [findDominatedStrategies_eq, List.mem_append] at hd
        rcases hd with hd | hd
        · obtain ⟨i', j', h1, h2, h3, h4, rfl⟩ := (mem_filterMap_pushOptA m d).mp hd
          obtain ⟨hge, hsg⟩ := (pushRowA_iff m hc1 i' j').mp h4
          have hii : i' = i := hdi
          have hjj : j' = j := hdj
          subst hii hjj
          exact ⟨h1, h2, h3, hge, hsg⟩
        · obtain ⟨c1, c2, _, _, _, _, rfl⟩ := (mem_filterMap_pushOptB m d).mp hd
          exact absurd hpl (by intro h; exact PlayerLabel.noConfusion h)
      · rintro ⟨h1, h2, h3, hge, hsg⟩
        refine ⟨domResultA m i j, ?_, rfl, rfl, rfl⟩
        rw [findDominatedStrategies_eq, List.mem_append]
        left
        exact (mem_filterMap_pushOptA m _).mpr
          ⟨i, j, h1, h2, h3, (pushRowA_iff m hc1 i j).mpr ⟨hge, hsg⟩, rfl⟩
    · constructor
      · rintro ⟨d, hd, hpl, hdi, hdj⟩
        rw [findDominatedStrategies_eq, List.mem_append] at hd
        rcases hd with hd | hd
        · obtain ⟨i', j', _, _, _, _, rfl⟩ := (mem_filterMap_pushOptA m d).mp hd
          exact absurd hpl (by intro h; exact PlayerLabel.noConfusion h)
        · obtain ⟨c1, c2, h1, h2, h3, h4, rfl⟩ := (mem_filterMap_pushOptB m d).mp hd
          obtain ⟨hge, hsg⟩ := (pushColB_iff m hr1 c1 c2).mp h4
          have hii : c1 = i := hdi
          have hjj : c2 = j := hdj
          subst hii hjj
          exact ⟨h1, h2, h3, hge, hsg⟩
      · rintro ⟨h1, h2, h3, hge, hsg⟩
        refine ⟨domResultB m i j, ?_, rfl, rfl, rfl⟩
        rw [findDominatedStrategies_eq, List.mem_append]
        right
        exact (mem_filterMap_pushOptB m _).mpr
          ⟨i, j, h1, h2, h3, (pushColB_iff m hr1 i j).mpr ⟨hge, hsg⟩, rfl⟩
  · intro d hd
    rw [findDominatedStrategies_eq, List.mem_append] at hd
    rcases hd with hd | hd
    · obtain ⟨i, j, _, _, h3, _, rfl⟩ := (mem_filterMap_pushOptA m d).mp hd
      exact ⟨rfl, h3⟩
    · obtain ⟨c1, c2, _, _, h3, _, rfl⟩ := (mem_filterMap_pushOptB m d).mp hd
      exact ⟨rfl, h3⟩
  · rw [findDominatedStrategies_eq, List.map_append]
    rw [List.Nodup, List.pairwise_append]
    refine ⟨?_, ?_, ?_⟩
    · rw [List.pairwise_map, List.pairwise_filterMap]
      refine List.Pairwise.imp ?_ (pairList_nodup m.rows)
      intro p q hpq b hb b' hb'
      rw [pushOptA_mem_eq m p b hb, pushOptA_mem_eq m q b' hb']
      intro hcontra
      apply hpq
      have h2 := congrArg (fun x => x.2.1) hcontra
      have h3 := congrArg (fun x => x.2.2) hcontra
      exact Prod.ext h2 h3
    · rw [List.pairwise_map, List.pairwise_filterMap]
      refine List.Pairwise.imp ?_ (pairList_nodup m.cols)
      intro p q hpq b hb b' hb'
      rw [pushOptB_mem_eq m p b hb, pushOptB_mem_eq m q b' hb']
      intro hcontra
      apply hpq
      have h2 := congrArg (fun x => x.2.1) hcontra
      have h3 := congrArg (fun x => x.2.2) hcontra
      exact Prod.ext h2 h3
    · intro a ha b hb
      obtain ⟨da, hda, rfl⟩ := List.mem_map.mp ha
      obtain ⟨db, hdb, rfl⟩ := List.mem_map.mp hb
      obtain ⟨pa, hpa, hfa⟩ := List.mem_filterMap.mp hda
      obtain ⟨pb, hpb, hfb⟩ := List.mem_filterMap.mp hdb
      rw [pushOptA_mem_eq m pa da hfa, pushOptB_mem_eq m pb db hfb]
      intro hcontra
      exact PlayerLabel.noConfusion (congrArg (fun x => x.1) hcontra)
  · intro d hd
    rw [findDominatedStrategies_eq, List.mem_append] at hd
    rcases hd with hd | hd
    · obtain ⟨i, j, _, _, _, _, rfl⟩ := (mem_filterMap_pushOptA m d).mp hd
      refine ⟨fun _ => ?_, fun h => absurd h (by intro h; exact PlayerLabel.noConfusion h)⟩
      exact rowAllSG_iff m i j
    · obtain ⟨c1, c2, _, _, _, _, rfl⟩ := (mem_filterMap_pushOptB m d).mp hd
      refine ⟨fun h => absurd h (by intro h; exact PlayerLabel.noConfusion h), fun _ => ?_⟩
      exact colAllSG_iff m c1 c2

theorem findDominatedStrategies_correct_witness :
    exampleMatrix.WellFormed ∧
    ((∀ i j : Nat,
      ((∃ d ∈ findDominatedStrategies exampleMatrix,
          d.dominated.player = PlayerLabel.A ∧ d.dominated.index = i ∧ d.by_.index = j) ↔
        (i < exampleMatrix.rows ∧ j < exampleMatrix.rows ∧ i ≠ j ∧
          (∀ c, c < exampleMatrix.cols →
            (exampleMatrix.cell i c).a ≤ (exampleMatrix.cell j c).a) ∧
          (∃ c, c < exampleMatrix.cols ∧
            (exampleMatrix.cell i c).a < (exampleMatrix.cell j c).a))) ∧
      ((∃ d ∈ findDominatedStrategies exampleMatrix,
          d.dominated.player = PlayerLabel.B ∧ d.dominated.index = i ∧ d.by_.index = j) ↔
        (i < exampleMatrix.cols ∧ j < exampleMatrix.cols ∧ i ≠ j ∧
          (∀ r, r < exampleMatrix.rows →
            (exampleMatrix.cell r i).b ≤ (exampleMatrix.cell r j).b) ∧
          (∃ r, r < exampleMatrix.rows ∧
            (exampleMatrix.cell r i).b < (exampleMatrix.cell r j).b)))) ∧
    (∀ d ∈ findDominatedStrategies exampleMatrix,
      d.dominated.player = d.by_.player ∧ d.dominated.index ≠ d.by_.index) ∧
    ((findDominatedStrategies exampleMatrix).map
      (fun d => (d.dominated.player, d.dominated.index, d.by_.index))).Nodup ∧
    (∀ d ∈ findDominatedStrategies exampleMatrix,
      (d.dominated.player = PlayerLabel.A →
        (d.strict = true ↔
          ∀ c, c < exampleMatrix.cols →
            (exampleMatrix.cell d.dominated.index c).a <
              (exampleMatrix.cell d.by_.index c).a)) ∧
      (d.dominated.player = PlayerLabel.B →
        (d.strict = true ↔
          ∀ r, r < exampleMatrix.rows →
            (exampleMatrix.cell r d.dominated.index).b <
              (exampleMatrix.cell r d.by_.index).b)))) :=
  ⟨by decide, findDominatedStrategies_correct exampleMatrix (by decide)⟩

/-! ### IEDS solver (`performIEDS`, src/lib/ieds.ts part of QuestionPanel.tsx)

The source keeps two JS `Set`s of active indices.  They are created from
ascending ranges and only ever shrink, so `Set` iteration order (insertion
order) is always ascending: the embedding uses sorted duplicate-free
`List Nat`s.  Each pass scans active rows (outer loop: dominated
candidate `i`; inner loop: dominator `j`) and eliminates the first
strictly dominated row, restarting the pass; only if no row is eliminated
does it scan active columns the same way; the `while` stops when a full
pass eliminates nothing. -/

def rowDomB (m : PayoffMatrix) (activeCols : List Nat) (i j : Nat) : Bool :=
  activeCols.all fun c => decide ((m.cell i c).a < (m.cell j c).a)

def colDomB (m : PayoffMatrix) (activeRows : List Nat) (c1 c2 : Nat) : Bool :=
  activeRows.all fun r => decide ((m.cell r c1).b < (m.cell r c2).b)

/-- First `(i, j)` in scan order with active row `i` strictly dominated by
active row `j` on the active columns (the `i === j` case is skipped). -/
def findRowElim (m : PayoffMatrix) (activeRows activeCols : List Nat) :
    Option (Nat × Nat) :=
  activeRows.findSome? fun i =>
    (activeRows.find? fun j => (!(i == j)) && rowDomB m activeCols i j).map fun j => (i, j)

def findColElim (m : PayoffMatrix) (activeRows activeCols : List Nat) :
    Option (Nat × Nat) :=
  activeCols.findSome? fun c1 =>
    (activeCols.find? fun c2 => (!(c1 == c2)) && colDomB m activeRows c1 c2).map fun c2 => (c1, c2)

def reasonA (m : PayoffMatrix) (i j : Nat) : String :=
  "Player A\x27s strategy \"" ++ m.rowLabels.getD i "" ++
  "\" is strictly dominated by \"" ++ m.rowLabels.getD j "" ++
  "\". For every column, " ++ m.rowLabels.getD j "" ++
  " gives Player A a higher payoff."

def reasonB (m : PayoffMatrix) (c1 c2 : Nat) : String :=
  "Player B\x27s strategy \"" ++ m.colLabels.getD c1 "" ++
  "\" is strictly dominated by \"" ++ m.colLabels.getD c2 "" ++
  "\". For every row, " ++ m.colLabels.getD c2 "" ++
  " gives Player B a higher payoff."

def stepRecordA (m : PayoffMatrix) (i j : Nat) : IEDSStep :=
  { eliminated := { player := PlayerLabel.A, index := i, label := m.rowLabels.getD i "" },
    reason := reasonA m i j }

def stepRecordB (m : PayoffMatrix) (c1 c2 : Nat) : IEDSStep :=
  { eliminated := { player := PlayerLabel.B, index := c1, label := m.colLabels.getD c1 "" },
    reason := reasonB m c1 c2 }

theorem findRowElim_mem (m : PayoffMatrix) {R C : List Nat} {i j : Nat}
    (h : findRowElim m R C = some (i, j)) :
    i ∈ R ∧ j ∈ R ∧ i ≠ j ∧ rowDomB m C i j = true := by
  unfold findRowElim at h
  obtain ⟨a, ha, hfa⟩ := List.exists_of_findSome?_eq_some h
  cases hf : R.find? fun j => (!(a == j)) && rowDomB m C a j with
  | none => rw [hf] at hfa; cases hfa
  | some j' =>
    rw [hf] at hfa
    injection hfa with hfa
    have h1 : a = i := congrArg Prod.fst hfa
    have h2 : j' = j := congrArg Prod.snd hfa
    subst h1
    subst h2
    have hp := List.find?_some hf
    obtain ⟨hne, hdom⟩ := Bool.and_eq_true_iff.mp hp
    refine ⟨ha, List.mem_of_find?_eq_some hf, ?_, hdom⟩
    intro hcontra
    rw [hcontra] at hne
    simp at hne

theorem findColElim_mem (m : PayoffMatrix) {R C : List Nat} {c1 c2 : Nat}
    (h : findColElim m R C = some (c1, c2)) :
    c1 ∈ C ∧ c2 ∈ C ∧ c1 ≠ c2 ∧ colDomB m R c1 c2 = true := by
  unfold findColElim at h
  obtain ⟨a, ha, hfa⟩ := List.exists_of_findSome?_eq_some h
  cases hf : C.find? fun c2 => (!(a == c2)) && colDomB m R a c2 with
  | none => rw [hf] at hfa; cases hfa
  | some j' =>
    rw [hf] at hfa
    injection hfa with hfa
    have h1 : a = c1 := congrArg Prod.fst hfa
    have h2 : j' = c2 := congrArg Prod.snd hfa
    subst h1
    subst h2
    have hp := List.find?_some hf
    obtain ⟨hne, hdom⟩ := Bool.and_eq_true_iff.mp hp
    refine ⟨ha, List.mem_of_find?_eq_some hf, ?_, hdom⟩
    intro hcontra
    rw [hcontra] at hne
    simp at hne

def iedsLoop (m : PayoffMatrix) (activeRows activeCols : List Nat)
    (steps : List IEDSStep) : List IEDSStep × List Nat × List Nat :=
  match h : findRowElim m activeRows activeCols with
  | some (i, j) =>
      iedsLoop m (activeRows.erase i) activeCols (steps ++ [stepRecordA m i j])
  | none =>
      match h2 : findColElim m activeRows activeCols with
      | some (c1, c2) =>
          iedsLoop m activeRows (activeCols.erase c1) (steps ++ [stepRecordB m c1 c2])
      | none => (steps, activeRows, activeCols)
termination_by activeRows.length + activeCols.length
decreasing_by
  · have hmem := (findRowElim_mem m h).1
    have hlen := List.length_erase_of_mem hmem
    have hpos : 0 < activeRows.length := List.length_pos.mpr (by rintro rfl; cases hmem)
    omega
  · have hmem := (findColElim_mem m h2).1
    have hlen := List.length_erase_of_mem hmem
    have hpos : 0 < activeCols.length := List.length_pos.mpr (by rintro rfl; cases hmem)
    omega

def performIEDS (m : PayoffMatrix) : IEDSResult :=
  let r := iedsLoop m (List.range m.rows) (List.range m.cols) []
  let activeRowArr := r.2.1.mergeSort (fun a b => decide (a ≤ b))
  let activeColArr := r.2.2.mergeSort (fun a b => decide (a ≤ b))
  { steps := r.1,
    survivingCells := r.2.1.flatMap fun rr => r.2.2.map fun c => { row := rr, col := c },
    residualMatrix :=
      if activeRowArr.length > 0 && activeColArr.length > 0 then
        some { rows := activeRowArr.length, cols := activeColArr.length,
               cells := activeRowArr.map fun rr => activeColArr.map fun c => m.cell rr c,
               rowLabels := activeRowArr.map fun rr => m.rowLabels.getD rr "",
               colLabels := activeColArr.map fun c => m.colLabels.getD c "" }
      else none }

theorem iedsLoop_unfold_row (m : PayoffMatrix) (R C : List Nat) (steps : List IEDSStep)
    {i j : Nat} (h : findRowElim m R C = some (i, j)) :
    iedsLoop m R C steps = iedsLoop m (R.erase i) C (steps ++ [stepRecordA m i j]) := by
  rw [iedsLoop.eq_def]
  split
  · rename_i i' j' heq
    rw [h] at heq
    injection heq with heq
    have h1 : i = i' := congrArg Prod.fst heq
    have h2 : j = j' := congrArg Prod.snd heq
    rw [h1, h2]
  · rename_i heq
    rw [h] at heq
    cases heq

theorem iedsLoop_unfold_col (m : PayoffMatrix) (R C : List Nat) (steps : List IEDSStep)
    {c1 c2 : Nat} (h : findRowElim m R C = none) (h2 : findColElim m R C = some (c1, c2)) :
    iedsLoop m R C steps = iedsLoop m R (C.erase c1) (steps ++ [stepRecordB m c1 c2]) := by
  rw [iedsLoop.eq_def]
  split
  · rename_i i' j' heq
    rw [h] at heq
    cases heq
  · split
    · rename_i c1' c2' heq
      rw [h2] at heq
      injection heq with heq
      have ha : c1 = c1' := congrArg Prod.fst heq
      have hb : c2 = c2' := congrArg Prod.snd heq
      rw [ha, hb]
    · rename_i heq
      rw [h2] at heq
      cases heq

theorem iedsLoop_unfold_done (m : PayoffMatrix) (R C : List Nat) (steps : List IEDSStep)
    (h : findRowElim m R C = none) (h2 : findColElim m R C = none) :
    iedsLoop m R C steps = (steps, R, C) := by
  rw [iedsLoop.eq_def]
  split
  · rename_i i' j' heq
    rw [h] at heq
    cases heq
  · split
    · rename_i c1' c2' heq
      rw [h2] at heq
      cases heq
    · rfl

theorem iedsLoop_main (m : PayoffMatrix) :
    ∀ (n : Nat) (R C : List Nat), R.length + C.length ≤ n →
      ∀ steps : List IEDSStep,
      ((iedsLoop m R C steps).1 = steps ++ (iedsLoop m R C []).1) ∧
      ((iedsLoop m R C steps).2 = (iedsLoop m R C []).2) ∧
      ((iedsLoop m R C steps).2.1.Sublist R) ∧
      ((iedsLoop m R C steps).2.2.Sublist C) ∧
      (findRowElim m (iedsLoop m R C steps).2.1 (iedsLoop m R C steps).2.2 = none) ∧
      (findColElim m (iedsLoop m R C steps).2.1 (iedsLoop m R C steps).2.2 = none) ∧
      (R ≠ [] → (iedsLoop m R C steps).2.1 ≠ []) ∧
      (C ≠ [] → (iedsLoop m R C steps).2.2 ≠ []) := by
  intro n
  induction n with
  | zero =>
    intro R C hlen steps
    have hR : R = [] := List.length_eq_zero.mp (by omega)
    have hC : C = [] := List.length_eq_zero.mp (by omega)
    subst hR
    subst hC
    have hrow : findRowElim m [] [] = none := rfl
    have hcol : findColElim m [] [] = none := rfl
    rw [iedsLoop_unfold_done m [] [] steps hrow hcol,
      iedsLoop_unfold_done m [] [] [] hrow hcol]
    exact ⟨by simp, rfl, List.Sublist.refl _, List.Sublist.refl _, hrow, hcol,
      fun h => h, fun h => h⟩
  | succ n ih =>
    intro R C hlen steps
    cases hrow : findRowElim m R C with
    | some p =>
      obtain ⟨i, j⟩ := p
      obtain ⟨hiR, hjR, hne, _⟩ := findRowElim_mem m hrow
      have herase : (R.erase i).length + C.length ≤ n := by
        have := List.length_erase_of_mem hiR
        have : 0 < R.length := List.length_pos.mpr (List.ne_nil_of_mem hiR)
        omega
      rw [iedsLoop_unfold_row m R C steps hrow, iedsLoop_unfold_row m R C [] hrow]
      obtain ⟨s1, s2, s3, s4, s5, s6, s7, s8⟩ := ih (R.erase i) C herase (steps ++ [stepRecordA m i j])
      obtain ⟨t1, t2, t3, t4, t5, t6, t7, t8⟩ := ih (R.erase i) C herase ([] ++ [stepRecordA m i j])
      refine ⟨?_, ?_, s3.trans (List.erase_sublist i R), s4, s5, s6, fun _ => ?_, s8⟩
      · rw [s1, t1]
        simp [List.append_assoc]
      · rw [s2, t2]
      · have hj' : j ∈ R.erase i := (List.mem_erase_of_ne (Ne.symm hne)).mpr hjR
        exact s7 (List.ne_nil_of_mem hj')
    | none =>
      cases hcol : findColElim m R C with
      | some p =>
        obtain ⟨c1, c2⟩ := p
        obtain ⟨h1C, h2C, hne, _⟩ := findColElim_mem m hcol
        have herase : R.length + (C.erase c1).length ≤ n := by
          have := List.length_erase_of_mem h1C
          have : 0 < C.length := List.length_pos.mpr (List.ne_nil_of_mem h1C)
          omega
        rw [iedsLoop_unfold_col m R C steps hrow hcol, iedsLoop_unfold_col m R C [] hrow hcol]
        obtain ⟨s1, s2, s3, s4, s5, s6, s7, s8⟩ := ih R (C.erase c1) herase (steps ++ [stepRecordB m c1 c2])
        obtain ⟨t1, t2, t3, t4, t5, t6, t7, t8⟩ := ih R (C.erase c1) herase ([] ++ [stepRecordB m c1 c2])
        refine ⟨?_, ?_, s3, s4.trans (List.erase_sublist c1 C), s5, s6, s7, fun _ => ?_⟩
        · rw [s1, t1]
          simp [List.append_assoc]
        · rw [s2, t2]
        · have hc' : c2 ∈ C.erase c1 := (List.mem_erase_of_ne (Ne.symm hne)).mpr h2C
          exact s8 (List.ne_nil_of_mem hc')
      | none =>
        rw [iedsLoop_unfold_done m R C steps hrow hcol, iedsLoop_unfold_done m R C [] hrow hcol]
        exact ⟨by simp, rfl, List.Sublist.refl _, List.Sublist.refl _, hrow, hcol,
          fun h => h, fun h => h⟩

theorem findRowElim_eq_none_iff (m : PayoffMatrix) (R C : List Nat) :
    findRowElim m R C = none ↔
      ∀ i ∈ R, ∀ j ∈ R, i ≠ j → rowDomB m C i j = false := by
  unfold findRowElim
  rw [List.findSome?_eq_none_iff]
  constructor
  · intro h i hi j hj hne
    have hmap := h i hi
    rw [Option.map_eq_none'] at hmap
    have := List.find?_eq_none.mp hmap j hj
    rw [Bool.eq_false_iff]
    intro hdom
    apply this
    rw [hdom, Bool.and_true]
    simp [hne]
  · intro h i hi
    rw [Option.map_eq_none', List.find?_eq_none]
    intro j hj hcontra
    obtain ⟨hne, hdom⟩ := Bool.and_eq_true_iff.mp hcontra
    have hij : i ≠ j := by
      intro hcase
      rw [hcase] at hne
      simp at hne
    rw [h i hi j hj hij] at hdom
    cases hdom

theorem findColElim_eq_none_iff (m : PayoffMatrix) (R C : List Nat) :
    findColElim m R C = none ↔
      ∀ c1 ∈ C, ∀ c2 ∈ C, c1 ≠ c2 → colDomB m R c1 c2 = false := by
  unfold findColElim
  rw [List.findSome?_eq_none_iff]
  constructor
  · intro h c1 h1 c2 h2 hne
    have hmap := h c1 h1
    rw [Option.map_eq_none'] at hmap
    have := List.find?_eq_none.mp hmap c2 h2
    rw [Bool.eq_false_iff]
    intro hdom
    apply this
    rw [hdom, Bool.and_true]
    simp [hne]
  · intro h c1 h1
    rw [Option.map_eq_none', List.find?_eq_none]
    intro c2 h2 hcontra
    obtain ⟨hne, hdom⟩ := Bool.and_eq_true_iff.mp hcontra
    have hc : c1 ≠ c2 := by
      intro hcase
      rw [hcase] at hne
      simp at hne
    rw [h c1 h1 c2 h2 hc] at hdom
    cases hdom

theorem mergeSort_id_of_sublist_range {l : List Nat} {n : Nat}
    (h : l.Sublist (List.range n)) :
    l.mergeSort (fun a b => decide (a ≤ b)) = l := by
  apply List.mergeSort_eq_self
  exact (List.Pairwise.sublist h (List.pairwise_lt_range n)).imp (fun hlt => le_of_lt hlt)

/-- C10: for every well-formed matrix `performIEDS` returns a non-null
residual matrix: a strict elimination keeps its (distinct) dominator
active, so neither active set can ever become empty. -/
theorem performIEDS_residual_nonnull (m : PayoffMatrix) (hm : m.WellFormed) :
    (performIEDS m).residualMatrix ≠ none := by
  obtain ⟨hr1, hc1, -, -, -, -⟩ := hm
  unfold performIEDS
  dsimp only
  obtain ⟨-, -, s3, s4, -, -, s7, s8⟩ :=
    iedsLoop_main m (m.rows + m.cols) (List.range m.rows) (List.range m.cols) (by simp) []
  have hRne : (iedsLoop m (List.range m.rows) (List.range m.cols) []).2.1 ≠ [] :=
    s7 (by rw [Ne, List.range_eq_nil]; omega)
  have hCne : (iedsLoop m (List.range m.rows) (List.range m.cols) []).2.2 ≠ [] :=
    s8 (by rw [Ne, List.range_eq_nil]; omega)
  rw [mergeSort_id_of_sublist_range s3, mergeSort_id_of_sublist_range s4]
  rw [if_pos]
  · simp
  · rw [Bool.and_eq_true_iff]
    constructor
    · simp only [decide_eq_true_eq]
      exact List.length_pos.mpr hRne
    · simp only [decide_eq_true_eq]
      exact List.length_pos.mpr hCne

theorem performIEDS_residual_nonnull_witness :
    exampleMatrix.WellFormed ∧ (performIEDS exampleMatrix).residualMatrix ≠ none :=
  ⟨by decide, performIEDS_residual_nonnull exampleMatrix (by decide)⟩

theorem residual_cell (m : PayoffMatrix) (R' C' : List Nat) (rl cl : List String)
    (ri ci : Nat) (hri : ri < R'.length) (hci : ci < C'.length) :
    PayoffMatrix.cell
      { rows := R'.length, cols := C'.length,
        cells := R'.map fun rr => C'.map fun c => m.cell rr c,
        rowLabels := rl, colLabels := cl } ri ci =
      m.cell (R'.getD ri 0) (C'.getD ci 0) := by
  show ((R'.map fun rr => C'.map fun c => m.cell rr c).getD ri []).getD ci default =
    m.cell (R'.getD ri 0) (C'.getD ci 0)
  have h1 : ri < (R'.map fun rr => C'.map fun c => m.cell rr c).length := by
    rw [List.length_map]
    exact hri
  rw [List.getD_eq_getElem _ _ h1, List.getElem_map]
  have h2 : ci < (C'.map fun c => m.cell (R'.get ⟨ri, hri⟩) c).length := by
    rw [List.length_map]
    exact hci
  rw [show R'[ri] = R'.get ⟨ri, hri⟩ from rfl]
  rw [List.getD_eq_getElem _ _ h2, List.getElem_map]
  rw [List.getD_eq_getElem _ _ hri, List.getD_eq_getElem _ _ hci]
  rfl

/-- C7: whenever `performIEDS` returns a residual matrix, running
`findDominatedStrategies` on it produces no strict domination result: the
residual game is a fixed point of strict-dominance elimination. -/
theorem performIEDS_residual_no_strict (m : PayoffMatrix) (hm : m.WellFormed) :
    ∀ res, (performIEDS m).residualMatrix = some res →
      ∀ d ∈ findDominatedStrategies res, d.strict = false := by
  obtain ⟨hr1, hc1, -, -, -, -⟩ := hm
  unfold performIEDS
  dsimp only
  obtain ⟨-, -, s3, s4, s5, s6, s7, s8⟩ :=
    iedsLoop_main m (m.rows + m.cols) (List.range m.rows) (List.range m.cols) (by simp) []
  rw [mergeSort_id_of_sublist_range s3, mergeSort_id_of_sublist_range s4]
  set L := iedsLoop m (List.range m.rows) (List.range m.cols) [] with hL
  have hRnd : L.2.1.Nodup := s3.nodup (List.nodup_range m.rows)
  have hCnd : L.2.2.Nodup := s4.nodup (List.nodup_range m.cols)
  intro res hres
  by_cases hcond : (decide (L.2.1.length > 0) && decide (L.2.2.length > 0)) = true
  case neg =>
    rw [if_neg hcond] at hres
    cases hres
  rw [if_pos hcond] at hres
  injection hres with hres
  subst hres
  intro d hd
  rw [findDominatedStrategies_eq] at hd
  rcases List.mem_append.mp hd with hdA | hdB
  · obtain ⟨ri, rj, h1, h2, h3, -, rfl⟩ := (mem_filterMap_pushOptA _ d).mp hdA
    rw [Bool.eq_false_iff]
    intro hstrict
    have hdom := (rowAllSG_iff _ ri rj).mp hstrict
    have hri : ri < L.2.1.length := h1
    have hrj : rj < L.2.1.length := h2
    have hdomB : rowDomB m L.2.2 (L.2.1.getD ri 0) (L.2.1.getD rj 0) = true := by
      unfold rowDomB
      rw [List.all_eq_true]
      intro c hc
      obtain ⟨ci, hci, hceq⟩ := List.mem_iff_getElem.mp hc
      have hstep := hdom ci hci
      rw [residual_cell m _ _ _ _ ri ci hri hci,
        residual_cell m _ _ _ _ rj ci hrj hci] at hstep
      rw [decide_eq_true_eq, ← hceq, ← List.getD_eq_getElem _ 0 hci]
      exact hstep
    have hne : L.2.1.getD ri 0 ≠ L.2.1.getD rj 0 := by
      rw [List.getD_eq_getElem _ _ hri, List.getD_eq_getElem _ _ hrj]
      rw [Ne, hRnd.getElem_inj_iff]
      exact h3
    have hmem1 : L.2.1.getD ri 0 ∈ L.2.1 := by
      rw [List.getD_eq_getElem _ _ hri]
      exact List.getElem_mem hri
    have hmem2 : L.2.1.getD rj 0 ∈ L.2.1 := by
      rw [List.getD_eq_getElem _ _ hrj]
      exact List.getElem_mem hrj
    have hff := (findRowElim_eq_none_iff m L.2.1 L.2.2).mp s5 _ hmem1 _ hmem2 hne
    rw [hdomB] at hff
    cases hff
  · obtain ⟨c1, c2, h1, h2, h3, -, rfl⟩ := (mem_filterMap_pushOptB _ d).mp hdB
    rw [Bool.eq_false_iff]
    intro hstrict
    have hdom := (colAllSG_iff _ c1 c2).mp hstrict
    have hc1' : c1 < L.2.2.length := h1
    have hc2' : c2 < L.2.2.length := h2
    have hdomB : colDomB m L.2.1 (L.2.2.getD c1 0) (L.2.2.getD c2 0) = true := by
      unfold colDomB
      rw [List.all_eq_true]
      intro r hr
      obtain ⟨ri, hri, hreq⟩ := List.mem_iff_getElem.mp hr
      have hstep := hdom ri hri
      rw [residual_cell m _ _ _ _ ri c1 hri hc1',
        residual_cell m _ _ _ _ ri c2 hri hc2'] at hstep
      rw [decide_eq_true_eq, ← hreq, ← List.getD_eq_getElem _ 0 hri]
      exact hstep
    have hne : L.2.2.getD c1 0 ≠ L.2.2.getD c2 0 := by
      rw [List.getD_eq_getElem _ _ hc1', List.getD_eq_getElem _ _ hc2']
      rw [Ne, hCnd.getElem_inj_iff]
      exact h3
    have hmem1 : L.2.2.getD c1 0 ∈ L.2.2 := by
      rw [List.getD_eq_getElem _ _ hc1']
      exact List.getElem_mem hc1'
    have hmem2 : L.2.2.getD c2 0 ∈ L.2.2 := by
      rw [List.getD_eq_getElem _ _ hc2']
      exact List.getElem_mem hc2'
    have hff := (findColElim_eq_none_iff m L.2.1 L.2.2).mp s6 _ hmem1 _ hmem2 hne
    rw [hdomB] at hff
    cases hff

theorem performIEDS_residual_no_strict_witness :
    exampleMatrix.WellFormed ∧
    (∀ res, (performIEDS exampleMatrix).residualMatrix = some res →
      ∀ d ∈ findDominatedStrategies res, d.strict = false) :=
  ⟨by decide, performIEDS_residual_no_strict exampleMatrix (by decide)⟩

/-- Active row set reconstructed from a prefix of the recorded steps:
all rows of the original matrix minus the Player-A eliminations. -/
def activeRowsAfter (m : PayoffMatrix) (pre : List IEDSStep) : List Nat :=
  (List.range m.rows).filter fun r =>
    !(pre.any fun s => s.eliminated.player == PlayerLabel.A && s.eliminated.index == r)

/-- Active column set reconstructed from a prefix of the recorded steps. -/
def activeColsAfter (m : PayoffMatrix) (pre : List IEDSStep) : List Nat :=
  (List.range m.cols).filter fun c =>
    !(pre.any fun s => s.eliminated.player == PlayerLabel.B && s.eliminated.index == c)

theorem activeRowsAfter_nil (m : PayoffMatrix) :
    activeRowsAfter m [] = List.range m.rows := by
  unfold activeRowsAfter
  simp

theorem activeColsAfter_nil (m : PayoffMatrix) :
    activeColsAfter m [] = List.range m.cols := by
  unfold activeColsAfter
  simp

theorem activeRowsAfter_sublist (m : PayoffMatrix) (pre : List IEDSStep) :
    (activeRowsAfter m pre).Sublist (List.range m.rows) :=
  List.filter_sublist _

theorem activeColsAfter_sublist (m : PayoffMatrix) (pre : List IEDSStep) :
    (activeColsAfter m pre).Sublist (List.range m.cols) :=
  List.filter_sublist _

theorem activeRowsAfter_append_A (m : PayoffMatrix) (pre : List IEDSStep) (i j : Nat) :
    activeRowsAfter m (pre ++ [stepRecordA m i j]) = (activeRowsAfter m pre).erase i := by
  unfold activeRowsAfter
  have hnd : ((List.range m.rows).filter fun r =>
      !(pre.any fun s => s.eliminated.player == PlayerLabel.A && s.eliminated.index == r)).Nodup :=
    (List.filter_sublist _).nodup (List.nodup_range m.rows)
  rw [List.Nodup.erase_eq_filter hnd i, List.filter_filter]
  apply List.filter_congr
  intro x _
  rw [List.any_append]
  simp only [List.any_cons, List.any_nil, Bool.or_false, stepRecordA, Bool.not_or]
  rw [Bool.and_comm]
  congr 1
  simp only [beq_self_eq_true, Bool.true_and]
  rw [show ((i == x) : Bool) = (x == i) from by
    cases hc : decide (i = x) <;> simp_all [beq_iff_eq, eq_comm]]
  rfl

theorem activeColsAfter_append_A (m : PayoffMatrix) (pre : List IEDSStep) (i j : Nat) :
    activeColsAfter m (pre ++ [stepRecordA m i j]) = activeColsAfter m pre := by
  unfold activeColsAfter
  apply List.filter_congr
  intro x _
  rw [List.any_append]
  simp [stepRecordA]

theorem activeColsAfter_append_B (m : PayoffMatrix) (pre : List IEDSStep) (c1 c2 : Nat) :
    activeColsAfter m (pre ++ [stepRecordB m c1 c2]) = (activeColsAfter m pre).erase c1 := by
  unfold activeColsAfter
  have hnd : ((List.range m.cols).filter fun c =>
      !(pre.any fun s => s.eliminated.player == PlayerLabel.B && s.eliminated.index == c)).Nodup :=
    (List.filter_sublist _).nodup (List.nodup_range m.cols)
  rw [List.Nodup.erase_eq_filter hnd c1, List.filter_filter]
  apply List.filter_congr
  intro x _
  rw [List.any_append]
  simp only [List.any_cons, List.any_nil, Bool.or_false, stepRecordB, Bool.not_or]
  rw [Bool.and_comm]
  congr 1
  simp only [beq_self_eq_true, Bool.true_and]
  rw [show ((c1 == x) : Bool) = (x == c1) from by
    cases hc : decide (c1 = x) <;> simp_all [beq_iff_eq, eq_comm]]
  rfl

theorem activeRowsAfter_append_B (m : PayoffMatrix) (pre : List IEDSStep) (c1 c2 : Nat) :
    activeRowsAfter m (pre ++ [stepRecordB m c1 c2]) = activeRowsAfter m pre := by
  unfold activeRowsAfter
  apply List.filter_congr
  intro x _
  rw [List.any_append]
  simp [stepRecordB]

theorem find?_sorted_first {p : Nat → Bool} {l : List Nat}
    (hs : List.Pairwise (· < ·) l) {j : Nat} (h : l.find? p = some j) :
    j ∈ l ∧ p j = true ∧ ∀ j' ∈ l, j' < j → p j' = false := by
  induction l with
  | nil => cases h
  | cons a l ih =>
    rw [List.find?_cons] at h
    obtain ⟨hhead, htail⟩ := List.pairwise_cons.mp hs
    cases hpa : p a with
    | true =>
      rw [hpa] at h
      injection h with h
      subst h
      refine ⟨List.mem_cons_self _ _, hpa, ?_⟩
      intro j' hj' hlt
      rcases List.mem_cons.mp hj' with rfl | hj'
      · omega
      · exact absurd hlt (by have := hhead j' hj'; omega)
    | false =>
      rw [hpa] at h
      obtain ⟨h1, h2, h3⟩ := ih htail h
      refine ⟨List.mem_cons_of_mem a h1, h2, ?_⟩
      intro j' hj' hlt
      rcases List.mem_cons.mp hj' with rfl | hj'
      · exact hpa
      · exact h3 j' hj' hlt

theorem findSome?_sorted_first {β : Type} {f : Nat → Option β} {l : List Nat}
    (hs : List.Pairwise (· < ·) l) {b : β} (h : l.findSome? f = some b) :
    ∃ a ∈ l, f a = some b ∧ ∀ a' ∈ l, a' < a → f a' = none := by
  induction l with
  | nil => cases h
  | cons a l ih =>
    rw [List.findSome?_cons] at h
    obtain ⟨hhead, htail⟩ := List.pairwise_cons.mp hs
    cases hfa : f a with
    | some b' =>
      rw [hfa] at h
      injection h with h
      subst h
      refine ⟨a, List.mem_cons_self _ _, hfa, ?_⟩
      intro a' ha' hlt
      rcases List.mem_cons.mp ha' with rfl | ha'
      · omega
      · exact absurd hlt (by have := hhead a' ha'; omega)
    | none =>
      rw [hfa] at h
      obtain ⟨a0, ha0, hf0, hmin⟩ := ih htail h
      refine ⟨a0, List.mem_cons_of_mem a ha0, hf0, ?_⟩
      intro a' ha' hlt
      rcases List.mem_cons.mp ha' with rfl | ha'
      · exact hfa
      · exact hmin a' ha' hlt

theorem findRowElim_scan (m : PayoffMatrix) {R C : List Nat}
    (hs : List.Pairwise (· < ·) R) {i j : Nat}
    (h : findRowElim m R C = some (i, j)) :
    i ∈ R ∧ j ∈ R ∧ i ≠ j ∧ rowDomB m C i j = true ∧
    (∀ j' ∈ R, j' < j → j' ≠ i → rowDomB m C i j' = false) ∧
    (∀ i' ∈ R, i' < i → ∀ j' ∈ R, j' ≠ i' → rowDomB m C i' j' = false) := by
  unfold findRowElim at h
  obtain ⟨a, ha, hfa, hamin⟩ := findSome?_sorted_first hs h
  cases hf : R.find? fun j => (!(a == j)) && rowDomB m C a j with
  | none =>
    rw [hf] at hfa
    cases hfa
  | some j0 =>
    rw [hf] at hfa
    simp only [Option.map_some'] at hfa
    injection hfa with hfa
    have hi : i = a := (congrArg Prod.fst hfa).symm
    have hj : j = j0 := (congrArg Prod.snd hfa).symm
    subst hi
    subst hj
    obtain ⟨hjmem, hpj, hjmin⟩ := find?_sorted_first hs hf
    obtain ⟨hbne, hdom⟩ := Bool.and_eq_true_iff.mp hpj
    have hne : i ≠ j := by
      intro hcase
      rw [hcase] at hbne
      simp at hbne
    refine ⟨ha, hjmem, hne, hdom, ?_, ?_⟩
    · intro j' hj' hlt hne'
      have := hjmin j' hj' hlt
      rw [Bool.and_eq_false_iff] at this
      rcases this with hthis | hthis
      · exfalso
        rw [Bool.not_eq_false', beq_iff_eq] at hthis
        exact hne' hthis.symm
      · exact hthis
    · intro i' hi' hlt j' hj' hne'
      have hnone := hamin i' hi' hlt
      rw [Option.map_eq_none'] at hnone
      have := List.find?_eq_none.mp hnone j' hj'
      rw [Bool.eq_false_iff]
      intro hdom'
      apply this
      rw [hdom', Bool.and_true, Bool.not_eq_true', beq_eq_false_iff_ne]
      exact fun hcase => hne' hcase.symm

theorem findColElim_scan (m : PayoffMatrix) {R C : List Nat}
    (hs : List.Pairwise (· < ·) C) {c1 c2 : Nat}
    (h : findColElim m R C = some (c1, c2)) :
    c1 ∈ C ∧ c2 ∈ C ∧ c1 ≠ c2 ∧ colDomB m R c1 c2 = true ∧
    (∀ c2' ∈ C, c2' < c2 → c2' ≠ c1 → colDomB m R c1 c2' = false) ∧
    (∀ c1' ∈ C, c1' < c1 → ∀ c2' ∈ C, c2' ≠ c1' → colDomB m R c1' c2' = false) := by
  unfold findColElim at h
  obtain ⟨a, ha, hfa, hamin⟩ := findSome?_sorted_first hs h
  cases hf : C.find? fun c2 => (!(a == c2)) && colDomB m R a c2 with
  | none =>
    rw [hf] at hfa
    cases hfa
  | some j0 =>
    rw [hf] at hfa
    simp only [Option.map_some'] at hfa
    injection hfa with hfa
    have hi : c1 = a := (congrArg Prod.fst hfa).symm
    have hj : c2 = j0 := (congrArg Prod.snd hfa).symm
    subst hi
    subst hj
    obtain ⟨hjmem, hpj, hjmin⟩ := find?_sorted_first hs hf
    obtain ⟨hbne, hdom⟩ := Bool.and_eq_true_iff.mp hpj
    have hne : c1 ≠ c2 := by
      intro hcase
      rw [hcase] at hbne
      simp at hbne
    refine ⟨ha, hjmem, hne, hdom, ?_, ?_⟩
    · intro c2' hc2' hlt hne'
      have := hjmin c2' hc2' hlt
      rw [Bool.and_eq_false_iff] at this
      rcases this with hthis | hthis
      · exfalso
        rw [Bool.not_eq_false', beq_iff_eq] at hthis
        exact hne' hthis.symm
      · exact hthis
    · intro c1' h1' hlt c2' h2' hne'
      have hnone := hamin c1' h1' hlt
      rw [Option.map_eq_none'] at hnone
      have := List.find?_eq_none.mp hnone c2' h2'
      rw [Bool.eq_false_iff]
      intro hdom'
      apply this
      rw [hdom', Bool.and_true, Bool.not_eq_true', beq_eq_false_iff_ne]
      exact fun hcase => hne' hcase.symm

theorem rowDomB_iff (m : PayoffMatrix) (C : List Nat) (i j : Nat) :
    rowDomB m C i j = true ↔ ∀ c ∈ C, (m.cell i c).a < (m.cell j c).a := by
  unfold rowDomB
  rw [List.all_eq_true]
  simp only [decide_eq_true_eq]

theorem colDomB_iff (m : PayoffMatrix) (R : List Nat) (c1 c2 : Nat) :
    colDomB m R c1 c2 = true ↔ ∀ r ∈ R, (m.cell r c1).b < (m.cell r c2).b := by
  unfold colDomB
  rw [List.all_eq_true]
  simp only [decide_eq_true_eq]

/-- The scan-order condition asserted by the spec for one recorded IEDS
step `k`: relative to the active sets reconstructed from the previous
steps, the eliminated strategy is strictly dominated (pointwise `<` on
every active opposing index), rows are scanned before columns, the
dominated index is the lowest eliminable one, and the recorded reason
names the lowest dominating index. -/
def scanStepProp (m : PayoffMatrix) (steps : List IEDSStep) (k : Nat) : Prop :=
  let s := steps.getD k default
  let R := activeRowsAfter m (steps.take k)
  let C := activeColsAfter m (steps.take k)
  (s.eliminated.player = PlayerLabel.A →
    s.eliminated.index ∈ R ∧
    s.eliminated.label = m.rowLabels.getD s.eliminated.index "" ∧
    (∃ j ∈ R, j ≠ s.eliminated.index ∧
      (∀ c ∈ C, (m.cell s.eliminated.index c).a < (m.cell j c).a) ∧
      s.reason = reasonA m s.eliminated.index j ∧
      (∀ j' ∈ R, j' < j → j' ≠ s.eliminated.index →
        ¬∀ c ∈ C, (m.cell s.eliminated.index c).a < (m.cell j' c).a)) ∧
    (∀ i' ∈ R, i' < s.eliminated.index →
      ¬∃ j' ∈ R, j' ≠ i' ∧ ∀ c ∈ C, (m.cell i' c).a < (m.cell j' c).a)) ∧
  (s.eliminated.player = PlayerLabel.B →
    (∀ i ∈ R, ¬∃ j ∈ R, j ≠ i ∧ ∀ c ∈ C, (m.cell i c).a < (m.cell j c).a) ∧
    s.eliminated.index ∈ C ∧
    s.eliminated.label = m.colLabels.getD s.eliminated.index "" ∧
    (∃ c2 ∈ C, c2 ≠ s.eliminated.index ∧
      (∀ r ∈ R, (m.cell r s.eliminated.index).b < (m.cell r c2).b) ∧
      s.reason = reasonB m s.eliminated.index c2 ∧
      (∀ c' ∈ C, c' < c2 → c' ≠ s.eliminated.index →
        ¬∀ r ∈ R, (m.cell r s.eliminated.index).b < (m.cell r c').b)) ∧
    (∀ c1' ∈ C, c1' < s.eliminated.index →
      ¬∃ c2' ∈ C, c2' ≠ c1' ∧ ∀ r ∈ R, (m.cell r c1').b < (m.cell r c2').b))

theorem iedsLoop_scan (m : PayoffMatrix) :
    ∀ n (R C : List Nat) (steps0 : List IEDSStep),
      R.length + C.length ≤ n →
      R = activeRowsAfter m steps0 →
      C = activeColsAfter m steps0 →
      (∀ k, steps0.length ≤ k → k < (iedsLoop m R C steps0).1.length →
        scanStepProp m (iedsLoop m R C steps0).1 k) ∧
      (iedsLoop m R C steps0).2.1 = activeRowsAfter m (iedsLoop m R C steps0).1 ∧
      (iedsLoop m R C steps0).2.2 = activeColsAfter m (iedsLoop m R C steps0).1 := by
  intro n
  induction n with
  | zero =>
    intro R C steps0 hlen hR hC
    have hRnil : R = [] := List.length_eq_zero.mp (by omega)
    have hCnil : C = [] := List.length_eq_zero.mp (by omega)
    subst hRnil
    subst hCnil
    rw [iedsLoop_unfold_done m [] [] steps0 rfl rfl]
    exact ⟨fun k h1 h2 => absurd h2 (not_lt.mpr h1), hR, hC⟩
  | succ n ih =>
    intro R C steps0 hlen hR hC
    have hsortR : List.Pairwise (· < ·) R := by
      rw [hR]
      exact List.Pairwise.sublist (activeRowsAfter_sublist m steps0)
        (List.pairwise_lt_range m.rows)
    have hsortC : List.Pairwise (· < ·) C := by
      rw [hC]
      exact List.Pairwise.sublist (activeColsAfter_sublist m steps0)
        (List.pairwise_lt_range m.cols)
    cases hrow : findRowElim m R C with
    | some p =>
      obtain ⟨i, j⟩ := p
      obtain ⟨hiR, hjR, hne, hdom, hjmin, himin⟩ := findRowElim_scan m hsortR hrow
      have hR' : R.erase i = activeRowsAfter m (steps0 ++ [stepRecordA m i j]) := by
        rw [activeRowsAfter_append_A, ← hR]
      have hC' : C = activeColsAfter m (steps0 ++ [stepRecordA m i j]) := by
        rw [activeColsAfter_append_A, ← hC]
      have hlen' : (R.erase i).length + C.length ≤ n := by
        have h1 := List.length_erase_of_mem hiR
        have h2 : 0 < R.length := List.length_pos.mpr (List.ne_nil_of_mem hiR)
        omega
      obtain ⟨IH1, IH2, IH3⟩ := ih (R.erase i) C (steps0 ++ [stepRecordA m i j]) hlen' hR' hC'
      rw [iedsLoop_unfold_row m R C steps0 hrow]
      refine ⟨?_, IH2, IH3⟩
      intro k hk1 hk2
      by_cases hkgt : steps0.length + 1 ≤ k
      · exact IH1 k (by rw [List.length_append, List.length_cons, List.length_nil]; omega) hk2
      · have hk : k = steps0.length := by omega
        subst hk
        obtain ⟨sh1, -, -, -, -, -, -, -⟩ :=
          iedsLoop_main m ((R.erase i).length + C.length) (R.erase i) C (le_refl _)
            (steps0 ++ [stepRecordA m i j])
        unfold scanStepProp
        rw [sh1]
        have htake : ((steps0 ++ [stepRecordA m i j]) ++
            (iedsLoop m (R.erase i) C []).1).take steps0.length = steps0 := by
          rw [List.append_assoc, List.take_append_of_le_length (by simp)]
          simp
        have hgetd : ((steps0 ++ [stepRecordA m i j]) ++
            (iedsLoop m (R.erase i) C []).1).getD steps0.length default =
            stepRecordA m i j := by
          rw [List.getD_append _ _ _ _ (by simp), List.getD_eq_getElem _ _ (by simp)]
          simp
        rw [htake, hgetd, ← hR, ← hC]
        constructor
        · intro _
          refine ⟨hiR, rfl, ⟨j, hjR, Ne.symm hne, (rowDomB_iff m C i j).mp hdom, rfl, ?_⟩, ?_⟩
          · intro j' hj' hlt hne' hall
            have htrue := (rowDomB_iff m C i j').mpr hall
            rw [hjmin j' hj' hlt hne'] at htrue
            cases htrue
          · intro i' hi' hlt
            rintro ⟨j', hj', hne', hall⟩
            have htrue := (rowDomB_iff m C i' j').mpr hall
            rw [himin i' hi' hlt j' hj' hne'] at htrue
            cases htrue
        · intro habs
          exact absurd habs (by intro hcase; exact PlayerLabel.noConfusion hcase)
    | none =>
      cases hcol : findColElim m R C with
      | some p =>
        obtain ⟨c1, c2⟩ := p
        obtain ⟨h1C, h2C, hnec, hdomc, hcmin, hc1min⟩ := findColElim_scan m hsortC hcol
        have hC' : C.erase c1 = activeColsAfter m (steps0 ++ [stepRecordB m c1 c2]) := by
          rw [activeColsAfter_append_B, ← hC]
        have hR' : R = activeRowsAfter m (steps0 ++ [stepRecordB m c1 c2]) := by
          rw [activeRowsAfter_append_B, ← hR]
        have hlen' : R.length + (C.erase c1).length ≤ n := by
          have h1 := List.length_erase_of_mem h1C
          have h2 : 0 < C.length := List.length_pos.mpr (List.ne_nil_of_mem h1C)
          omega
        obtain ⟨IH1, IH2, IH3⟩ := ih R (C.erase c1) (steps0 ++ [stepRecordB m c1 c2]) hlen' hR' hC'
        rw [iedsLoop_unfold_col m R C steps0 hrow hcol]
        refine ⟨?_, IH2, IH3⟩
        intro k hk1 hk2
        by_cases hkgt : steps0.length + 1 ≤ k
        · exact IH1 k (by rw [List.length_append, List.length_cons, List.length_nil]; omega) hk2
        · have hk : k = steps0.length := by omega
          subst hk
          obtain ⟨sh1, -, -, -, -, -, -, -⟩ :=
            iedsLoop_main m (R.length + (C.erase c1).length) R (C.erase c1) (le_refl _)
              (steps0 ++ [stepRecordB m c1 c2])
          unfold scanStepProp
          rw [sh1]
          have htake : ((steps0 ++ [stepRecordB m c1 c2]) ++
              (iedsLoop m R (C.erase c1) []).1).take steps0.length = steps0 := by
            rw [List.append_assoc, List.take_append_of_le_length (by simp)]
            simp
          have hgetd : ((steps0 ++ [stepRecordB m c1 c2]) ++
              (iedsLoop m R (C.erase c1) []).1).getD steps0.length default =
              stepRecordB m c1 c2 := by
            rw [List.getD_append _ _ _ _ (by simp), List.getD_eq_getElem _ _ (by simp)]
            simp
          rw [htake, hgetd, ← hR, ← hC]
          constructor
          · intro habs
            exact absurd habs (by intro hcase; exact PlayerLabel.noConfusion hcase)
          · intro _
            refine ⟨?_, h1C, rfl,
              ⟨c2, h2C, Ne.symm hnec, (colDomB_iff m R c1 c2).mp hdomc, rfl, ?_⟩, ?_⟩
            · intro i hi
              rintro ⟨jj, hjj, hnejj, hall⟩
              have htrue := (rowDomB_iff m C i jj).mpr hall
              rw [(findRowElim_eq_none_iff m R C).mp hrow i hi jj hjj (Ne.symm hnejj)] at htrue
              cases htrue
            · intro c' hc' hlt hne' hall
              have htrue := (colDomB_iff m R c1 c').mpr hall
              rw [hcmin c' hc' hlt hne'] at htrue
              cases htrue
            · intro c1' h1' hlt
              rintro ⟨c2', h2', hne', hall⟩
              have htrue := (colDomB_iff m R c1' c2').mpr hall
              rw [hc1min c1' h1' hlt c2' h2' hne'] at htrue
              cases htrue
      | none =>
        rw [iedsLoop_unfold_done m R C steps0 hrow hcol]
        exact ⟨fun k h1 h2 => absurd h2 (not_lt.mpr h1), hR, hC⟩

/-- C3: `performIEDS` eliminates only strategies that are strictly
dominated on the currently active rows/columns (never weak domination),
with the deterministic scan order of the source: in each pass active rows
are checked before active columns, the eliminated candidate is the one
with the lowest dominated index (then lowest dominator index, recorded in
the reason), and the loop stops exactly when no strict elimination
remains. -/
theorem performIEDS_scan_order (m : PayoffMatrix) (hm : m.WellFormed) :
    (∀ k, k < (performIEDS m).steps.length → scanStepProp m (performIEDS m).steps k) ∧
    (∀ i ∈ activeRowsAfter m (performIEDS m).steps,
      ¬∃ j ∈ activeRowsAfter m (performIEDS m).steps, j ≠ i ∧
        ∀ c ∈ activeColsAfter m (performIEDS m).steps,
          (m.cell i c).a < (m.cell j c).a) ∧
    (∀ c1 ∈ activeColsAfter m (performIEDS m).steps,
      ¬∃ c2 ∈ activeColsAfter m (performIEDS m).steps, c2 ≠ c1 ∧
        ∀ r ∈ activeRowsAfter m (performIEDS m).steps,
          (m.cell r c1).b < (m.cell r c2).b) := by
  clear hm
  have hsteps : (performIEDS m).steps =
      (iedsLoop m (List.range m.rows) (List.range m.cols) []).1 := by
    unfold performIEDS
    dsimp only
  obtain ⟨hscan, hrec1, hrec2⟩ :=
    iedsLoop_scan m (m.rows + m.cols) (List.range m.rows) (List.range m.cols) []
      (by simp) (activeRowsAfter_nil m).symm (activeColsAfter_nil m).symm
  obtain ⟨-, -, -, -, s5, s6, -, -⟩ :=
    iedsLoop_main m (m.rows + m.cols) (List.range m.rows) (List.range m.cols) (by simp) []
  refine ⟨?_, ?_, ?_⟩
  · intro k hk
    rw [hsteps] at hk ⊢
    exact hscan k (Nat.zero_le k) hk
  · intro i hi
    rintro ⟨j, hj, hne, hall⟩
    rw [hsteps] at hi hj hall
    rw [← hrec1] at hi hj
    have htrue := (rowDomB_iff m
      (iedsLoop m (List.range m.rows) (List.range m.cols) []).2.2 i j).mpr
      (by rw [hrec2]; exact hall)
    rw [(findRowElim_eq_none_iff m _ _).mp s5 i hi j hj (Ne.symm hne)] at htrue
    cases htrue
  · intro c1 h1
    rintro ⟨c2, h2, hne, hall⟩
    rw [hsteps] at h1 h2 hall
    rw [← hrec2] at h1 h2
    have htrue := (colDomB_iff m
      (iedsLoop m (List.range m.rows) (List.range m.cols) []).2.1 c1 c2).mpr
      (by rw [hrec1]; exact hall)
    rw [(findColElim_eq_none_iff m _ _).mp s6 c1 h1 c2 h2 (Ne.symm hne)] at htrue
    cases htrue

theorem performIEDS_scan_order_witness :
    exampleMatrix.WellFormed ∧
    ((∀ k, k < (performIEDS exampleMatrix).steps.length →
        scanStepProp exampleMatrix (performIEDS exampleMatrix).steps k) ∧
    (∀ i ∈ activeRowsAfter exampleMatrix (performIEDS exampleMatrix).steps,
      ¬∃ j ∈ activeRowsAfter exampleMatrix (performIEDS exampleMatrix).steps, j ≠ i ∧
        ∀ c ∈ activeColsAfter exampleMatrix (performIEDS exampleMatrix).steps,
          (exampleMatrix.cell i c).a < (exampleMatrix.cell j c).a) ∧
    (∀ c1 ∈ activeColsAfter exampleMatrix (performIEDS exampleMatrix).steps,
      ¬∃ c2 ∈ activeColsAfter exampleMatrix (performIEDS exampleMatrix).steps, c2 ≠ c1 ∧
        ∀ r ∈ activeRowsAfter exampleMatrix (performIEDS exampleMatrix).steps,
          (exampleMatrix.cell r c1).b < (exampleMatrix.cell r c2).b)) :=
  ⟨by decide, performIEDS_scan_order exampleMatrix (by decide)⟩

/-! ### Order independence of strict-dominance elimination (spec §8)

To compare `performIEDS` with "any alternative implementation that
repeatedly removes some strictly dominated strategy in any order", the
elimination process is abstracted as a step relation on pairs of active
index sets.  Any implementation of one elimination round is a step of
this relation; a maximal run is a reflexive-transitive chain ending in a
state with no strictly dominated strategy. -/

def rowDomP (m : PayoffMatrix) (C : Finset Nat) (i j : Nat) : Prop :=
  i ≠ j ∧ ∀ c ∈ C, (m.cell i c).a < (m.cell j c).a

def colDomP (m : PayoffMatrix) (R : Finset Nat) (c1 c2 : Nat) : Prop :=
  c1 ≠ c2 ∧ ∀ r ∈ R, (m.cell r c1).b < (m.cell r c2).b

instance (m : PayoffMatrix) (C : Finset Nat) (i j : Nat) : Decidable (rowDomP m C i j) := by
  unfold rowDomP
  infer_instance

instance (m : PayoffMatrix) (R : Finset Nat) (c1 c2 : Nat) : Decidable (colDomP m R c1 c2) := by
  unfold colDomP
  infer_instance

structure ElimState where
  rowsActive : Finset Nat
  colsActive : Finset Nat
deriving DecidableEq

inductive ElimStep (m : PayoffMatrix) : ElimState → ElimState → Prop
  | row {S : ElimState} {i j : Nat} (hi : i ∈ S.rowsActive) (hj : j ∈ S.rowsActive)
      (hd : rowDomP m S.colsActive i j) :
      ElimStep m S ⟨S.rowsActive.erase i, S.colsActive⟩
  | col {S : ElimState} {c1 c2 : Nat} (h1 : c1 ∈ S.colsActive) (h2 : c2 ∈ S.colsActive)
      (hd : colDomP m S.rowsActive c1 c2) :
      ElimStep m S ⟨S.rowsActive, S.colsActive.erase c1⟩

def ElimTerminal (m : PayoffMatrix) (S : ElimState) : Prop :=
  ∀ S', ¬ ElimStep m S S'

def initElimState (m : PayoffMatrix) : ElimState :=
  ⟨Finset.range m.rows, Finset.range m.cols⟩

theorem elimStep_subset (m : PayoffMatrix) {A B : ElimState} (h : ElimStep m A B) :
    B.rowsActive ⊆ A.rowsActive ∧ B.colsActive ⊆ A.colsActive := by
  cases h with
  | row hi hj hd => exact ⟨Finset.erase_subset _ _, fun x hx => hx⟩
  | col h1 h2 hd => exact ⟨fun x hx => hx, Finset.erase_subset _ _⟩

theorem elimReaches_subset (m : PayoffMatrix) {A B : ElimState}
    (h : Relation.ReflTransGen (ElimStep m) A B) :
    B.rowsActive ⊆ A.rowsActive ∧ B.colsActive ⊆ A.colsActive := by
  induction h with
  | refl => exact ⟨fun x hx => hx, fun x hx => hx⟩
  | tail hstep htail ih =>
    obtain ⟨h1, h2⟩ := elimStep_subset m htail
    exact ⟨h1.trans ih.1, h2.trans ih.2⟩

theorem elimStep_nonempty (m : PayoffMatrix) {A B : ElimState} (h : ElimStep m A B) :
    A.rowsActive.Nonempty → A.colsActive.Nonempty →
    B.rowsActive.Nonempty ∧ B.colsActive.Nonempty := by
  intro hr hc
  cases h with
  | row hi hj hd =>
    refine ⟨⟨_, Finset.mem_erase.mpr ⟨Ne.symm hd.1, hj⟩⟩, hc⟩
  | col h1 h2 hd =>
    refine ⟨hr, ⟨_, Finset.mem_erase.mpr ⟨Ne.symm hd.1, h2⟩⟩⟩

theorem elimReaches_nonempty (m : PayoffMatrix) {A B : ElimState}
    (h : Relation.ReflTransGen (ElimStep m) A B) :
    A.rowsActive.Nonempty → A.colsActive.Nonempty →
    B.rowsActive.Nonempty ∧ B.colsActive.Nonempty := by
  induction h with
  | refl => exact fun hr hc => ⟨hr, hc⟩
  | tail hstep htail ih =>
    intro hr hc
    obtain ⟨h1, h2⟩ := ih hr hc
    exact elimStep_nonempty m htail h1 h2

/-- Once a row is strictly dominated (relative to the final columns of a
maximal run), it cannot survive that run: its dominator is only ever
removed in favour of a transitively better dominator. -/
theorem elim_no_dominated_row (m : PayoffMatrix) {U T : ElimState}
    (hUT : Relation.ReflTransGen (ElimStep m) U T) (hT : ElimTerminal m T)
    (hCne : T.colsActive.Nonempty) :
    ∀ i j, i ∈ T.rowsActive → j ∈ U.rowsActive → i ≠ j →
      (∀ c ∈ T.colsActive, (m.cell i c).a < (m.cell j c).a) → False := by
  induction hUT using Relation.ReflTransGen.head_induction_on with
  | refl =>
    intro i j hi hj hne hdom
    exact hT _ (ElimStep.row hi hj ⟨hne, hdom⟩)
  | head hstep hrest ihrest =>
    intro i j hi hj hne hdom
    obtain ⟨hTsubR, hTsubC⟩ := elimReaches_subset m hrest
    cases hstep with
    | row hxa hya hd =>
      rename_i x y
      by_cases hjx : j = x
      · subst hjx
        by_cases hyi : y = i
        · subst hyi
          obtain ⟨c0, hc0⟩ := hCne
          have l1 := hdom c0 hc0
          have l2 := hd.2 c0 (hTsubC hc0)
          omega
        · refine ihrest i y hi ?_ (fun hcase => hyi hcase.symm) ?_
          · exact Finset.mem_erase.mpr ⟨Ne.symm hd.1, hya⟩
          · intro c hc
            exact lt_trans (hdom c hc) (hd.2 c (hTsubC hc))
      · exact ihrest i j hi (Finset.mem_erase.mpr ⟨hjx, hj⟩) hne hdom
    | col h1a h2a hd =>
      exact ihrest i j hi hj hne hdom

theorem elim_no_dominated_col (m : PayoffMatrix) {U T : ElimState}
    (hUT : Relation.ReflTransGen (ElimStep m) U T) (hT : ElimTerminal m T)
    (hRne : T.rowsActive.Nonempty) :
    ∀ c1 c2, c1 ∈ T.colsActive → c2 ∈ U.colsActive → c1 ≠ c2 →
      (∀ r ∈ T.rowsActive, (m.cell r c1).b < (m.cell r c2).b) → False := by
  induction hUT using Relation.ReflTransGen.head_induction_on with
  | refl =>
    intro c1 c2 h1 h2 hne hdom
    exact hT _ (ElimStep.col h1 h2 ⟨hne, hdom⟩)
  | head hstep hrest ihrest =>
    intro c1 c2 h1 h2 hne hdom
    obtain ⟨hTsubR, hTsubC⟩ := elimReaches_subset m hrest
    cases hstep with
    | col hxa hya hd =>
      rename_i x y
      by_cases hjx : c2 = x
      · subst hjx
        by_cases hyi : y = c1
        · subst hyi
          obtain ⟨r0, hr0⟩ := hRne
          have l1 := hdom r0 hr0
          have l2 := hd.2 r0 (hTsubR hr0)
          omega
        · refine ihrest c1 y h1 ?_ (fun hcase => hyi hcase.symm) ?_
          · exact Finset.mem_erase.mpr ⟨Ne.symm hd.1, hya⟩
          · intro r hr
            exact lt_trans (hdom r hr) (hd.2 r (hTsubR hr))
      · exact ihrest c1 c2 h1 (Finset.mem_erase.mpr ⟨hjx, h2⟩) hne hdom
    | row h1a h2a hd =>
      exact ihrest c1 c2 h1 h2 hne hdom

/-- The final state of a maximal run survives inside every state of any
other run from the same start. -/
theorem terminal_subset_reachable (m : PayoffMatrix) {T S : ElimState}
    (hTreach : Relation.ReflTransGen (ElimStep m) (initElimState m) T)
    (hT : ElimTerminal m T)
    (hRne : T.rowsActive.Nonempty) (hCne : T.colsActive.Nonempty)
    (hS : Relation.ReflTransGen (ElimStep m) (initElimState m) S) :
    T.rowsActive ⊆ S.rowsActive ∧ T.colsActive ⊆ S.colsActive := by
  induction hS with
  | refl => exact elimReaches_subset m hTreach
  | tail hS' hstep ih =>
    rename_i A B
    cases hstep with
    | row hxa hya hd =>
      rename_i x y
      refine ⟨?_, ih.2⟩
      intro t ht
      rw [Finset.mem_erase]
      refine ⟨?_, ih.1 ht⟩
      intro hteq
      subst hteq
      refine elim_no_dominated_row m hTreach hT hCne t y ht ?_ hd.1 ?_
      · exact (elimReaches_subset m hS').1 hya
      · intro c hc
        exact hd.2 c (ih.2 hc)
    | col h1a h2a hd =>
      rename_i x y
      refine ⟨ih.1, ?_⟩
      intro t ht
      rw [Finset.mem_erase]
      refine ⟨?_, ih.2 ht⟩
      intro hteq
      subst hteq
      refine elim_no_dominated_col m hTreach hT hRne t y ht ?_ hd.1 ?_
      · exact (elimReaches_subset m hS').2 h2a
      · intro r hr
        exact hd.2 r (ih.1 hr)

theorem iedsLoop_reaches (m : PayoffMatrix) :
    ∀ n (R C : List Nat), R.length + C.length ≤ n → R.Nodup → C.Nodup →
      ∀ steps : List IEDSStep,
      Relation.ReflTransGen (ElimStep m) ⟨R.toFinset, C.toFinset⟩
        ⟨(iedsLoop m R C steps).2.1.toFinset, (iedsLoop m R C steps).2.2.toFinset⟩ := by
  intro n
  induction n with
  | zero =>
    intro R C hlen hRnd hCnd steps
    have hRnil : R = [] := List.length_eq_zero.mp (by omega)
    have hCnil : C = [] := List.length_eq_zero.mp (by omega)
    subst hRnil
    subst hCnil
    rw [iedsLoop_unfold_done m [] [] steps rfl rfl]
  | succ n ih =>
    intro R C hlen hRnd hCnd steps
    cases hrow : findRowElim m R C with
    | some p =>
      obtain ⟨i, j⟩ := p
      obtain ⟨hiR, hjR, hne, hdom⟩ := findRowElim_mem m hrow
      have hlen' : (R.erase i).length + C.length ≤ n := by
        have h1 := List.length_erase_of_mem hiR
        have h2 : 0 < R.length := List.length_pos.mpr (List.ne_nil_of_mem hiR)
        omega
      rw [iedsLoop_unfold_row m R C steps hrow]
      refine Relation.ReflTransGen.head ?_
        (show Relation.ReflTransGen (ElimStep m) ⟨(R.erase i).toFinset, C.toFinset⟩ _ from
          ih (R.erase i) C hlen' (hRnd.erase i) hCnd (steps ++ [stepRecordA m i j]))
      have herase : (R.erase i).toFinset = R.toFinset.erase i := by
        ext x
        rw [List.mem_toFinset, Finset.mem_erase, List.mem_toFinset, hRnd.mem_erase_iff]
      rw [herase]
      exact ElimStep.row (List.mem_toFinset.mpr hiR) (List.mem_toFinset.mpr hjR)
        ⟨hne, fun c hc => (rowDomB_iff m C i j).mp hdom c (List.mem_toFinset.mp hc)⟩
    | none =>
      cases hcol : findColElim m R C with
      | some p =>
        obtain ⟨c1, c2⟩ := p
        obtain ⟨h1C, h2C, hne, hdom⟩ := findColElim_mem m hcol
        have hlen' : R.length + (C.erase c1).length ≤ n := by
          have h1 := List.length_erase_of_mem h1C
          have h2 : 0 < C.length := List.length_pos.mpr (List.ne_nil_of_mem h1C)
          omega
        rw [iedsLoop_unfold_col m R C steps hrow hcol]
        refine Relation.ReflTransGen.head ?_
          (show Relation.ReflTransGen (ElimStep m) ⟨R.toFinset, (C.erase c1).toFinset⟩ _ from
            ih R (C.erase c1) hlen' hRnd (hCnd.erase c1) (steps ++ [stepRecordB m c1 c2]))
        have herase : (C.erase c1).toFinset = C.toFinset.erase c1 := by
          ext x
          rw [List.mem_toFinset, Finset.mem_erase, List.mem_toFinset, hCnd.mem_erase_iff]
        rw [herase]
        exact ElimStep.col (List.mem_toFinset.mpr h1C) (List.mem_toFinset.mpr h2C)
          ⟨hne, fun r hr => (colDomB_iff m R c1 c2).mp hdom r (List.mem_toFinset.mp hr)⟩
      | none =>
        rw [iedsLoop_unfold_done m R C steps hrow hcol]

theorem elimTerminal_of_none (m : PayoffMatrix) (R C : List Nat)
    (h5 : findRowElim m R C = none) (h6 : findColElim m R C = none) :
    ElimTerminal m ⟨R.toFinset, C.toFinset⟩ := by
  rintro S' hstep
  cases hstep with
  | row hi hj hd =>
    rename_i i j
    have hfalse := (findRowElim_eq_none_iff m R C).mp h5 i (List.mem_toFinset.mp hi)
      j (List.mem_toFinset.mp hj) hd.1
    have htrue := (rowDomB_iff m C i j).mpr fun c hc => hd.2 c (List.mem_toFinset.mpr hc)
    rw [hfalse] at htrue
    cases htrue
  | col h1 h2 hd =>
    rename_i c1 c2
    have hfalse := (findColElim_eq_none_iff m R C).mp h6 c1 (List.mem_toFinset.mp h1)
      c2 (List.mem_toFinset.mp h2) hd.1
    have htrue := (colDomB_iff m R c1 c2).mpr fun r hr => hd.2 r (List.mem_toFinset.mpr hr)
    rw [hfalse] at htrue
    cases htrue

theorem mem_survivingCells (m : PayoffMatrix) (cc : CellCoord) :
    cc ∈ (performIEDS m).survivingCells ↔
      cc.row ∈ (iedsLoop m (List.range m.rows) (List.range m.cols) []).2.1 ∧
      cc.col ∈ (iedsLoop m (List.range m.rows) (List.range m.cols) []).2.2 := by
  unfold performIEDS
  dsimp only
  rw [List.mem_flatMap]
  constructor
  · rintro ⟨r, hr, hmem⟩
    obtain ⟨c, hc, heq⟩ := List.mem_map.mp hmem
    rw [← heq]
    exact ⟨hr, hc⟩
  · rintro ⟨h1, h2⟩
    exact ⟨cc.row, h1, List.mem_map.mpr ⟨cc.col, h2, rfl⟩⟩

theorem listRange_toFinset (n : Nat) : (List.range n).toFinset = Finset.range n := by
  ext x
  rw [List.mem_toFinset, List.mem_range, Finset.mem_range]

/-- C4: the final surviving rows, columns and cells of strict-dominance
IEDS do not depend on the elimination order: every maximal run of the
abstract one-elimination-at-a-time relation from the full matrix ends in
the same state `performIEDS` computes. -/
theorem performIEDS_order_independent (m : PayoffMatrix) (hm : m.WellFormed) :
    ∀ S : ElimState,
      Relation.ReflTransGen (ElimStep m) (initElimState m) S →
      ElimTerminal m S →
      S.rowsActive = (iedsLoop m (List.range m.rows) (List.range m.cols) []).2.1.toFinset ∧
      S.colsActive = (iedsLoop m (List.range m.rows) (List.range m.cols) []).2.2.toFinset ∧
      (∀ r c : Nat, (r ∈ S.rowsActive ∧ c ∈ S.colsActive) ↔
        ({ row := r, col := c } : CellCoord) ∈ (performIEDS m).survivingCells) := by
  obtain ⟨hr1, hc1, -, -, -, -⟩ := hm
  intro S hSreach hSterm
  have hinit : initElimState m =
      ⟨(List.range m.rows).toFinset, (List.range m.cols).toFinset⟩ := by
    unfold initElimState
    rw [listRange_toFinset, listRange_toFinset]
  obtain ⟨-, -, -, -, s5, s6, -, -⟩ :=
    iedsLoop_main m (m.rows + m.cols) (List.range m.rows) (List.range m.cols) (by simp) []
  have hLreach : Relation.ReflTransGen (ElimStep m) (initElimState m)
      ⟨(iedsLoop m (List.range m.rows) (List.range m.cols) []).2.1.toFinset,
       (iedsLoop m (List.range m.rows) (List.range m.cols) []).2.2.toFinset⟩ := by
    rw [hinit]
    exact iedsLoop_reaches m (m.rows + m.cols) (List.range m.rows) (List.range m.cols)
      (by simp) (List.nodup_range m.rows) (List.nodup_range m.cols) []
  have hLterm : ElimTerminal m
      ⟨(iedsLoop m (List.range m.rows) (List.range m.cols) []).2.1.toFinset,
       (iedsLoop m (List.range m.rows) (List.range m.cols) []).2.2.toFinset⟩ :=
    elimTerminal_of_none m _ _ s5 s6
  have hinitne : (initElimState m).rowsActive.Nonempty ∧
      (initElimState m).colsActive.Nonempty := by
    unfold initElimState
    constructor
    · rw [Finset.nonempty_range_iff]
      omega
    · rw [Finset.nonempty_range_iff]
      omega
  obtain ⟨hSr, hSc⟩ := elimReaches_nonempty m hSreach hinitne.1 hinitne.2
  obtain ⟨hLr, hLc⟩ := elimReaches_nonempty m hLreach hinitne.1 hinitne.2
  obtain ⟨hsub1r, hsub1c⟩ := terminal_subset_reachable m hSreach hSterm hSr hSc hLreach
  obtain ⟨hsub2r, hsub2c⟩ := terminal_subset_reachable m hLreach hLterm hLr hLc hSreach
  have heqr : S.rowsActive =
      (iedsLoop m (List.range m.rows) (List.range m.cols) []).2.1.toFinset :=
    Finset.Subset.antisymm hsub1r hsub2r
  have heqc : S.colsActive =
      (iedsLoop m (List.range m.rows) (List.range m.cols) []).2.2.toFinset :=
    Finset.Subset.antisymm hsub1c hsub2c
  refine ⟨heqr, heqc, ?_⟩
  intro r c
  rw [mem_survivingCells, heqr, heqc, List.mem_toFinset, List.mem_toFinset]

theorem performIEDS_order_independent_witness :
    exampleMatrix.WellFormed ∧
    Relation.ReflTransGen (ElimStep exampleMatrix) (initElimState exampleMatrix)
      ⟨(Finset.range 2).erase 1, (Finset.range 2).erase 1⟩ ∧
    ElimTerminal exampleMatrix ⟨(Finset.range 2).erase 1, (Finset.range 2).erase 1⟩ ∧
    ((ElimState.rowsActive ⟨(Finset.range 2).erase 1, (Finset.range 2).erase 1⟩) =
      (iedsLoop exampleMatrix (List.range exampleMatrix.rows)
        (List.range exampleMatrix.cols) []).2.1.toFinset ∧
     (ElimState.colsActive ⟨(Finset.range 2).erase 1, (Finset.range 2).erase 1⟩) =
      (iedsLoop exampleMatrix (List.range exampleMatrix.rows)
        (List.range exampleMatrix.cols) []).2.2.toFinset ∧
     (∀ r c : Nat,
        (r ∈ (ElimState.rowsActive ⟨(Finset.range 2).erase 1, (Finset.range 2).erase 1⟩) ∧
         c ∈ (ElimState.colsActive ⟨(Finset.range 2).erase 1, (Finset.range 2).erase 1⟩)) ↔
        ({ row := r, col := c } : CellCoord) ∈ (performIEDS exampleMatrix).survivingCells)) := by
  have hstep1 : ElimStep exampleMatrix (initElimState exampleMatrix)
      ⟨Finset.range 2, (Finset.range 2).erase 1⟩ :=
    ElimStep.col (show (1 : Nat) ∈ Finset.range 2 from by decide)
      (show (0 : Nat) ∈ Finset.range 2 from by decide)
      ⟨by decide, by decide⟩
  have hstep2 : ElimStep exampleMatrix ⟨Finset.range 2, (Finset.range 2).erase 1⟩
      ⟨(Finset.range 2).erase 1, (Finset.range 2).erase 1⟩ :=
    ElimStep.row (show (1 : Nat) ∈ Finset.range 2 from by decide)
      (show (0 : Nat) ∈ Finset.range 2 from by decide)
      ⟨by decide, by decide⟩
  have hreach : Relation.ReflTransGen (ElimStep exampleMatrix) (initElimState exampleMatrix)
      ⟨(Finset.range 2).erase 1, (Finset.range 2).erase 1⟩ :=
    Relation.ReflTransGen.head hstep1
      (Relation.ReflTransGen.head hstep2 Relation.ReflTransGen.refl)
  have hterm : ElimTerminal exampleMatrix
      ⟨(Finset.range 2).erase 1, (Finset.range 2).erase 1⟩ := by
    rintro S' hstep
    cases hstep with
    | row hi hj hd =>
      rename_i i j
      obtain ⟨hi1, hi2⟩ := Finset.mem_erase.mp hi
      obtain ⟨hj1, hj2⟩ := Finset.mem_erase.mp hj
      have hi3 := Finset.mem_range.mp hi2
      have hj3 := Finset.mem_range.mp hj2
      exact hd.1 (by omega)
    | col h1 h2 hd =>
      rename_i c1 c2
      obtain ⟨ha1, ha2⟩ := Finset.mem_erase.mp h1
      obtain ⟨hb1, hb2⟩ := Finset.mem_erase.mp h2
      have ha3 := Finset.mem_range.mp ha2
      have hb3 := Finset.mem_range.mp hb2
      exact hd.1 (by omega)
  exact ⟨by decide, hreach, hterm,
    performIEDS_order_independent exampleMatrix (by decide) _ hreach hterm⟩

/-! ### Matrix generator (src/lib/matrix.ts and src/lib/utils.ts)

`randomInt(min, max)` is `Math.floor(Math.random() * (max - min + 1)) + min`;
a draw is embedded as `min + (head of the stream) % (max - min + 1)`, which
reaches exactly the interval `[min, max]`.  The `Math.random() < 0.3` coin
is embedded as a `% 10 < 3` test on one stream value: every Boolean
outcome corresponds to some stream. -/

def randomIntR (min max : Int) (g : List Nat) : Int × List Nat :=
  (min + Int.ofNat (g.headD 0 % (max - min + 1).toNat), g.tail)

def strategyLabel (p : PlayerLabel) (index size : Nat) : String :=
  match p with
  | PlayerLabel.A =>
    if size == 2 then ["Top", "Bottom"].getD index ""
    else ["Top", "Middle", "Bottom"].getD index ""
  | PlayerLabel.B =>
    if size == 2 then ["Left", "Right"].getD index ""
    else ["Left", "Center", "Right"].getD index ""

def drawRow (min max : Int) : Nat → List Nat → List Payoffs × List Nat
  | 0, g => ([], g)
  | n + 1, g =>
    let (a, g1) := randomIntR min max g
    let (b, g2) := randomIntR min max g1
    let (rest, g3) := drawRow min max n g2
    (⟨a, b⟩ :: rest, g3)

def drawCells (min max : Int) : Nat → Nat → List Nat → List (List Payoffs) × List Nat
  | 0, _, g => ([], g)
  | n + 1, cols, g =>
    let (row, g1) := drawRow min max cols g
    let (rest, g2) := drawCells min max n cols g1
    (row :: rest, g2)

def drawMatrix (min max : Int) (rows cols : Nat) (g : List Nat) :
    PayoffMatrix × List Nat :=
  let (cells, g1) := drawCells min max rows cols g
  ({ rows := rows, cols := cols, cells := cells,
     rowLabels := (List.range rows).map fun i => strategyLabel PlayerLabel.A i rows,
     colLabels := (List.range cols).map fun i => strategyLabel PlayerLabel.B i cols }, g1)

/-- `Set`-based duplicate detection of the source: a duplicate exists in a
column of Player-A payoffs or in a row of Player-B payoffs exactly when
some ordered pair of positions carries the same value. -/
def hasEqualPayoffs (m : PayoffMatrix) : Bool :=
  ((List.range m.cols).any fun c =>
    (List.range m.rows).any fun r1 =>
      (List.range m.rows).any fun r2 =>
        decide (r1 < r2) && ((m.cell r1 c).a == (m.cell r2 c).a)) ||
  ((List.range m.rows).any fun r =>
    (List.range m.cols).any fun c1 =>
      (List.range m.cols).any fun c2 =>
        decide (c1 < c2) && ((m.cell r c1).b == (m.cell r c2).b))

def isUsefulMatrix (m : PayoffMatrix) (difficulty : Difficulty)
    (wantMultipleNash : Bool) : Bool :=
  if hasEqualPayoffs m then false
  else
    let dominated := findDominatedStrategies m
    let nash := findNashEquilibria m
    if wantMultipleNash && decide (nash.length < 2) then false
    else
      match difficulty with
      | Difficulty.easy => decide (dominated.length > 0) && decide (nash.length > 0)
      | Difficulty.medium => decide (nash.length > 0)
      | Difficulty.hard => decide (nash.length > 0)

def attemptLoop (min max : Int) (rows cols : Nat) (difficulty : Difficulty)
    (wantMultipleNash : Bool) : Nat → List Nat → Option PayoffMatrix × List Nat
  | 0, g => (none, g)
  | n + 1, g =>
    let (mtx, g1) := drawMatrix min max rows cols g
    if isUsefulMatrix mtx difficulty wantMultipleNash then (some mtx, g1)
    else attemptLoop min max rows cols difficulty wantMultipleNash n g1

def generateMatrix (rows cols : Nat) (difficulty : Difficulty) (g : List Nat) :
    PayoffMatrix × List Nat :=
  let min : Int := if difficulty == Difficulty.easy then 0 else -5
  let max : Int := if difficulty == Difficulty.easy then 9 else 15
  let wantMultipleNash := g.headD 0 % 10 < 3
  let g0 := g.tail
  match attemptLoop min max rows cols difficulty wantMultipleNash 100 g0 with
  | (some mtx, g1) => (mtx, g1)
  | (none, g1) =>
    if wantMultipleNash then
      match attemptLoop min max rows cols difficulty false 100 g1 with
      | (some mtx, g2) => (mtx, g2)
      | (none, g2) => drawMatrix min max rows cols g2
    else drawMatrix min max rows cols g1

theorem randomIntR_range (min max : Int) (hle : min ≤ max) (g : List Nat) :
    min ≤ (randomIntR min max g).1 ∧ (randomIntR min max g).1 ≤ max := by
  unfold randomIntR
  dsimp only
  have hspan : ((max - min + 1).toNat : Int) = max - min + 1 := by
    rw [Int.toNat_of_nonneg]
    omega
  have hmod : (g.headD 0 % (max - min + 1).toNat : Nat) < (max - min + 1).toNat := by
    apply Nat.mod_lt
    omega
  have hcast : (Int.ofNat (g.headD 0 % (max - min + 1).toNat)) < max - min + 1 := by
    rw [← hspan, Int.ofNat_eq_coe]
    exact Int.ofNat_lt.mpr hmod
  constructor
  · have : (0 : Int) ≤ Int.ofNat (g.headD 0 % (max - min + 1).toNat) := Int.ofNat_nonneg _
    omega
  · omega

theorem drawRow_spec (min max : Int) (hle : min ≤ max) :
    ∀ (cols : Nat) (g : List Nat),
      (drawRow min max cols g).1.length = cols ∧
      ∀ p ∈ (drawRow min max cols g).1,
        min ≤ p.a ∧ p.a ≤ max ∧ min ≤ p.b ∧ p.b ≤ max := by
  intro cols
  induction cols with
  | zero =>
    intro g
    exact ⟨rfl, fun p hp => absurd hp (List.not_mem_nil p)⟩
  | succ n ih =>
    intro g
    unfold drawRow
    dsimp only
    obtain ⟨ihlen, ihmem⟩ := ih (randomIntR min max (randomIntR min max g).2).2
    refine ⟨by rw [List.length_cons, ihlen], ?_⟩
    intro p hp
    rcases List.mem_cons.mp hp with rfl | hp
    · obtain ⟨ha1, ha2⟩ := randomIntR_range min max hle g
      obtain ⟨hb1, hb2⟩ := randomIntR_range min max hle (randomIntR min max g).2
      exact ⟨ha1, ha2, hb1, hb2⟩
    · exact ihmem p hp

theorem drawCells_spec (min max : Int) (hle : min ≤ max) :
    ∀ (rows cols : Nat) (g : List Nat),
      (drawCells min max rows cols g).1.length = rows ∧
      ∀ row ∈ (drawCells min max rows cols g).1,
        row.length = cols ∧
        ∀ p ∈ row, min ≤ p.a ∧ p.a ≤ max ∧ min ≤ p.b ∧ p.b ≤ max := by
  intro rows
  induction rows with
  | zero =>
    intro cols g
    exact ⟨rfl, fun row hrow => absurd hrow (List.not_mem_nil row)⟩
  | succ n ih =>
    intro cols g
    unfold drawCells
    dsimp only
    obtain ⟨ihlen, ihmem⟩ := ih cols (drawRow min max cols g).2
    refine ⟨by rw [List.length_cons, ihlen], ?_⟩
    intro row hrow
    rcases List.mem_cons.mp hrow with rfl | hrow
    · obtain ⟨hlen, hmem⟩ := drawRow_spec min max hle cols g
      exact ⟨hlen, hmem⟩
    · exact ihmem row hrow

theorem attemptLoop_accept (min max : Int) (rows cols : Nat) (difficulty : Difficulty)
    (w : Bool) :
    ∀ (n : Nat) (g gOut : List Nat) (mtx : PayoffMatrix),
      attemptLoop min max rows cols difficulty w n g = (some mtx, gOut) →
      (∃ g', mtx = (drawMatrix min max rows cols g').1) ∧
      isUsefulMatrix mtx difficulty w = true := by
  intro n
  induction n with
  | zero =>
    intro g gOut mtx h
    unfold attemptLoop at h
    cases h
  | succ n ih =>
    intro g gOut mtx h
    unfold attemptLoop at h
    dsimp only at h
    by_cases hu : isUsefulMatrix (drawMatrix min max rows cols g).1 difficulty w = true
    · rw [if_pos hu] at h
      injection h with h1 h2
      injection h1 with h1
      subst h1
      exact ⟨⟨g, rfl⟩, hu⟩
    · rw [if_neg hu] at h
      exact ih (drawMatrix min max rows cols g).2 gOut mtx h

theorem hasEqualPayoffs_false_a (m : PayoffMatrix) (h : hasEqualPayoffs m = false)
    (c r1 r2 : Nat) (hc : c < m.cols) (h1 : r1 < m.rows) (h2 : r2 < m.rows)
    (hne : r1 ≠ r2) : (m.cell r1 c).a ≠ (m.cell r2 c).a := by
  unfold hasEqualPayoffs at h
  rw [Bool.or_eq_false_iff] at h
  have ha := h.1
  rw [Bool.eq_false_iff] at ha
  intro heq
  apply ha
  rw [List.any_eq_true]
  refine ⟨c, List.mem_range.mpr hc, ?_⟩
  rw [List.any_eq_true]
  rcases Nat.lt_or_ge r1 r2 with hlt | hge
  · refine ⟨r1, List.mem_range.mpr h1, ?_⟩
    rw [List.any_eq_true]
    refine ⟨r2, List.mem_range.mpr h2, ?_⟩
    rw [Bool.and_eq_true_iff]
    exact ⟨decide_eq_true hlt, beq_iff_eq.mpr heq⟩
  · have hlt : r2 < r1 := by omega
    refine ⟨r2, List.mem_range.mpr h2, ?_⟩
    rw [List.any_eq_true]
    refine ⟨r1, List.mem_range.mpr h1, ?_⟩
    rw [Bool.and_eq_true_iff]
    exact ⟨decide_eq_true hlt, beq_iff_eq.mpr heq.symm⟩

theorem hasEqualPayoffs_false_b (m : PayoffMatrix) (h : hasEqualPayoffs m = false)
    (r c1 c2 : Nat) (hr : r < m.rows) (h1 : c1 < m.cols) (h2 : c2 < m.cols)
    (hne : c1 ≠ c2) : (m.cell r c1).b ≠ (m.cell r c2).b := by
  unfold hasEqualPayoffs at h
  rw [Bool.or_eq_false_iff] at h
  have hb := h.2
  rw [Bool.eq_false_iff] at hb
  intro heq
  apply hb
  rw [List.any_eq_true]
  refine ⟨r, List.mem_range.mpr hr, ?_⟩
  rw [List.any_eq_true]
  rcases Nat.lt_or_ge c1 c2 with hlt | hge
  · refine ⟨c1, List.mem_range.mpr h1, ?_⟩
    rw [List.any_eq_true]
    refine ⟨c2, List.mem_range.mpr h2, ?_⟩
    rw [Bool.and_eq_true_iff]
    exact ⟨decide_eq_true hlt, beq_iff_eq.mpr heq⟩
  · have hlt : c2 < c1 := by omega
    refine ⟨c2, List.mem_range.mpr h2, ?_⟩
    rw [List.any_eq_true]
    refine ⟨c1, List.mem_range.mpr h1, ?_⟩
    rw [Bool.and_eq_true_iff]
    exact ⟨decide_eq_true hlt, beq_iff_eq.mpr heq.symm⟩

/-- Without payoff ties, every domination the analyzer reports is strict. -/
theorem dominated_strict_of_no_ties (m : PayoffMatrix) (h : hasEqualPayoffs m = false) :
    ∀ d ∈ findDominatedStrategies m, d.strict = true := by
  intro d hd
  rw [findDominatedStrategies_eq] at hd
  rcases List.mem_append.mp hd with hdA | hdB
  · obtain ⟨i, j, h1, h2, h3, h4, rfl⟩ := (mem_filterMap_pushOptA m d).mp hdA
    show rowAllSG m i j = true
    by_contra hns
    rw [Bool.not_eq_true] at hns
    have hsome : ∃ c, c < m.cols ∧ ¬((m.cell i c).a < (m.cell j c).a) := by
      by_contra hall
      push_neg at hall
      rw [Bool.eq_false_iff] at hns
      exact hns ((rowAllSG_iff m i j).mpr hall)
    obtain ⟨c, hc, hnlt⟩ := hsome
    unfold pushRowA at h4
    rw [Bool.or_eq_true, Bool.and_eq_true_iff] at h4
    rcases h4 with h4 | ⟨hge, -⟩
    · exact hnlt ((rowAllSG_iff m i j).mp h4 c hc)
    · have hge' := (rowAllGE_iff m i j).mp hge c hc
      exact hasEqualPayoffs_false_a m h c i j hc h1 h2 h3 (by omega)
  · obtain ⟨c1, c2, h1, h2, h3, h4, rfl⟩ := (mem_filterMap_pushOptB m d).mp hdB
    show colAllSG m c1 c2 = true
    by_contra hns
    rw [Bool.not_eq_true] at hns
    have hsome : ∃ r, r < m.rows ∧ ¬((m.cell r c1).b < (m.cell r c2).b) := by
      by_contra hall
      push_neg at hall
      rw [Bool.eq_false_iff] at hns
      exact hns ((colAllSG_iff m c1 c2).mpr hall)
    obtain ⟨r, hr, hnlt⟩ := hsome
    unfold pushColB at h4
    rw [Bool.or_eq_true, Bool.and_eq_true_iff] at h4
    rcases h4 with h4 | ⟨hge, -⟩
    · exact hnlt ((colAllSG_iff m c1 c2).mp h4 r hr)
    · have hge' := (colAllGE_iff m c1 c2).mp hge r hr
      exact hasEqualPayoffs_false_b m h r c1 c2 hr h1 h2 h3 (by omega)

theorem drawMatrix_cell_range (min max : Int) (hle : min ≤ max) (rows cols : Nat)
    (g' : List Nat) (r c : Nat) (hr : r < rows) (hc : c < cols) :
    min ≤ ((drawMatrix min max rows cols g').1.cell r c).a ∧
    ((drawMatrix min max rows cols g').1.cell r c).a ≤ max ∧
    min ≤ ((drawMatrix min max rows cols g').1.cell r c).b ∧
    ((drawMatrix min max rows cols g').1.cell r c).b ≤ max := by
  unfold drawMatrix PayoffMatrix.cell
  dsimp only
  obtain ⟨hlen, hmem⟩ := drawCells_spec min max hle rows cols g'
  have hr' : r < (drawCells min max rows cols g').1.length := by
    rw [hlen]
    exact hr
  rw [List.getD_eq_getElem _ _ hr']
  have hrow := hmem _ (List.getElem_mem hr')
  have hc' : c < (drawCells min max rows cols g').1[r].length := by
    rw [hrow.1]
    exact hc
  rw [List.getD_eq_getElem _ _ hc']
  obtain ⟨h1, h2, h3, h4⟩ := hrow.2 _ (List.getElem_mem hc')
  exact ⟨h1, h2, h3, h4⟩

/-- C8: any matrix the rejection sampler accepts (a non-fallback return of
`generateMatrix`) for difficulty "easy" has all payoffs in `[0, 9]`, no
Player-A payoff tie within a column, no Player-B tie within a row, at
least one strictly dominated strategy, and at least one pure Nash
equilibrium; the acceptance test `dominated.length > 0` together with the
no-tie constraint forces the dominated strategy to be strictly dominated. -/
theorem generateMatrix_easy_accepted (rows cols : Nat) (w : Bool) (n : Nat)
    (g gOut : List Nat) (mtx : PayoffMatrix)
    (hacc : attemptLoop 0 9 rows cols Difficulty.easy w n g = (some mtx, gOut)) :
    (∀ r, r < rows → ∀ c, c < cols →
      0 ≤ (mtx.cell r c).a ∧ (mtx.cell r c).a ≤ 9 ∧
      0 ≤ (mtx.cell r c).b ∧ (mtx.cell r c).b ≤ 9) ∧
    hasEqualPayoffs mtx = false ∧
    findDominatedStrategies mtx ≠ [] ∧
    (∃ d ∈ findDominatedStrategies mtx, d.strict = true) ∧
    findNashEquilibria mtx ≠ [] := by
  obtain ⟨⟨g', hdraw⟩, huse⟩ :=
    attemptLoop_accept 0 9 rows cols Difficulty.easy w n g gOut mtx hacc
  subst hdraw
  unfold isUsefulMatrix at huse
  by_cases heq : hasEqualPayoffs (drawMatrix 0 9 rows cols g').1 = true
  case pos =>
    rw [if_pos heq] at huse
    cases huse
  rw [if_neg heq] at huse
  dsimp only at huse
  by_cases hw : (w && decide ((findNashEquilibria (drawMatrix 0 9 rows cols g').1).length < 2)) = true
  case pos =>
    rw [if_pos hw] at huse
    cases huse
  rw [if_neg hw] at huse
  obtain ⟨hdom, hnash⟩ := Bool.and_eq_true_iff.mp huse
  have hEqF : hasEqualPayoffs (drawMatrix 0 9 rows cols g').1 = false :=
    Bool.eq_false_iff.mpr heq
  have hdompos : 0 < (findDominatedStrategies (drawMatrix 0 9 rows cols g').1).length :=
    of_decide_eq_true hdom
  have hnashpos : 0 < (findNashEquilibria (drawMatrix 0 9 rows cols g').1).length :=
    of_decide_eq_true hnash
  refine ⟨?_, hEqF, ?_, ?_, ?_⟩
  · intro r hr c hc
    exact drawMatrix_cell_range 0 9 (by omega) rows cols g' r c hr hc
  · intro hnil
    rw [hnil] at hdompos
    simp at hdompos
  · have hne : findDominatedStrategies (drawMatrix 0 9 rows cols g').1 ≠ [] := by
      intro hnil
      rw [hnil] at hdompos
      simp at hdompos
    obtain ⟨d, hd⟩ := List.exists_mem_of_ne_nil _ hne
    exact ⟨d, hd, dominated_strict_of_no_ties _ hEqF d hd⟩
  · intro hnil
    rw [hnil] at hnashpos
    simp at hnashpos

/-- A concrete accepted draw used to instantiate the acceptance theorem. -/
def acceptedEasyMatrix : PayoffMatrix :=
  { rows := 2, cols := 2,
    cells := [[⟨3, 3⟩, ⟨2, 2⟩], [⟨2, 1⟩, ⟨1, 0⟩]],
    rowLabels := ["Top", "Bottom"],
    colLabels := ["Left", "Right"] }

theorem generateMatrix_easy_accepted_witness :
    attemptLoop 0 9 2 2 Difficulty.easy false 1 [3, 3, 2, 2, 2, 1, 1, 0] =
      (some acceptedEasyMatrix, []) ∧
    ((∀ r, r < 2 → ∀ c, c < 2 →
      0 ≤ (acceptedEasyMatrix.cell r c).a ∧ (acceptedEasyMatrix.cell r c).a ≤ 9 ∧
      0 ≤ (acceptedEasyMatrix.cell r c).b ∧ (acceptedEasyMatrix.cell r c).b ≤ 9) ∧
    hasEqualPayoffs acceptedEasyMatrix = false ∧
    findDominatedStrategies acceptedEasyMatrix ≠ [] ∧
    (∃ d ∈ findDominatedStrategies acceptedEasyMatrix, d.strict = true) ∧
    findNashEquilibria acceptedEasyMatrix ≠ []) :=
  ⟨by decide,
   generateMatrix_easy_accepted 2 2 false 1 [3, 3, 2, 2, 2, 1, 1, 0] []
     acceptedEasyMatrix (by decide)⟩

/-! ### Sequential game builder (src/lib/sequential.ts part of QuestionPanel.tsx)

The decision tree is a tagged union of decision nodes and leaves.  A leaf
id is the string `leaf-{row}-{col}`; since `row` and `col` are the
naturals used to build it and `findLeafCoord` parses them back with
`parseInt`, the encoding is a bijection onto coordinate pairs, and the
leaf id is embedded directly as the `CellCoord` it denotes.  The unused
presentational `label` field of `DecisionNode` (always the player name)
is dropped. -/

inductive TreeNode where
  | leaf (coord : CellCoord) (payoffs : Payoffs) : TreeNode
  | node (id : String) (player : PlayerLabel) (children : List (String × TreeNode)) : TreeNode

def PlayerLabel.str : PlayerLabel → String
  | PlayerLabel.A => "A"
  | PlayerLabel.B => "B"

def buildDecisionTree (m : PayoffMatrix) (firstMover : PlayerLabel) : TreeNode :=
  let secondMover := if firstMover = PlayerLabel.A then PlayerLabel.B else PlayerLabel.A
  let firstStrategies := if firstMover = PlayerLabel.A then m.rowLabels else m.colLabels
  let secondStrategies := if secondMover = PlayerLabel.A then m.rowLabels else m.colLabels
  TreeNode.node "root" firstMover
    ((List.range firstStrategies.length).map fun firstIdx =>
      (firstStrategies.getD firstIdx "",
       TreeNode.node (secondMover.str ++ "-after-" ++ firstStrategies.getD firstIdx "")
         secondMover
         ((List.range secondStrategies.length).map fun secondIdx =>
           (secondStrategies.getD secondIdx "",
            TreeNode.leaf
              { row := if firstMover = PlayerLabel.A then firstIdx else secondIdx,
                col := if firstMover = PlayerLabel.A then secondIdx else firstIdx }
              (m.cell (if firstMover = PlayerLabel.A then firstIdx else secondIdx)
                (if firstMover = PlayerLabel.A then secondIdx else firstIdx))))))

/-- The argmax loop of `solveBackwardInduction`: `bestPayoff` starts at
`-Infinity` (embedded as `none`, smaller than every integer) and is
replaced only on strict improvement, so the first maximum wins. -/
def bestStep (f : Nat → Int) (acc : Nat × Option Int) (i : Nat) : Nat × Option Int :=
  match acc.2 with
  | none => (i, some (f i))
  | some b => if b < f i then (i, some (f i)) else acc

def argmaxFirst (f : Nat → Int) (n : Nat) : Nat :=
  ((List.range n).foldl (bestStep f) (0, none)).1

mutual
def solveBI : TreeNode → List String × CellCoord × Payoffs
  | TreeNode.leaf coord p => ([], coord, p)
  | TreeNode.node _ player children =>
    let results := solveChildren children
    let pay : Nat → Int := fun i =>
      let r := results.getD i ("", [], default, default)
      if player = PlayerLabel.A then r.2.2.2.a else r.2.2.2.b
    let bestIdx := argmaxFirst pay results.length
    let chosen := results.getD bestIdx ("", [], default, default)
    (chosen.1 :: chosen.2.1, chosen.2.2)
def solveChildren : List (String × TreeNode) →
    List (String × (List String × CellCoord × Payoffs))
  | [] => []
  | (lbl, child) :: rest => (lbl, solveBI child) :: solveChildren rest
end

structure SequentialGame where
  matrix : PayoffMatrix
  tree : TreeNode
  firstMover : PlayerLabel
  backwardInductionPath : List String
  backwardInductionOutcome : CellCoord

def buildSequentialGame (m : PayoffMatrix) (firstMover : PlayerLabel) : SequentialGame :=
  let tree := buildDecisionTree m firstMover
  let r := solveBI tree
  { matrix := m, tree := tree, firstMover := firstMover,
    backwardInductionPath := r.1,
    backwardInductionOutcome := r.2.1 }

/-- Re-trace a path of edge labels from a node down to a leaf, following
at each decision node the first child edge carrying the label. -/
def retraceLeaf : TreeNode → List String → Option (CellCoord × Payoffs)
  | TreeNode.leaf coord p, [] => some (coord, p)
  | TreeNode.node _ _ children, lbl :: rest =>
    match children.find? (fun e => e.1 == lbl) with
    | some e => retraceLeaf e.2 rest
    | none => none
  | _, _ => none
termination_by t path => path.length
decreasing_by
  simp only [List.length_cons]
  omega

theorem bestFold_spec (f : Nat → Int) :
    ∀ n : Nat, 1 ≤ n →
      ((List.range n).foldl (bestStep f) (0, none)).2 =
        some (f ((List.range n).foldl (bestStep f) (0, none)).1) ∧
      ((List.range n).foldl (bestStep f) (0, none)).1 < n ∧
      (∀ i, i < n → f i ≤ f ((List.range n).foldl (bestStep f) (0, none)).1) ∧
      (∀ j, j < ((List.range n).foldl (bestStep f) (0, none)).1 →
        f j < f ((List.range n).foldl (bestStep f) (0, none)).1) := by
  intro n
  induction n with
  | zero => omega
  | succ n ih =>
    intro _
    by_cases hn : 1 ≤ n
    case neg =>
      have hzero : n = 0 := by omega
      subst hzero
      have hfold : (List.range 1).foldl (bestStep f) (0, none) = (0, some (f 0)) := rfl
      rw [hfold]
      refine ⟨rfl, by omega, ?_, ?_⟩
      · intro i hi
        have h0 : i = 0 := by omega
        subst h0
        exact le_refl _
      · intro j hj
        exact absurd hj (by omega)
    obtain ⟨ih1, ih2, ih3, ih4⟩ := ih hn
    rw [List.range_succ, List.foldl_append, List.foldl_cons, List.foldl_nil]
    set acc := (List.range n).foldl (bestStep f) (0, none) with hacc
    have hstep : bestStep f acc n = if f acc.1 < f n then (n, some (f n)) else acc := by
      unfold bestStep
      rw [ih1]
    rw [hstep]
    by_cases hlt : f acc.1 < f n
    · rw [if_pos hlt]
      refine ⟨rfl, by omega, ?_, ?_⟩
      · intro i hi
        by_cases hin : i < n
        · exact le_of_lt (lt_of_le_of_lt (ih3 i hin) hlt)
        · have h0 : i = n := by omega
          subst h0
          exact le_refl _
      · intro j hj
        exact lt_of_le_of_lt (ih3 j hj) hlt
    · rw [if_neg hlt]
      refine ⟨ih1, by omega, ?_, ih4⟩
      intro i hi
      by_cases hin : i < n
      · exact ih3 i hin
      · have h0 : i = n := by omega
        subst h0
        omega

theorem argmaxFirst_spec (f : Nat → Int) (n : Nat) (hn : 1 ≤ n) :
    argmaxFirst f n < n ∧
    (∀ i, i < n → f i ≤ f (argmaxFirst f n)) ∧
    (∀ j, j < argmaxFirst f n → f j < f (argmaxFirst f n)) := by
  obtain ⟨-, h2, h3, h4⟩ := bestFold_spec f n hn
  exact ⟨h2, h3, h4⟩

theorem bestFold_congr (f g : Nat → Int) :
    ∀ n : Nat, (∀ i, i < n → f i = g i) →
      (List.range n).foldl (bestStep f) (0, none) =
      (List.range n).foldl (bestStep g) (0, none) := by
  intro n
  induction n with
  | zero => intro _; rfl
  | succ n ih =>
    intro h
    rw [List.range_succ, List.foldl_append, List.foldl_append, List.foldl_cons,
      List.foldl_cons, List.foldl_nil, List.foldl_nil,
      ih (fun i hi => h i (by omega))]
    unfold bestStep
    rw [h n (by omega)]

theorem argmaxFirst_congr (f g : Nat → Int) (n : Nat) (h : ∀ i, i < n → f i = g i) :
    argmaxFirst f n = argmaxFirst g n := by
  unfold argmaxFirst
  rw [bestFold_congr f g n h]

theorem solveChildren_eq_map (l : List (String × TreeNode)) :
    solveChildren l = l.map (fun e => (e.1, solveBI e.2)) := by
  induction l with
  | nil => rfl
  | cons e rest ih =>
    obtain ⟨lbl, child⟩ := e
    rw [solveChildren, ih]
    rfl

theorem getD_map_range {α : Type} (f : Nat → α) (n i : Nat) (d : α) (h : i < n) :
    ((List.range n).map f).getD i d = f i := by
  rw [List.getD_eq_getElem _ _ (by rw [List.length_map, List.length_range]; exact h),
    List.getElem_map, List.getElem_range]

def seqSecondMover (fm : PlayerLabel) : PlayerLabel :=
  if fm = PlayerLabel.A then PlayerLabel.B else PlayerLabel.A

/-- The matrix cell reached when the first mover plays `fi` and the
second mover plays `si`, per the index mapping of `buildDecisionTree`. -/
def seqCellCoord (fm : PlayerLabel) (fi si : Nat) : CellCoord :=
  { row := if fm = PlayerLabel.A then fi else si,
    col := if fm = PlayerLabel.A then si else fi }

def seqSecondPay (m : PayoffMatrix) (fm : PlayerLabel) (fi si : Nat) : Int :=
  if seqSecondMover fm = PlayerLabel.A then
    (m.cell (seqCellCoord fm fi si).row (seqCellCoord fm fi si).col).a
  else
    (m.cell (seqCellCoord fm fi si).row (seqCellCoord fm fi si).col).b

def seqFirstPay (m : PayoffMatrix) (fm : PlayerLabel) (fi si : Nat) : Int :=
  if fm = PlayerLabel.A then
    (m.cell (seqCellCoord fm fi si).row (seqCellCoord fm fi si).col).a
  else
    (m.cell (seqCellCoord fm fi si).row (seqCellCoord fm fi si).col).b

theorem solveBI_leaf (coord : CellCoord) (p : Payoffs) :
    solveBI (TreeNode.leaf coord p) = ([], coord, p) := rfl

theorem solveBI_node (nid : String) (player : PlayerLabel)
    (children : List (String × TreeNode)) :
    solveBI (TreeNode.node nid player children) =
      (((solveChildren children).getD
          (argmaxFirst (fun i =>
            if player = PlayerLabel.A then
              ((solveChildren children).getD i ("", [], default, default)).2.2.2.a
            else ((solveChildren children).getD i ("", [], default, default)).2.2.2.b)
            (solveChildren children).length) ("", [], default, default)).1 ::
        ((solveChildren children).getD
          (argmaxFirst (fun i =>
            if player = PlayerLabel.A then
              ((solveChildren children).getD i ("", [], default, default)).2.2.2.a
            else ((solveChildren children).getD i ("", [], default, default)).2.2.2.b)
            (solveChildren children).length) ("", [], default, default)).2.1,
       ((solveChildren children).getD
          (argmaxFirst (fun i =>
            if player = PlayerLabel.A then
              ((solveChildren children).getD i ("", [], default, default)).2.2.2.a
            else ((solveChildren children).getD i ("", [], default, default)).2.2.2.b)
            (solveChildren children).length) ("", [], default, default)).2.2) := rfl

theorem solveBI_oneLevel (sLab : List String) (nid : String) (sP : PlayerLabel)
    (coordF : Nat → CellCoord) (payF : Nat → Payoffs) (hS : 1 ≤ sLab.length) :
    solveBI (TreeNode.node nid sP ((List.range sLab.length).map fun si =>
      (sLab.getD si "", TreeNode.leaf (coordF si) (payF si)))) =
    ([sLab.getD (argmaxFirst
        (fun si => if sP = PlayerLabel.A then (payF si).a else (payF si).b)
        sLab.length) ""],
     coordF (argmaxFirst
        (fun si => if sP = PlayerLabel.A then (payF si).a else (payF si).b)
        sLab.length),
     payF (argmaxFirst
        (fun si => if sP = PlayerLabel.A then (payF si).a else (payF si).b)
        sLab.length)) := by
  rw [solveBI_node, solveChildren_eq_map, List.map_map]
  have hch : ((List.range sLab.length).map
      ((fun e => (e.1, solveBI e.2)) ∘
        (fun si => (sLab.getD si "", TreeNode.leaf (coordF si) (payF si))))) =
      (List.range sLab.length).map
        (fun si => (sLab.getD si "", ([], coordF si, payF si))) := by
    apply List.map_congr_left
    intro si _
    rw [Function.comp_apply, solveBI_leaf]
  rw [hch]
  have hlen : ((List.range sLab.length).map
      (fun si => (sLab.getD si "", (([] : List String), coordF si, payF si)))).length =
      sLab.length := by
    rw [List.length_map, List.length_range]
  rw [hlen]
  have hpay : argmaxFirst (fun i =>
      if sP = PlayerLabel.A then
        (((List.range sLab.length).map
          (fun si => (sLab.getD si "", (([] : List String), coordF si, payF si)))).getD i
            ("", [], default, default)).2.2.2.a
      else
        (((List.range sLab.length).map
          (fun si => (sLab.getD si "", (([] : List String), coordF si, payF si)))).getD i
            ("", [], default, default)).2.2.2.b) sLab.length =
      argmaxFirst (fun si => if sP = PlayerLabel.A then (payF si).a else (payF si).b)
        sLab.length := by
    apply argmaxFirst_congr
    intro i hi
    rw [getD_map_range _ _ _ _ hi]
  rw [hpay]
  set b := argmaxFirst (fun si => if sP = PlayerLabel.A then (payF si).a else (payF si).b)
    sLab.length with hb
  have hblt : b < sLab.length :=
    (argmaxFirst_spec _ sLab.length hS).1
  rw [getD_map_range _ _ _ _ hblt]

def seqFirstLab (m : PayoffMatrix) (fm : PlayerLabel) : List String :=
  if fm = PlayerLabel.A then m.rowLabels else m.colLabels

def seqSecondLab (m : PayoffMatrix) (fm : PlayerLabel) : List String :=
  if seqSecondMover fm = PlayerLabel.A then m.rowLabels else m.colLabels

def seqCellPay (m : PayoffMatrix) (fm : PlayerLabel) (fi si : Nat) : Payoffs :=
  m.cell (seqCellCoord fm fi si).row (seqCellCoord fm fi si).col

def seqNodeId (m : PayoffMatrix) (fm : PlayerLabel) (fi : Nat) : String :=
  (seqSecondMover fm).str ++ "-after-" ++ (seqFirstLab m fm).getD fi ""

theorem buildDecisionTree_eq (m : PayoffMatrix) (fm : PlayerLabel) :
    buildDecisionTree m fm = TreeNode.node "root" fm
      ((List.range (seqFirstLab m fm).length).map fun fi =>
        ((seqFirstLab m fm).getD fi "",
         TreeNode.node (seqNodeId m fm fi) (seqSecondMover fm)
           ((List.range (seqSecondLab m fm).length).map fun si =>
             ((seqSecondLab m fm).getD si "",
              TreeNode.leaf (seqCellCoord fm fi si) (seqCellPay m fm fi si))))) := rfl

/-- The second mover\x27s best response at first-mover choice `fi`: the
argmax (first maximum) of the second mover\x27s own payoff over `si`. -/
def twoBR (sP : PlayerLabel) (payF : Nat → Nat → Payoffs) (nS fi : Nat) : Nat :=
  argmaxFirst (fun si => if sP = PlayerLabel.A then (payF fi si).a else (payF fi si).b) nS

/-- The first mover\x27s choice: the argmax (first maximum) of the first
mover\x27s own payoff at the second mover\x27s best responses. -/
def twoFC (fP sP : PlayerLabel) (payF : Nat → Nat → Payoffs) (nF nS : Nat) : Nat :=
  argmaxFirst (fun fi =>
    if fP = PlayerLabel.A then (payF fi (twoBR sP payF nS fi)).a
    else (payF fi (twoBR sP payF nS fi)).b) nF

def seqBR (m : PayoffMatrix) (fm : PlayerLabel) (fi : Nat) : Nat :=
  twoBR (seqSecondMover fm) (seqCellPay m fm) (seqSecondLab m fm).length fi

def seqFirstChoice (m : PayoffMatrix) (fm : PlayerLabel) : Nat :=
  twoFC fm (seqSecondMover fm) (seqCellPay m fm)
    (seqFirstLab m fm).length (seqSecondLab m fm).length

theorem solveBI_twoLevel (fLab sLab : List String) (rootId : String)
    (ids : Nat → String) (fP sP : PlayerLabel)
    (coordF : Nat → Nat → CellCoord) (payF : Nat → Nat → Payoffs)
    (hF : 1 ≤ fLab.length) (hS : 1 ≤ sLab.length) :
    solveBI (TreeNode.node rootId fP ((List.range fLab.length).map fun fi =>
      (fLab.getD fi "", TreeNode.node (ids fi) sP
        ((List.range sLab.length).map fun si =>
          (sLab.getD si "", TreeNode.leaf (coordF fi si) (payF fi si)))))) =
    ([fLab.getD (twoFC fP sP payF fLab.length sLab.length) "",
      sLab.getD (twoBR sP payF sLab.length (twoFC fP sP payF fLab.length sLab.length)) ""],
     coordF (twoFC fP sP payF fLab.length sLab.length)
       (twoBR sP payF sLab.length (twoFC fP sP payF fLab.length sLab.length)),
     payF (twoFC fP sP payF fLab.length sLab.length)
       (twoBR sP payF sLab.length (twoFC fP sP payF fLab.length sLab.length))) := by
  rw [solveBI_node, solveChildren_eq_map, List.map_map]
  have hch : ((List.range fLab.length).map
      ((fun e => (e.1, solveBI e.2)) ∘ (fun fi =>
        (fLab.getD fi "", TreeNode.node (ids fi) sP
          ((List.range sLab.length).map fun si =>
            (sLab.getD si "", TreeNode.leaf (coordF fi si) (payF fi si))))))) =
      (List.range fLab.length).map (fun fi =>
        (fLab.getD fi "",
         ([sLab.getD (twoBR sP payF sLab.length fi) ""],
          coordF fi (twoBR sP payF sLab.length fi),
          payF fi (twoBR sP payF sLab.length fi)))) := by
    apply List.map_congr_left
    intro fi _
    rw [Function.comp_apply]
    rw [solveBI_oneLevel sLab (ids fi) sP (coordF fi) (payF fi) hS]
    rfl
  rw [hch]
  have hlen : ((List.range fLab.length).map (fun fi =>
      (fLab.getD fi "",
       ([sLab.getD (twoBR sP payF sLab.length fi) ""],
        coordF fi (twoBR sP payF sLab.length fi),
        payF fi (twoBR sP payF sLab.length fi))))).length = fLab.length := by
    rw [List.length_map, List.length_range]
  rw [hlen]
  have hpay : argmaxFirst (fun i =>
      if fP = PlayerLabel.A then
        (((List.range fLab.length).map (fun fi =>
          (fLab.getD fi "",
           ([sLab.getD (twoBR sP payF sLab.length fi) ""],
            coordF fi (twoBR sP payF sLab.length fi),
            payF fi (twoBR sP payF sLab.length fi))))).getD i
              ("", [], default, default)).2.2.2.a
      else
        (((List.range fLab.length).map (fun fi =>
          (fLab.getD fi "",
           ([sLab.getD (twoBR sP payF sLab.length fi) ""],
            coordF fi (twoBR sP payF sLab.length fi),
            payF fi (twoBR sP payF sLab.length fi))))).getD i
              ("", [], default, default)).2.2.2.b) fLab.length =
      argmaxFirst (fun fi =>
        if fP = PlayerLabel.A then (payF fi (twoBR sP payF sLab.length fi)).a
        else (payF fi (twoBR sP payF sLab.length fi)).b) fLab.length := by
    apply argmaxFirst_congr
    intro i hi
    rw [getD_map_range _ _ _ _ hi]
  rw [hpay]
  set K := argmaxFirst (fun fi =>
    if fP = PlayerLabel.A then (payF fi (twoBR sP payF sLab.length fi)).a
    else (payF fi (twoBR sP payF sLab.length fi)).b) fLab.length with hK
  have hblt : K < fLab.length := (argmaxFirst_spec _ fLab.length hF).1
  rw [getD_map_range _ _ _ _ hblt]
  rw [hK]
  rfl

theorem solveBI_build (m : PayoffMatrix) (fm : PlayerLabel)
    (hF : 1 ≤ (seqFirstLab m fm).length) (hS : 1 ≤ (seqSecondLab m fm).length) :
    solveBI (buildDecisionTree m fm) =
    ([(seqFirstLab m fm).getD (seqFirstChoice m fm) "",
      (seqSecondLab m fm).getD (seqBR m fm (seqFirstChoice m fm)) ""],
     seqCellCoord fm (seqFirstChoice m fm) (seqBR m fm (seqFirstChoice m fm)),
     seqCellPay m fm (seqFirstChoice m fm) (seqBR m fm (seqFirstChoice m fm))) := by
  rw [buildDecisionTree_eq]
  exact solveBI_twoLevel (seqFirstLab m fm) (seqSecondLab m fm) "root"
    (seqNodeId m fm) fm (seqSecondMover fm) (seqCellCoord fm) (seqCellPay m fm) hF hS

theorem range_find_first (k : Nat) :
    ∀ (p : Nat → Bool) (n : Nat), k < n → p k = true →
      (∀ i, i < k → p i = false) → (List.range n).find? p = some k := by
  induction k with
  | zero =>
    intro p n hk hpk _
    cases n with
    | zero => omega
    | succ m =>
      rw [List.range_succ_eq_map, List.find?_cons_of_pos _ hpk]
  | succ k ih =>
    intro p n hk hpk hmin
    cases n with
    | zero => omega
    | succ m =>
      rw [List.range_succ_eq_map,
        List.find?_cons_of_neg _ (by simp [hmin 0 (Nat.succ_pos k)]),
        List.find?_map,
        ih (p ∘ Nat.succ) m (by omega) hpk (fun i hi => hmin (i + 1) (by omega))]
      rfl

theorem find_label_map {α : Type} (lab : List String) (f : Nat → α) (k : Nat)
    (hk : k < lab.length) (hnd : lab.Nodup) :
    ((List.range lab.length).map (fun i => (lab.getD i "", f i))).find?
      (fun e => e.1 == lab.getD k "") = some (lab.getD k "", f k) := by
  rw [List.find?_map]
  have h1 : ((fun (e : String × α) => e.1 == lab.getD k "") ∘
      (fun i => (lab.getD i "", f i))) k = true := by
    show (lab.getD k "" == lab.getD k "") = true
    exact beq_self_eq_true _
  have h2 : ∀ i, i < k → ((fun (e : String × α) => e.1 == lab.getD k "") ∘
      (fun i => (lab.getD i "", f i))) i = false := by
    intro i hi
    have hil : i < lab.length := lt_trans hi hk
    have hne := List.pairwise_iff_getElem.mp hnd i k hil hk hi
    show (lab.getD i "" == lab.getD k "") = false
    rw [List.getD_eq_getElem _ _ hil, List.getD_eq_getElem _ _ hk]
    exact beq_eq_false_iff_ne.mpr hne
  rw [range_find_first k _ lab.length hk h1 h2]
  rfl

theorem retraceLeaf_leaf (coord : CellCoord) (p : Payoffs) :
    retraceLeaf (TreeNode.leaf coord p) [] = some (coord, p) := by
  rw [retraceLeaf.eq_def]

theorem retraceLeaf_node (nid : String) (pl : PlayerLabel)
    (children : List (String × TreeNode)) (lbl : String) (rest : List String) :
    retraceLeaf (TreeNode.node nid pl children) (lbl :: rest) =
      match children.find? (fun e => e.1 == lbl) with
      | some e => retraceLeaf e.2 rest
      | none => none := by
  rw [retraceLeaf.eq_def]

theorem retraceLeaf_step (nid : String) (pl : PlayerLabel)
    (children : List (String × TreeNode)) (lbl : String) (rest : List String)
    (e : String × TreeNode) (h : children.find? (fun x => x.1 == lbl) = some e) :
    retraceLeaf (TreeNode.node nid pl children) (lbl :: rest) = retraceLeaf e.2 rest := by
  rw [retraceLeaf_node, h]

theorem retraceLeaf_build (m : PayoffMatrix) (fm : PlayerLabel)
    (hndF : (seqFirstLab m fm).Nodup) (hndS : (seqSecondLab m fm).Nodup)
    (fi si : Nat) (hfi : fi < (seqFirstLab m fm).length)
    (hsi : si < (seqSecondLab m fm).length) :
    retraceLeaf (buildDecisionTree m fm)
      [(seqFirstLab m fm).getD fi "", (seqSecondLab m fm).getD si ""] =
      some (seqCellCoord fm fi si, seqCellPay m fm fi si) := by
  rw [buildDecisionTree_eq]
  rw [retraceLeaf_step _ _ _ _ _ _
    (find_label_map (seqFirstLab m fm)
      (fun fj => TreeNode.node (seqNodeId m fm fj) (seqSecondMover fm)
        ((List.range (seqSecondLab m fm).length).map fun sj =>
          ((seqSecondLab m fm).getD sj "",
           TreeNode.leaf (seqCellCoord fm fj sj) (seqCellPay m fm fj sj))))
      fi hfi hndF)]
  show retraceLeaf (TreeNode.node (seqNodeId m fm fi) (seqSecondMover fm)
      ((List.range (seqSecondLab m fm).length).map fun sj =>
        ((seqSecondLab m fm).getD sj "",
         TreeNode.leaf (seqCellCoord fm fi sj) (seqCellPay m fm fi sj))))
    [(seqSecondLab m fm).getD si ""] =
    some (seqCellCoord fm fi si, seqCellPay m fm fi si)
  rw [retraceLeaf_step _ _ _ _ _ _
    (find_label_map (seqSecondLab m fm)
      (fun sj => TreeNode.leaf (seqCellCoord fm fi sj) (seqCellPay m fm fi sj))
      si hsi hndS)]
  exact retraceLeaf_leaf _ _

/-- **C2.** For every well-formed matrix (with duplicate-free strategy
labels, which positional lookup by label requires) and either first mover,
`buildSequentialGame` solves the two-level decision tree by backward
induction: the second mover picks, at each of the first mover\x27s choices,
the child maximizing their own payoff component (`.a` for Player A, `.b`
for Player B) with ties broken by the lowest strategy index, and the first
mover then picks the choice maximizing their own component of the
resulting outcome, again first maximum; `backwardInductionPath` is exactly
the two chosen strategy labels (so has length 2); and re-tracing that path
from the root of the tree reaches the leaf whose coordinates are
`backwardInductionOutcome` and whose payoffs are the matrix cell there. -/
theorem buildSequentialGame_correct (m : PayoffMatrix) (fm : PlayerLabel)
    (hm : m.WellFormed) (hndr : m.rowLabels.Nodup) (hndc : m.colLabels.Nodup) :
    (buildSequentialGame m fm).backwardInductionPath =
      [(seqFirstLab m fm).getD (seqFirstChoice m fm) "",
       (seqSecondLab m fm).getD (seqBR m fm (seqFirstChoice m fm)) ""] ∧
    (buildSequentialGame m fm).backwardInductionPath.length = 2 ∧
    (buildSequentialGame m fm).backwardInductionOutcome =
      seqCellCoord fm (seqFirstChoice m fm) (seqBR m fm (seqFirstChoice m fm)) ∧
    (∀ fi, fi < (seqFirstLab m fm).length →
      seqBR m fm fi < (seqSecondLab m fm).length ∧
      (∀ si, si < (seqSecondLab m fm).length →
        seqSecondPay m fm fi si ≤ seqSecondPay m fm fi (seqBR m fm fi)) ∧
      (∀ si, si < seqBR m fm fi →
        seqSecondPay m fm fi si < seqSecondPay m fm fi (seqBR m fm fi))) ∧
    seqFirstChoice m fm < (seqFirstLab m fm).length ∧
    (∀ fi, fi < (seqFirstLab m fm).length →
      seqFirstPay m fm fi (seqBR m fm fi) ≤
        seqFirstPay m fm (seqFirstChoice m fm) (seqBR m fm (seqFirstChoice m fm))) ∧
    (∀ fi, fi < seqFirstChoice m fm →
      seqFirstPay m fm fi (seqBR m fm fi) <
        seqFirstPay m fm (seqFirstChoice m fm) (seqBR m fm (seqFirstChoice m fm))) ∧
    retraceLeaf (buildSequentialGame m fm).tree
        (buildSequentialGame m fm).backwardInductionPath =
      some ((buildSequentialGame m fm).backwardInductionOutcome,
        m.cell (buildSequentialGame m fm).backwardInductionOutcome.row
          (buildSequentialGame m fm).backwardInductionOutcome.col) := by
  obtain ⟨hr1, hc1, -, -, hrl, hcl⟩ := hm
  have hF : 1 ≤ (seqFirstLab m fm).length := by
    unfold seqFirstLab
    split
    · rw [hrl]; exact hr1
    · rw [hcl]; exact hc1
  have hS : 1 ≤ (seqSecondLab m fm).length := by
    unfold seqSecondLab
    split
    · rw [hrl]; exact hr1
    · rw [hcl]; exact hc1
  have hndF : (seqFirstLab m fm).Nodup := by
    unfold seqFirstLab
    split
    · exact hndr
    · exact hndc
  have hndS : (seqSecondLab m fm).Nodup := by
    unfold seqSecondLab
    split
    · exact hndr
    · exact hndc
  have hsol := solveBI_build m fm hF hS
  have hpath : (buildSequentialGame m fm).backwardInductionPath =
      [(seqFirstLab m fm).getD (seqFirstChoice m fm) "",
       (seqSecondLab m fm).getD (seqBR m fm (seqFirstChoice m fm)) ""] := by
    show (solveBI (buildDecisionTree m fm)).1 = _
    rw [hsol]
  have hout : (buildSequentialGame m fm).backwardInductionOutcome =
      seqCellCoord fm (seqFirstChoice m fm) (seqBR m fm (seqFirstChoice m fm)) := by
    show (solveBI (buildDecisionTree m fm)).2.1 = _
    rw [hsol]
  have hfsp := argmaxFirst_spec (fun fi => seqFirstPay m fm fi (seqBR m fm fi))
    (seqFirstLab m fm).length hF
  have hfc_eq : seqFirstChoice m fm =
      argmaxFirst (fun fi => seqFirstPay m fm fi (seqBR m fm fi))
        (seqFirstLab m fm).length := rfl
  refine ⟨hpath, ?_, hout, ?_, ?_, ?_, ?_, ?_⟩
  · rw [hpath]
    rfl
  · intro fi _
    have hsp := argmaxFirst_spec (seqSecondPay m fm fi) (seqSecondLab m fm).length hS
    have hbr_eq : seqBR m fm fi =
        argmaxFirst (seqSecondPay m fm fi) (seqSecondLab m fm).length := rfl
    rw [hbr_eq]
    exact hsp
  · rw [hfc_eq]
    exact hfsp.1
  · intro fi hfi
    have h := hfsp.2.1 fi hfi
    rw [hfc_eq]
    exact h
  · intro fi hfi
    rw [hfc_eq] at hfi ⊢
    exact hfsp.2.2 fi hfi
  · show retraceLeaf (buildDecisionTree m fm)
        (buildSequentialGame m fm).backwardInductionPath = _
    rw [hpath, hout]
    have hfc_lt : seqFirstChoice m fm < (seqFirstLab m fm).length := by
      rw [hfc_eq]
      exact hfsp.1
    have hbr_lt : seqBR m fm (seqFirstChoice m fm) < (seqSecondLab m fm).length := by
      have hbr_eq2 : seqBR m fm (seqFirstChoice m fm) =
          argmaxFirst (seqSecondPay m fm (seqFirstChoice m fm))
            (seqSecondLab m fm).length := rfl
      rw [hbr_eq2]
      exact (argmaxFirst_spec _ _ hS).1
    rw [retraceLeaf_build m fm hndF hndS (seqFirstChoice m fm)
      (seqBR m fm (seqFirstChoice m fm)) hfc_lt hbr_lt]
    rfl

/-- Witness for C2: `buildSequentialGame_correct` applied to the concrete
`exampleMatrix` with Player A moving first. -/
theorem buildSequentialGame_correct_witness :
    exampleMatrix.WellFormed ∧ exampleMatrix.rowLabels.Nodup ∧
    exampleMatrix.colLabels.Nodup ∧
    (buildSequentialGame exampleMatrix PlayerLabel.A).backwardInductionPath =
      [(seqFirstLab exampleMatrix PlayerLabel.A).getD
         (seqFirstChoice exampleMatrix PlayerLabel.A) "",
       (seqSecondLab exampleMatrix PlayerLabel.A).getD
         (seqBR exampleMatrix PlayerLabel.A
           (seqFirstChoice exampleMatrix PlayerLabel.A)) ""] :=
  ⟨by decide, by decide, by decide,
   (buildSequentialGame_correct exampleMatrix PlayerLabel.A
     (by decide) (by decide) (by decide)).1⟩

/-! ### Question generation (`generateQuestion`, src/lib/questions.ts)

The remaining source operates on strings and consumes `Math.random()`
draws.  Random draws are modelled as before by a `List Nat` stream whose
head is consumed per draw; `Math.floor(Math.random() * n)` is the head
modulo `n`, and a `Math.random() < 0.5` coin is the head modulo 2.
JavaScript string helpers are embedded directly: `Array.prototype.sort`
on strings is a stable merge sort under code-unit lexicographic
comparison, `[...new Set(xs)]` keeps the first occurrence in insertion
order, `String.prototype.includes` is a substring test (needles here are
never empty), `Array.prototype.indexOf` returns -1 when absent, and
`Array.prototype.join(", ")` is `String.intercalate`. -/

def charListLe : List Char → List Char → Bool
  | [], _ => true
  | _ :: _, [] => false
  | a :: as, b :: bs =>
    if a.toNat < b.toNat then true
    else if b.toNat < a.toNat then false
    else charListLe as bs

def jsSortStrings (l : List String) : List String :=
  l.mergeSort (fun a b => charListLe a.data b.data)

def setDedup (l : List String) : List String :=
  l.foldl (fun acc s => if acc.contains s then acc else acc ++ [s]) []

def jsIncludes (hay needle : String) : Bool :=
  (hay.splitOn needle).length != 1

def jsIndexOf (l : List String) (s : String) : Int :=
  match l with
  | [] => -1
  | x :: rest =>
    if x == s then 0
    else if jsIndexOf rest s == -1 then -1 else jsIndexOf rest s + 1

def formatPayoffs (p : Payoffs) : String :=
  "(" ++ toString p.a ++ ", " ++ toString p.b ++ ")"

/-- One step of the Fisher-Yates loop body of `shuffle` (src/lib/utils.ts):
swap positions `i` and `j` (identity when either is out of range, which
never happens for the indices the loop produces). -/
def listSwap {α : Type} (l : List α) (i j : Nat) : List α :=
  match l[i]?, l[j]? with
  | some x, some y => (l.set i y).set j x
  | some _, none => l
  | none, _ => l

def shuffleLoop {α : Type} : List α → List Nat → Nat → List α × List Nat
  | res, g, 0 => (res, g)
  | res, g, Nat.succ i0 =>
    shuffleLoop (listSwap res (i0 + 1) (g.headD 0 % (i0 + 2))) g.tail i0

/-- `shuffle` of src/lib/utils.ts: Fisher-Yates from the top index down
to 1, drawing `j ≤ i` uniformly each step; returns the shuffled copy and
the unconsumed stream. -/
def shuffleR {α : Type} (l : List α) (g : List Nat) : List α × List Nat :=
  shuffleLoop l g (l.length - 1)

theorem listSwap_length {α : Type} (l : List α) (i j : Nat) :
    (listSwap l i j).length = l.length := by
  unfold listSwap
  split
  · rw [List.length_set, List.length_set]
  · rfl
  · rfl

theorem mem_listSwap {α : Type} (l : List α) (i j : Nat) (a : α) :
    a ∈ listSwap l i j ↔ a ∈ l := by
  unfold listSwap
  split
  case _ x y hx hy =>
    have hi : i < l.length := by
      by_contra hcon
      rw [List.getElem?_eq_none (by omega)] at hx
      cases hx
    have hj : j < l.length := by
      by_contra hcon
      rw [List.getElem?_eq_none (by omega)] at hy
      cases hy
    rw [List.getElem?_eq_getElem hi] at hx
    rw [List.getElem?_eq_getElem hj] at hy
    injection hx with hx
    injection hy with hy
    constructor
    · intro hmem
      obtain ⟨k, hk, hke⟩ := List.mem_iff_getElem.mp hmem
      rw [List.length_set, List.length_set] at hk
      rw [List.getElem_set, List.getElem_set] at hke
      by_cases h1 : j = k
      · subst hke
        rw [if_pos h1, ← hx]
        exact List.getElem_mem hi
      · rw [if_neg h1] at hke
        by_cases h2 : i = k
        · subst hke
          rw [if_pos h2, ← hy]
          exact List.getElem_mem hj
        · rw [if_neg h2] at hke
          subst hke
          exact List.getElem_mem hk
    · intro hmem
      obtain ⟨k, hk, hke⟩ := List.mem_iff_getElem.mp hmem
      rw [List.mem_iff_getElem]
      by_cases h1 : k = i
      · subst h1
        refine ⟨j, by rw [List.length_set, List.length_set]; exact hj, ?_⟩
        rw [List.getElem_set, if_pos rfl, ← hx]
        exact hke
      · by_cases h2 : k = j
        · subst h2
          refine ⟨i, by rw [List.length_set, List.length_set]; exact hi, ?_⟩
          rw [List.getElem_set, if_neg h1, List.getElem_set, if_pos rfl, ← hy]
          exact hke
        · refine ⟨k, by rw [List.length_set, List.length_set]; exact hk, ?_⟩
          rw [List.getElem_set, if_neg (fun h => h2 h.symm),
            List.getElem_set, if_neg (fun h => h1 h.symm)]
          exact hke
  case _ => exact Iff.rfl
  case _ => exact Iff.rfl

theorem shuffleLoop_length {α : Type} :
    ∀ (i : Nat) (res : List α) (g : List Nat),
      (shuffleLoop res g i).1.length = res.length := by
  intro i
  induction i with
  | zero => intro res g; rfl
  | succ i0 ih =>
    intro res g
    show (shuffleLoop (listSwap res (i0 + 1) (g.headD 0 % (i0 + 2))) g.tail i0).1.length = _
    rw [ih, listSwap_length]

theorem mem_shuffleLoop {α : Type} :
    ∀ (i : Nat) (res : List α) (g : List Nat) (a : α),
      a ∈ (shuffleLoop res g i).1 ↔ a ∈ res := by
  intro i
  induction i with
  | zero => intro res g a; exact Iff.rfl
  | succ i0 ih =>
    intro res g a
    show a ∈ (shuffleLoop (listSwap res (i0 + 1) (g.headD 0 % (i0 + 2))) g.tail i0).1 ↔ _
    rw [ih, mem_listSwap]

theorem shuffleR_length {α : Type} (l : List α) (g : List Nat) :
    (shuffleR l g).1.length = l.length :=
  shuffleLoop_length (l.length - 1) l g

theorem mem_shuffleR {α : Type} (l : List α) (g : List Nat) (a : α) :
    a ∈ (shuffleR l g).1 ↔ a ∈ l :=
  mem_shuffleLoop (l.length - 1) l g a

theorem jsIndexOf_cons (x : String) (rest : List String) (s : String) :
    jsIndexOf (x :: rest) s =
      if x == s then 0
      else if jsIndexOf rest s == -1 then -1 else jsIndexOf rest s + 1 := rfl

theorem jsIndexOf_spec (s : String) :
    ∀ l : List String, s ∈ l →
      0 ≤ jsIndexOf l s ∧ (jsIndexOf l s).toNat < l.length ∧
        l.getD (jsIndexOf l s).toNat "" = s := by
  intro l
  induction l with
  | nil => intro h; cases h
  | cons x rest ih =>
    intro hmem
    by_cases hx : (x == s) = true
    · have hx2 : jsIndexOf (x :: rest) s = 0 := by
        rw [jsIndexOf_cons, if_pos hx]
      rw [hx2]
      refine ⟨le_refl _, by simp, ?_⟩
      show x = s
      exact eq_of_beq hx
    · have hs : s ∈ rest := by
        rcases List.mem_cons.mp hmem with h | h
        · exact absurd (beq_iff_eq.mpr h.symm) hx
        · exact h
      obtain ⟨ih1, ih2, ih3⟩ := ih hs
      have hne : ¬ (jsIndexOf rest s == -1) = true := by
        rw [beq_iff_eq]
        omega
      have hx2 : jsIndexOf (x :: rest) s = jsIndexOf rest s + 1 := by
        rw [jsIndexOf_cons, if_neg hx, if_neg hne]
      rw [hx2]
      have htn : (jsIndexOf rest s + 1).toNat = (jsIndexOf rest s).toNat + 1 := by omega
      rw [htn]
      refine ⟨by omega, by simpa using ih2, ?_⟩
      rw [List.getD_cons_succ]
      exact ih3

theorem list_contains_iff {l : List String} {a : String} :
    l.contains a = true ↔ a ∈ l :=
  ⟨List.mem_of_elem_eq_true, List.elem_eq_true_of_mem⟩

/-- The for-loop of `buildOptions` (src/lib/questions.ts): append shuffled
distractors not already present, stopping at 4 options. -/
def addDistractors (options : List String) : List String → List String
  | [] => options
  | d :: rest =>
    if 4 ≤ options.length then options
    else if options.contains d then addDistractors options rest
    else addDistractors (options ++ [d]) rest

/-- One iteration body of the while-loop of `buildOptions`: the candidate
combo option, replaced by a positional filler when already present. -/
def fillStep (options pool : List String) (g : List Nat) : String :=
  if options.contains
      (String.intercalate ", " ((shuffleR pool g).1.take (min 2 pool.length)))
  then "Option " ++ toString (options.length + 1)
  else String.intercalate ", " ((shuffleR pool g).1.take (min 2 pool.length))

def fillOptions (options pool : List String) (g : List Nat) : List String × List Nat :=
  if options.length < 4 then
    fillOptions (options ++ [fillStep options pool g]) pool (shuffleR pool g).2
  else (options, g)
termination_by 4 - options.length
decreasing_by
  rw [List.length_append]
  simp only [List.length_cons, List.length_nil]
  omega

def buildOptions (correctAnswer : String) (distractors pool : List String)
    (g : List Nat) : List String × List Nat :=
  let sd := shuffleR distractors g
  let opts1 := addDistractors [correctAnswer] sd.1
  let fill := fillOptions opts1 pool sd.2
  let options := fill.1
  if correctAnswer == "None of the Above" then
    let sh := shuffleR (options.filter fun o => !(o == "None of the Above")) fill.2
    (sh.1.take 4 ++ ["None of the Above"], sh.2)
  else
    let sh := shuffleR (options.take 4) fill.2
    let first4 := sh.1 ++ ["None of the Above"]
    (if jsIndexOf first4 correctAnswer == -1 then first4.set 0 correctAnswer
     else first4,
     sh.2)

theorem addDistractors_cons (options : List String) (d : String)
    (rest : List String) :
    addDistractors options (d :: rest) =
      if 4 ≤ options.length then options
      else if options.contains d then addDistractors options rest
      else addDistractors (options ++ [d]) rest := rfl

theorem addDistractors_spec :
    ∀ (ds options : List String),
      ∃ extra, addDistractors options ds = options ++ extra ∧
        (∀ x ∈ extra, x ∉ options) ∧
        (options.length ≤ 4 → (addDistractors options ds).length ≤ 4) := by
  intro ds
  induction ds with
  | nil =>
    intro options
    exact ⟨[], by rw [List.append_nil]; exact ⟨rfl, fun x hx => absurd hx (List.not_mem_nil x),
      fun h => h⟩⟩
  | cons d rest ih =>
    intro options
    rw [addDistractors_cons]
    by_cases h4 : 4 ≤ options.length
    · rw [if_pos h4]
      exact ⟨[], by rw [List.append_nil],
        fun x hx => absurd hx (List.not_mem_nil x), fun h => h⟩
    · rw [if_neg h4]
      by_cases hc : options.contains d = true
      · rw [if_pos hc]
        exact ih options
      · rw [if_neg hc]
        obtain ⟨extra, he1, he2, he3⟩ := ih (options ++ [d])
        refine ⟨d :: extra, ?_, ?_, ?_⟩
        · rw [he1, List.append_assoc]
          rfl
        · intro x hx
          rcases List.mem_cons.mp hx with rfl | hx2
          · exact fun hmem => hc (list_contains_iff.mpr hmem)
          · intro hmem
            exact he2 x hx2 (List.mem_append_left _ hmem)
        · intro _
          exact he3 (by rw [List.length_append]; simp only [List.length_cons,
            List.length_nil]; omega)

theorem fillOptions_lt (options pool : List String) (g : List Nat)
    (h : options.length < 4) :
    fillOptions options pool g =
      fillOptions (options ++ [fillStep options pool g]) pool (shuffleR pool g).2 := by
  rw [fillOptions.eq_def, if_pos h]

theorem fillOptions_ge (options pool : List String) (g : List Nat)
    (h : ¬ options.length < 4) :
    fillOptions options pool g = (options, g) := by
  rw [fillOptions.eq_def, if_neg h]

theorem fillOptions_spec :
    ∀ (n : Nat) (options pool : List String) (g : List Nat),
      4 - options.length ≤ n → options.length ≤ 4 →
      ∃ extra, (fillOptions options pool g).1 = options ++ extra ∧
        (∀ x ∈ extra, x ∉ options ∨ ∃ k : Nat, x = "Option " ++ toString k) ∧
        (fillOptions options pool g).1.length = 4 := by
  intro n
  induction n with
  | zero =>
    intro options pool g hn h4
    have hge : ¬ options.length < 4 := by omega
    rw [fillOptions_ge options pool g hge]
    exact ⟨[], by rw [List.append_nil], fun x hx => absurd hx (List.not_mem_nil x),
      by show options.length = 4; omega⟩
  | succ n ih =>
    intro options pool g hn h4
    by_cases h : options.length < 4
    · rw [fillOptions_lt options pool g h]
      obtain ⟨extra, he1, he2, he3⟩ := ih (options ++ [fillStep options pool g]) pool
        (shuffleR pool g).2
        (by rw [List.length_append]; simp only [List.length_cons, List.length_nil]; omega)
        (by rw [List.length_append]; simp only [List.length_cons, List.length_nil]; omega)
      refine ⟨fillStep options pool g :: extra, ?_, ?_, he3⟩
      · rw [he1, List.append_assoc]
        rfl
      · intro x hx
        rcases List.mem_cons.mp hx with rfl | hx2
        · unfold fillStep
          split
          · exact Or.inr ⟨options.length + 1, rfl⟩
          · rename_i hnc
            exact Or.inl fun hmem => hnc (list_contains_iff.mpr hmem)
        · rcases he2 x hx2 with h1 | h2
          · exact Or.inl fun hmem => h1 (List.mem_append_left _ hmem)
          · exact Or.inr h2
    · rw [fillOptions_ge options pool g h]
      exact ⟨[], by rw [List.append_nil], fun x hx => absurd hx (List.not_mem_nil x),
        by show options.length = 4; omega⟩

theorem option_filler_ne_nota (k : Nat) :
    ("Option " ++ toString k) ≠ "None of the Above" := by
  intro h
  have h1 := congrArg String.data h
  rw [String.data_append] at h1
  have h2 : "Option ".data = 'O' :: "ption ".data := rfl
  have h3 : "None of the Above".data = 'N' :: "one of the Above".data := rfl
  rw [h2, h3] at h1
  rw [List.cons_append] at h1
  injection h1 with hh _
  exact absurd hh (by decide)

theorem buildOptions_spec (c : String) (ds pool : List String) (g : List Nat) :
    c ∈ (buildOptions c ds pool g).1 ∧
    (c = "None of the Above" → (buildOptions c ds pool g).1.length = 4) ∧
    (c ≠ "None of the Above" → (buildOptions c ds pool g).1.length = 5) := by
  obtain ⟨e1, ha1, ha2, ha3⟩ := addDistractors_spec (shuffleR ds g).1 [c]
  obtain ⟨e2, hf1, hf2, hf3⟩ := fillOptions_spec 4 (addDistractors [c] (shuffleR ds g).1)
    pool (shuffleR ds g).2 (by omega) (ha3 (by simp))
  unfold buildOptions
  dsimp only
  set sd := shuffleR ds g with hsd
  set opts1 := addDistractors [c] sd.1 with hopts1
  set F := fillOptions opts1 pool sd.2 with hF
  have hO4eq : F.1 = c :: (e1 ++ e2) := by
    rw [hf1, ha1, List.append_assoc]
    rfl
  have he12 : (e1 ++ e2).length = 3 := by
    have h := hf3
    rw [hO4eq] at h
    simp only [List.length_cons] at h
    omega
  by_cases hnota : c = "None of the Above"
  · have hbeq : (c == "None of the Above") = true := beq_iff_eq.mpr hnota
    rw [if_pos hbeq]
    dsimp only
    have hx12 : ∀ x ∈ e1 ++ e2, (!(x == "None of the Above")) = true := by
      intro x hx
      rcases List.mem_append.mp hx with h1 | h2
      · have hxc : x ≠ c := fun heq =>
          ha2 x h1 (by rw [heq]; exact List.mem_singleton.mpr rfl)
        have hxne : x ≠ "None of the Above" := by rw [← hnota]; exact hxc
        rw [beq_eq_false_iff_ne.mpr hxne]
        rfl
      · rcases hf2 x h2 with h3 | h4
        · have hxc : x ≠ c := fun heq =>
            h3 (by rw [ha1, heq]; exact List.mem_append_left _ (List.mem_singleton.mpr rfl))
          have hxne : x ≠ "None of the Above" := by rw [← hnota]; exact hxc
          rw [beq_eq_false_iff_ne.mpr hxne]
          rfl
        · obtain ⟨k, hk⟩ := h4
          have hxne : x ≠ "None of the Above" := by rw [hk]; exact option_filler_ne_nota k
          rw [beq_eq_false_iff_ne.mpr hxne]
          rfl
    have hfiltereq : F.1.filter (fun o => !(o == "None of the Above")) = e1 ++ e2 := by
      rw [hO4eq, List.filter_cons]
      have hc0 : (!(c == "None of the Above")) = false := by rw [hbeq]; rfl
      rw [hc0, if_neg Bool.false_ne_true]
      exact List.filter_eq_self.mpr hx12
    refine ⟨?_, fun _ => ?_, fun hcon => absurd hnota hcon⟩
    · exact List.mem_append_right _ (List.mem_singleton.mpr hnota)
    · simp only [List.length_append, List.length_take, List.length_cons, List.length_nil]
      rw [shuffleR_length, hfiltereq, he12]
      omega
  · have hbeq : (c == "None of the Above") = false := beq_eq_false_iff_ne.mpr hnota
    rw [if_neg (by rw [hbeq]; exact Bool.false_ne_true)]
    dsimp only
    have htake : F.1.take 4 = F.1 := List.take_of_length_le (le_of_eq hf3)
    have hmem4 : c ∈ (shuffleR (F.1.take 4) F.2).1 :=
      (mem_shuffleR _ _ _).mpr (by rw [htake, hO4eq]; exact List.mem_cons_self _ _)
    have hlen5 : ((shuffleR (F.1.take 4) F.2).1 ++ ["None of the Above"]).length = 5 := by
      simp only [List.length_append, List.length_cons, List.length_nil]
      rw [shuffleR_length, List.length_take, hf3]
      omega
    by_cases hidx : (jsIndexOf ((shuffleR (F.1.take 4) F.2).1 ++ ["None of the Above"]) c
        == -1) = true
    · rw [if_pos hidx]
      refine ⟨?_, fun hcon => absurd hcon hnota, fun _ => ?_⟩
      · rw [List.mem_iff_getElem]
        refine ⟨0, ?_, ?_⟩
        · rw [List.length_set, hlen5]
          omega
        · rw [List.getElem_set, if_pos rfl]
      · rw [List.length_set]
        exact hlen5
    · rw [if_neg hidx]
      exact ⟨List.mem_append_left _ hmem4, fun hcon => absurd hcon hnota, fun _ => hlen5⟩

inductive QuestionCategory where
  | find_dominated_strategies
  | ieds_survivors
  | nash_equilibrium
  | residual_game
  | count_nash
  | select_all_nash
  | true_false
  | willingness_to_pay
  | sequential_first_mover
  | sequential_second_mover
  | sequential_best_response
  | consulting_offer
deriving DecidableEq, Repr, Inhabited

/-- The `Question` record (src/lib/types.ts) restricted to the fields the
claims speak about; `id`, `text` and `explanation` are presentational
strings not mentioned by any claim and are omitted.  The optional
`correctIndices` is the empty list when absent and `multiSelect` is
`false` when absent, exactly the reading the consuming UI uses. -/
structure Question where
  category : QuestionCategory
  difficulty : Difficulty
  options : List String
  correctIndex : Int
  correctIndices : List Int
  multiSelect : Bool
deriving DecidableEq, Repr, Inhabited

def EASY_CATEGORIES : List QuestionCategory :=
  [QuestionCategory.find_dominated_strategies, QuestionCategory.ieds_survivors,
   QuestionCategory.nash_equilibrium, QuestionCategory.residual_game,
   QuestionCategory.count_nash]

def MEDIUM_CATEGORIES : List QuestionCategory :=
  EASY_CATEGORIES ++ [QuestionCategory.select_all_nash, QuestionCategory.true_false,
    QuestionCategory.willingness_to_pay]

def HARD_CATEGORIES : List QuestionCategory :=
  [QuestionCategory.sequential_first_mover, QuestionCategory.sequential_first_mover,
   QuestionCategory.sequential_second_mover, QuestionCategory.sequential_second_mover,
   QuestionCategory.sequential_best_response, QuestionCategory.consulting_offer]

def getCategoriesForDifficulty : Difficulty → List QuestionCategory
  | Difficulty.easy => EASY_CATEGORIES
  | Difficulty.medium => MEDIUM_CATEGORIES
  | Difficulty.hard => HARD_CATEGORIES

def cellLabel (m : PayoffMatrix) (r c : Nat) : String :=
  "(" ++ m.rowLabels.getD r "" ++ ", " ++ m.colLabels.getD c "" ++ ")"

def allCellLabels (m : PayoffMatrix) : List String :=
  (List.range m.rows).flatMap fun r => (List.range m.cols).map fun c => cellLabel m r c

def allStrategyLabels (m : PayoffMatrix) : List String :=
  ((List.range m.rows).map fun r => m.rowLabels.getD r "" ++ " (Player A)") ++
  ((List.range m.cols).map fun c => m.colLabels.getD c "" ++ " (Player B)")

def dominatedCorrectAnswer (m : PayoffMatrix) : String :=
  let strictly := (findDominatedStrategies m).filter (fun dr => dr.strict)
  if strictly.length = 0 then "None of the Above"
  else String.intercalate ", " (jsSortStrings (setDedup (strictly.map fun dr =>
    dr.dominated.label ++ " (Player " ++ dr.dominated.player.str ++ ")")))

def iedsCorrectAnswer (m : PayoffMatrix) : String :=
  let survivors := (performIEDS m).survivingCells
  if survivors.length = 0 then "None of the Above"
  else String.intercalate ", "
    (jsSortStrings (survivors.map fun s => cellLabel m s.row s.col))

def nashCorrectAnswer (m : PayoffMatrix) : String :=
  let nash := findNashEquilibria m
  if nash.length = 0 then "None of the Above"
  else String.intercalate ", " (jsSortStrings (nash.map fun ne =>
    "(" ++ ne.rowLabel ++ ", " ++ ne.colLabel ++ ")"))

def countNashCorrectAnswer (m : PayoffMatrix) : String :=
  toString (findNashEquilibria m).length

def residualCorrectAnswer (m : PayoffMatrix) : String :=
  match (performIEDS m).residualMatrix with
  | none => "The full original game (no strategies eliminated)"
  | some residual =>
    if residual.rows = m.rows ∧ residual.cols = m.cols then
      "The full original game (no strategies eliminated)"
    else
      toString residual.rows ++ "x" ++ toString residual.cols ++ " game: \x7b" ++
        String.intercalate ", " residual.rowLabels ++ "\x7d vs \x7b" ++
        String.intercalate ", " residual.colLabels ++ "\x7d"

def residualCombos : List (List Nat × List Nat) :=
  [([0, 1], [0, 1]), ([0, 2], [0, 2]), ([1, 2], [1, 2]),
   ([0], [0, 1, 2]), ([0, 1, 2], [0])]

def seqOutcomeAnswer (m : PayoffMatrix) (game : SequentialGame) : String :=
  cellLabel m game.backwardInductionOutcome.row game.backwardInductionOutcome.col ++
    " with payoffs " ++
    formatPayoffs (m.cell game.backwardInductionOutcome.row
      game.backwardInductionOutcome.col)

def allOutcomeLabels (m : PayoffMatrix) : List String :=
  (List.range m.rows).flatMap fun r => (List.range m.cols).map fun c =>
    cellLabel m r c ++ " with payoffs " ++ formatPayoffs (m.cell r c)

/-- The game used by the sequential-question generators: the caller\x27s
game when its first mover matches, otherwise a freshly built one. -/
def seqGameFor (m : PayoffMatrix) (sg : Option SequentialGame)
    (fm : PlayerLabel) : SequentialGame :=
  match sg with
  | some game => if game.firstMover = fm then game else buildSequentialGame m fm
  | none => buildSequentialGame m fm

def wtpReducedBest (m : PayoffMatrix) (remainingCols : List Nat) : Option Int :=
  (List.range m.rows).foldl (fun acc r =>
    remainingCols.foldl (fun acc c =>
      if ((List.range m.rows).all fun r2 => decide ((m.cell r2 c).a ≤ (m.cell r c).a)) &&
         (remainingCols.all fun c2 => decide ((m.cell r c2).b ≤ (m.cell r c).b)) &&
         (match acc with | none => true | some b => decide (b < (m.cell r c).a))
      then some (m.cell r c).a else acc) acc) none

def wtpFallbackBest (m : PayoffMatrix) (remainingCols : List Nat) : Option Int :=
  (List.range m.rows).foldl (fun acc r =>
    remainingCols.foldl (fun acc c =>
      if (match acc with | none => true | some b => decide (b < (m.cell r c).a))
      then some (m.cell r c).a else acc) acc) none

def wtpBest (m : PayoffMatrix) (remainingCols : List Nat) : Option Int :=
  match wtpReducedBest m remainingCols with
  | some b => some b
  | none => wtpFallbackBest m remainingCols

/-- `Math.max(0, bestPayoffAReduced - originalPayoffA)`; `none` stands for
the `-Infinity` that survives when no cell was scanned, and
`Math.max(0, -Infinity)` is 0. -/
def wtpValueFor (m : PayoffMatrix) (ne : NashEquilibrium)
    (remainingCols : List Nat) : Int :=
  match wtpBest m remainingCols with
  | none => 0
  | some b => max 0 (b - ne.payoffs.a)

def trueFalseOptions : List String :=
  ["True", "False", "Cannot be determined from the given information",
   "Only true if the game is repeated", "None of the Above"]

/-- `Math.floor(Math.random() * n)` on the stream value `x`; 0 when
`n = 0` exactly as in JavaScript. -/
def jsRandBelow (x n : Nat) : Nat :=
  if n = 0 then 0 else x % n

def generateDominatedQuestion (m : PayoffMatrix) (d : Difficulty) (g : List Nat) :
    Question × List Nat :=
  let correct := dominatedCorrectAnswer m
  let distractors := (allStrategyLabels m).filter fun s => !(jsIncludes correct s)
  let bo := buildOptions correct distractors (allStrategyLabels m) g
  ({ category := QuestionCategory.find_dominated_strategies, difficulty := d,
     options := bo.1, correctIndex := jsIndexOf bo.1 correct, correctIndices := [],
     multiSelect := false }, bo.2)

def generateIEDSQuestion (m : PayoffMatrix) (d : Difficulty) (g : List Nat) :
    Question × List Nat :=
  let correct := iedsCorrectAnswer m
  let distractors := (allCellLabels m).filter fun s => !(jsIncludes correct s)
  let bo := buildOptions correct distractors (allCellLabels m) g
  ({ category := QuestionCategory.ieds_survivors, difficulty := d,
     options := bo.1, correctIndex := jsIndexOf bo.1 correct, correctIndices := [],
     multiSelect := false }, bo.2)

def generateNashQuestion (m : PayoffMatrix) (d : Difficulty) (g : List Nat) :
    Question × List Nat :=
  let correct := nashCorrectAnswer m
  let distractors := (allCellLabels m).filter fun s => !(jsIncludes correct s)
  let bo := buildOptions correct distractors (allCellLabels m) g
  ({ category := QuestionCategory.nash_equilibrium, difficulty := d,
     options := bo.1, correctIndex := jsIndexOf bo.1 correct, correctIndices := [],
     multiSelect := false }, bo.2)

def generateResidualGameQuestion (m : PayoffMatrix) (d : Difficulty) (g : List Nat) :
    Question × List Nat :=
  let correct := residualCorrectAnswer m
  let distractors :=
    if m.rows = 3 ∧ m.cols = 3 then
      (residualCombos.map fun combo =>
        toString combo.1.length ++ "x" ++ toString combo.2.length ++ " game: \x7b" ++
          String.intercalate ", " (combo.1.map fun r => m.rowLabels.getD r "") ++
          "\x7d vs \x7b" ++
          String.intercalate ", " (combo.2.map fun c => m.colLabels.getD c "") ++
          "\x7d").filter fun desc => !(desc == correct)
    else
      ["1x1 game: \x7b" ++ m.rowLabels.getD 0 "" ++ "\x7d vs \x7b" ++
         m.colLabels.getD 0 "" ++ "\x7d",
       "1x1 game: \x7b" ++ m.rowLabels.getD 1 "" ++ "\x7d vs \x7b" ++
         m.colLabels.getD 1 "" ++ "\x7d",
       "1x2 game: \x7b" ++ m.rowLabels.getD 0 "" ++ "\x7d vs \x7b" ++
         String.intercalate ", " m.colLabels ++ "\x7d",
       "2x1 game: \x7b" ++ String.intercalate ", " m.rowLabels ++ "\x7d vs \x7b" ++
         m.colLabels.getD 0 "" ++ "\x7d"]
  let filtered := distractors.filter fun x => !(x == correct)
  let bo := buildOptions correct filtered filtered g
  ({ category := QuestionCategory.residual_game, difficulty := d,
     options := bo.1, correctIndex := jsIndexOf bo.1 correct, correctIndices := [],
     multiSelect := false }, bo.2)

def generateCountNashQuestion (m : PayoffMatrix) (d : Difficulty) (g : List Nat) :
    Question × List Nat :=
  let correct := countNashCorrectAnswer m
  let distractors := (["0", "1", "2", "3", "4"]).filter fun x => !(x == correct)
  let bo := buildOptions correct distractors distractors g
  ({ category := QuestionCategory.count_nash, difficulty := d,
     options := bo.1, correctIndex := jsIndexOf bo.1 correct, correctIndices := [],
     multiSelect := false }, bo.2)

def generateSelectAllNashQuestion (m : PayoffMatrix) (d : Difficulty) (g : List Nat) :
    Question × List Nat :=
  let nash := findNashEquilibria m
  let options := allCellLabels m ++ ["No Nash Equilibrium exists"]
  let correctIndices : List Int :=
    if nash.length = 0 then [((options.length - 1 : Nat) : Int)]
    else nash.map fun ne => jsIndexOf options ("(" ++ ne.rowLabel ++ ", " ++ ne.colLabel ++ ")")
  ({ category := QuestionCategory.select_all_nash, difficulty := d,
     options := options, correctIndex := correctIndices.headD 0,
     correctIndices := correctIndices, multiSelect := true }, g)

def generateTrueFalseQuestion (m : PayoffMatrix) (d : Difficulty) (g : List Nat) :
    Question × List Nat :=
  let t := g.headD 0 % 3
  let g1 := g.tail
  let isTrue :=
    if t = 0 ∧ 2 ≤ m.rows then
      let r := jsRandBelow (g1.headD 0) m.rows
      let otherR := (r + 1) % m.rows
      (findDominatedStrategies m).any fun dr =>
        dr.dominated.player == PlayerLabel.A && dr.dominated.index == r &&
        dr.by_.index == otherR && dr.strict
    else if t = 1 then
      let r := jsRandBelow (g1.headD 0) m.rows
      let c := jsRandBelow (g1.tail.headD 0) m.cols
      (findNashEquilibria m).any fun ne => ne.row == r && ne.col == c
    else
      let r := jsRandBelow (g1.headD 0) m.rows
      let c := jsRandBelow (g1.tail.headD 0) m.cols
      decide ((m.cell r c).b < (m.cell r c).a)
  let grest := if t = 0 ∧ 2 ≤ m.rows then g1.tail else g1.tail.tail
  let correct := if isTrue then "True" else "False"
  ({ category := QuestionCategory.true_false, difficulty := d,
     options := trueFalseOptions,
     correctIndex := jsIndexOf trueFalseOptions correct, correctIndices := [],
     multiSelect := false }, grest)

def generateWillingnessToPayQuestion (m : PayoffMatrix) (d : Difficulty)
    (g : List Nat) : Question × List Nat :=
  match findNashEquilibria m with
  | [] => generateNashQuestion m d g
  | ne :: _ =>
    let otherCols := (List.range m.cols).filter fun c => !(c == ne.col)
    if otherCols.length = 0 then generateNashQuestion m d g
    else
      let prohibitCol := if g.headD 0 % 2 = 0 then ne.col else otherCols.headD 0
      let g1 := g.tail
      let remainingCols := (List.range m.cols).filter fun c => !(c == prohibitCol)
      if remainingCols.length = 0 then generateNashQuestion m d g1
      else
        let wtp := wtpValueFor m ne remainingCols
        let correct := toString wtp
        let deltaVals := (((List.range 7).map fun k => wtp + (k : Int) - 3).filter
          fun v => decide (0 ≤ v) && (toString v != correct)).map toString
        let matrixVals := ((((List.range m.rows).flatMap fun r =>
          (List.range m.cols).map fun c => (((m.cell r c).a.natAbs : Nat) : Int)).filter
          fun v => toString v != correct)).map toString
        let sh := shuffleR (setDedup (deltaVals ++ matrixVals)) g1
        let bo := buildOptions correct sh.1 sh.1 sh.2
        ({ category := QuestionCategory.willingness_to_pay, difficulty := d,
           options := bo.1, correctIndex := jsIndexOf bo.1 correct,
           correctIndices := [], multiSelect := false }, bo.2)

def generateSequentialFirstMoverQuestion (m : PayoffMatrix) (d : Difficulty)
    (sg : Option SequentialGame) (g : List Nat) : Question × List Nat :=
  let game := seqGameFor m sg PlayerLabel.A
  let correct := seqOutcomeAnswer m game
  let distractors := (allOutcomeLabels m).filter fun o => !(o == correct)
  let bo := buildOptions correct distractors (allOutcomeLabels m) g
  ({ category := QuestionCategory.sequential_first_mover, difficulty := d,
     options := bo.1, correctIndex := jsIndexOf bo.1 correct, correctIndices := [],
     multiSelect := false }, bo.2)

def generateSequentialSecondMoverQuestion (m : PayoffMatrix) (d : Difficulty)
    (sg : Option SequentialGame) (g : List Nat) : Question × List Nat :=
  let game := seqGameFor m sg PlayerLabel.B
  let correct := seqOutcomeAnswer m game
  let distractors := (allOutcomeLabels m).filter fun o => !(o == correct)
  let bo := buildOptions correct distractors (allOutcomeLabels m) g
  ({ category := QuestionCategory.sequential_second_mover, difficulty := d,
     options := bo.1, correctIndex := jsIndexOf bo.1 correct, correctIndices := [],
     multiSelect := false }, bo.2)

def generateSequentialBestResponseQuestion (m : PayoffMatrix) (d : Difficulty)
    (sg : Option SequentialGame) (g : List Nat) : Question × List Nat :=
  let askAbout := if g.headD 0 % 2 = 0 then PlayerLabel.A else PlayerLabel.B
  let g1 := g.tail
  let firstMover := if askAbout = PlayerLabel.A then PlayerLabel.B else PlayerLabel.A
  let game := seqGameFor m sg firstMover
  let correct := game.backwardInductionPath.getD 1 ""
  let askStrategies := if askAbout = PlayerLabel.A then m.rowLabels else m.colLabels
  let distractors := askStrategies.filter fun s => !(s == correct)
  let sh1 := shuffleR distractors g1
  let sh2 := shuffleR (correct :: sh1.1.take 3) sh1.2
  let options := if sh2.1.length < 4 then sh2.1 ++ ["None of the Above"] else sh2.1
  ({ category := QuestionCategory.sequential_best_response, difficulty := d,
     options := options, correctIndex := jsIndexOf options correct,
     correctIndices := [], multiSelect := false }, sh2.2)

def consultingOffers (m : PayoffMatrix) : List (String × Int) :=
  let gameA := buildSequentialGame m PlayerLabel.A
  let gameB := buildSequentialGame m PlayerLabel.B
  let outcomeA := m.cell gameA.backwardInductionOutcome.row
    gameA.backwardInductionOutcome.col
  let outcomeB := m.cell gameB.backwardInductionOutcome.row
    gameB.backwardInductionOutcome.col
  let simA : Int := match findNashEquilibria m with | [] => 0 | ne :: _ => ne.payoffs.a
  let simB : Int := match findNashEquilibria m with | [] => 0 | ne :: _ => ne.payoffs.b
  let gainA := outcomeA.a - simA
  let gainB := outcomeB.b - simB
  let offers := [("Help Player A move first, charging " ++ toString (max 0 gainA),
                  max 0 gainA),
                 ("Help Player B move first, charging " ++ toString (max 0 gainB),
                  max 0 gainB),
                 ("Help neither player (profit = 0)", (0 : Int))]
  let fakeProfit : Int := max 0 (((gainA - gainB).natAbs : Nat) : Int)
  if fakeProfit ≠ max 0 gainA ∧ fakeProfit ≠ max 0 gainB then
    offers ++ [("Help both players simultaneously, charging " ++ toString fakeProfit,
      fakeProfit)]
  else offers

def consultingCorrectAnswer (m : PayoffMatrix) : String :=
  ((consultingOffers m).foldl (fun b o => if b.2 < o.2 then o else b)
    ((consultingOffers m).headD ("", 0))).1

def generateConsultingOfferQuestion (m : PayoffMatrix) (d : Difficulty)
    (sg : Option SequentialGame) (g : List Nat) : Question × List Nat :=
  let correct := consultingCorrectAnswer m
  let distractors := ((consultingOffers m).map fun o => o.1).filter
    fun s => !(s == correct)
  let bo := buildOptions correct distractors distractors g
  ({ category := QuestionCategory.consulting_offer, difficulty := d,
     options := bo.1, correctIndex := jsIndexOf bo.1 correct, correctIndices := [],
     multiSelect := false }, bo.2)

def generateQuestionForCategory (m : PayoffMatrix) (cat : QuestionCategory)
    (d : Difficulty) (sg : Option SequentialGame) (g : List Nat) :
    Question × List Nat :=
  match cat with
  | QuestionCategory.find_dominated_strategies => generateDominatedQuestion m d g
  | QuestionCategory.ieds_survivors => generateIEDSQuestion m d g
  | QuestionCategory.nash_equilibrium => generateNashQuestion m d g
  | QuestionCategory.select_all_nash => generateSelectAllNashQuestion m d g
  | QuestionCategory.residual_game => generateResidualGameQuestion m d g
  | QuestionCategory.count_nash => generateCountNashQuestion m d g
  | QuestionCategory.true_false => generateTrueFalseQuestion m d g
  | QuestionCategory.willingness_to_pay => generateWillingnessToPayQuestion m d g
  | QuestionCategory.sequential_first_mover =>
      generateSequentialFirstMoverQuestion m d sg g
  | QuestionCategory.sequential_second_mover =>
      generateSequentialSecondMoverQuestion m d sg g
  | QuestionCategory.sequential_best_response =>
      generateSequentialBestResponseQuestion m d sg g
  | QuestionCategory.consulting_offer => generateConsultingOfferQuestion m d sg g

def generateQuestion (m : PayoffMatrix) (d : Difficulty)
    (sg : Option SequentialGame) (g : List Nat) : Question × List Nat :=
  let categories := getCategoriesForDifficulty d
  let cat := categories.getD (g.headD 0 % categories.length)
    QuestionCategory.nash_equilibrium
  generateQuestionForCategory m cat d sg g.tail

theorem question_core (c : String) (ds pool : List String) (g : List Nat) :
    0 ≤ jsIndexOf (buildOptions c ds pool g).1 c ∧
    (jsIndexOf (buildOptions c ds pool g).1 c).toNat <
      (buildOptions c ds pool g).1.length ∧
    (buildOptions c ds pool g).1.getD
      (jsIndexOf (buildOptions c ds pool g).1 c).toNat "" = c ∧
    (c = "None of the Above" → (buildOptions c ds pool g).1.length = 4) ∧
    (c ≠ "None of the Above" → (buildOptions c ds pool g).1.length = 5) := by
  obtain ⟨hmem, h4, h5⟩ := buildOptions_spec c ds pool g
  obtain ⟨j1, j2, j3⟩ := jsIndexOf_spec c _ hmem
  exact ⟨j1, j2, j3, h4, h5⟩

theorem generateDominatedQuestion_spec (m : PayoffMatrix) (d : Difficulty)
    (g : List Nat) :
    (generateDominatedQuestion m d g).1.category =
      QuestionCategory.find_dominated_strategies ∧
    (generateDominatedQuestion m d g).1.multiSelect = false ∧
    (generateDominatedQuestion m d g).1.correctIndices = [] ∧
    0 ≤ (generateDominatedQuestion m d g).1.correctIndex ∧
    (generateDominatedQuestion m d g).1.correctIndex.toNat <
      (generateDominatedQuestion m d g).1.options.length ∧
    (generateDominatedQuestion m d g).1.options.getD
      (generateDominatedQuestion m d g).1.correctIndex.toNat "" =
        dominatedCorrectAnswer m ∧
    (dominatedCorrectAnswer m = "None of the Above" →
      (generateDominatedQuestion m d g).1.options.length = 4) ∧
    (dominatedCorrectAnswer m ≠ "None of the Above" →
      (generateDominatedQuestion m d g).1.options.length = 5) := by
  obtain ⟨h1, h2, h3, h4, h5⟩ := question_core (dominatedCorrectAnswer m)
    ((allStrategyLabels m).filter fun s => !(jsIncludes (dominatedCorrectAnswer m) s))
    (allStrategyLabels m) g
  exact ⟨rfl, rfl, rfl, h1, h2, h3, h4, h5⟩

theorem generateIEDSQuestion_spec (m : PayoffMatrix) (d : Difficulty)
    (g : List Nat) :
    (generateIEDSQuestion m d g).1.category = QuestionCategory.ieds_survivors ∧
    (generateIEDSQuestion m d g).1.multiSelect = false ∧
    (generateIEDSQuestion m d g).1.correctIndices = [] ∧
    0 ≤ (generateIEDSQuestion m d g).1.correctIndex ∧
    (generateIEDSQuestion m d g).1.correctIndex.toNat <
      (generateIEDSQuestion m d g).1.options.length ∧
    (generateIEDSQuestion m d g).1.options.getD
      (generateIEDSQuestion m d g).1.correctIndex.toNat "" = iedsCorrectAnswer m ∧
    (iedsCorrectAnswer m = "None of the Above" →
      (generateIEDSQuestion m d g).1.options.length = 4) ∧
    (iedsCorrectAnswer m ≠ "None of the Above" →
      (generateIEDSQuestion m d g).1.options.length = 5) := by
  obtain ⟨h1, h2, h3, h4, h5⟩ := question_core (iedsCorrectAnswer m)
    ((allCellLabels m).filter fun s => !(jsIncludes (iedsCorrectAnswer m) s))
    (allCellLabels m) g
  exact ⟨rfl, rfl, rfl, h1, h2, h3, h4, h5⟩

theorem generateNashQuestion_spec (m : PayoffMatrix) (d : Difficulty)
    (g : List Nat) :
    (generateNashQuestion m d g).1.category = QuestionCategory.nash_equilibrium ∧
    (generateNashQuestion m d g).1.multiSelect = false ∧
    (generateNashQuestion m d g).1.correctIndices = [] ∧
    0 ≤ (generateNashQuestion m d g).1.correctIndex ∧
    (generateNashQuestion m d g).1.correctIndex.toNat <
      (generateNashQuestion m d g).1.options.length ∧
    (generateNashQuestion m d g).1.options.getD
      (generateNashQuestion m d g).1.correctIndex.toNat "" = nashCorrectAnswer m ∧
    (nashCorrectAnswer m = "None of the Above" →
      (generateNashQuestion m d g).1.options.length = 4) ∧
    (nashCorrectAnswer m ≠ "None of the Above" →
      (generateNashQuestion m d g).1.options.length = 5) := by
  obtain ⟨h1, h2, h3, h4, h5⟩ := question_core (nashCorrectAnswer m)
    ((allCellLabels m).filter fun s => !(jsIncludes (nashCorrectAnswer m) s))
    (allCellLabels m) g
  exact ⟨rfl, rfl, rfl, h1, h2, h3, h4, h5⟩

theorem generateResidualGameQuestion_spec (m : PayoffMatrix) (d : Difficulty)
    (g : List Nat) :
    (generateResidualGameQuestion m d g).1.category =
      QuestionCategory.residual_game ∧
    (generateResidualGameQuestion m d g).1.multiSelect = false ∧
    (generateResidualGameQuestion m d g).1.correctIndices = [] ∧
    0 ≤ (generateResidualGameQuestion m d g).1.correctIndex ∧
    (generateResidualGameQuestion m d g).1.correctIndex.toNat <
      (generateResidualGameQuestion m d g).1.options.length ∧
    (generateResidualGameQuestion m d g).1.options.getD
      (generateResidualGameQuestion m d g).1.correctIndex.toNat "" =
        residualCorrectAnswer m ∧
    (residualCorrectAnswer m = "None of the Above" →
      (generateResidualGameQuestion m d g).1.options.length = 4) ∧
    (residualCorrectAnswer m ≠ "None of the Above" →
      (generateResidualGameQuestion m d g).1.options.length = 5) := by
  obtain ⟨h1, h2, h3, h4, h5⟩ := question_core (residualCorrectAnswer m)
    ((if m.rows = 3 ∧ m.cols = 3 then
      (residualCombos.map fun combo =>
        toString combo.1.length ++ "x" ++ toString combo.2.length ++ " game: \x7b" ++
          String.intercalate ", " (combo.1.map fun r => m.rowLabels.getD r "") ++
          "\x7d vs \x7b" ++
          String.intercalate ", " (combo.2.map fun c => m.colLabels.getD c "") ++
          "\x7d").filter fun desc => !(desc == residualCorrectAnswer m)
    else
      ["1x1 game: \x7b" ++ m.rowLabels.getD 0 "" ++ "\x7d vs \x7b" ++
         m.colLabels.getD 0 "" ++ "\x7d",
       "1x1 game: \x7b" ++ m.rowLabels.getD 1 "" ++ "\x7d vs \x7b" ++
         m.colLabels.getD 1 "" ++ "\x7d",
       "1x2 game: \x7b" ++ m.rowLabels.getD 0 "" ++ "\x7d vs \x7b" ++
         String.intercalate ", " m.colLabels ++ "\x7d",
       "2x1 game: \x7b" ++ String.intercalate ", " m.rowLabels ++ "\x7d vs \x7b" ++
         m.colLabels.getD 0 "" ++ "\x7d"]).filter
      fun x => !(x == residualCorrectAnswer m))
    ((if m.rows = 3 ∧ m.cols = 3 then
      (residualCombos.map fun combo =>
        toString combo.1.length ++ "x" ++ toString combo.2.length ++ " game: \x7b" ++
          String.intercalate ", " (combo.1.map fun r => m.rowLabels.getD r "") ++
          "\x7d vs \x7b" ++
          String.intercalate ", " (combo.2.map fun c => m.colLabels.getD c "") ++
          "\x7d").filter fun desc => !(desc == residualCorrectAnswer m)
    else
      ["1x1 game: \x7b" ++ m.rowLabels.getD 0 "" ++ "\x7d vs \x7b" ++
         m.colLabels.getD 0 "" ++ "\x7d",
       "1x1 game: \x7b" ++ m.rowLabels.getD 1 "" ++ "\x7d vs \x7b" ++
         m.colLabels.getD 1 "" ++ "\x7d",
       "1x2 game: \x7b" ++ m.rowLabels.getD 0 "" ++ "\x7d vs \x7b" ++
         String.intercalate ", " m.colLabels ++ "\x7d",
       "2x1 game: \x7b" ++ String.intercalate ", " m.rowLabels ++ "\x7d vs \x7b" ++
         m.colLabels.getD 0 "" ++ "\x7d"]).filter
      fun x => !(x == residualCorrectAnswer m)) g
  exact ⟨rfl, rfl, rfl, h1, h2, h3, h4, h5⟩

theorem generateCountNashQuestion_spec (m : PayoffMatrix) (d : Difficulty)
    (g : List Nat) :
    (generateCountNashQuestion m d g).1.category = QuestionCategory.count_nash ∧
    (generateCountNashQuestion m d g).1.multiSelect = false ∧
    (generateCountNashQuestion m d g).1.correctIndices = [] ∧
    0 ≤ (generateCountNashQuestion m d g).1.correctIndex ∧
    (generateCountNashQuestion m d g).1.correctIndex.toNat <
      (generateCountNashQuestion m d g).1.options.length ∧
    (generateCountNashQuestion m d g).1.options.getD
      (generateCountNashQuestion m d g).1.correctIndex.toNat "" =
        countNashCorrectAnswer m ∧
    (countNashCorrectAnswer m = "None of the Above" →
      (generateCountNashQuestion m d g).1.options.length = 4) ∧
    (countNashCorrectAnswer m ≠ "None of the Above" →
      (generateCountNashQuestion m d g).1.options.length = 5) := by
  obtain ⟨h1, h2, h3, h4, h5⟩ := question_core (countNashCorrectAnswer m)
    ((["0", "1", "2", "3", "4"]).filter fun x => !(x == countNashCorrectAnswer m))
    ((["0", "1", "2", "3", "4"]).filter fun x => !(x == countNashCorrectAnswer m)) g
  exact ⟨rfl, rfl, rfl, h1, h2, h3, h4, h5⟩

theorem generateSequentialFirstMoverQuestion_spec (m : PayoffMatrix) (d : Difficulty)
    (sg : Option SequentialGame) (g : List Nat) :
    (generateSequentialFirstMoverQuestion m d sg g).1.category =
      QuestionCategory.sequential_first_mover ∧
    (generateSequentialFirstMoverQuestion m d sg g).1.multiSelect = false ∧
    (generateSequentialFirstMoverQuestion m d sg g).1.correctIndices = [] ∧
    0 ≤ (generateSequentialFirstMoverQuestion m d sg g).1.correctIndex ∧
    (generateSequentialFirstMoverQuestion m d sg g).1.correctIndex.toNat <
      (generateSequentialFirstMoverQuestion m d sg g).1.options.length ∧
    (generateSequentialFirstMoverQuestion m d sg g).1.options.getD
      (generateSequentialFirstMoverQuestion m d sg g).1.correctIndex.toNat "" =
        seqOutcomeAnswer m (seqGameFor m sg PlayerLabel.A) ∧
    (seqOutcomeAnswer m (seqGameFor m sg PlayerLabel.A) = "None of the Above" →
      (generateSequentialFirstMoverQuestion m d sg g).1.options.length = 4) ∧
    (seqOutcomeAnswer m (seqGameFor m sg PlayerLabel.A) ≠ "None of the Above" →
      (generateSequentialFirstMoverQuestion m d sg g).1.options.length = 5) := by
  obtain ⟨h1, h2, h3, h4, h5⟩ := question_core
    (seqOutcomeAnswer m (seqGameFor m sg PlayerLabel.A))
    ((allOutcomeLabels m).filter fun o =>
      !(o == seqOutcomeAnswer m (seqGameFor m sg PlayerLabel.A)))
    (allOutcomeLabels m) g
  exact ⟨rfl, rfl, rfl, h1, h2, h3, h4, h5⟩

theorem generateSequentialSecondMoverQuestion_spec (m : PayoffMatrix) (d : Difficulty)
    (sg : Option SequentialGame) (g : List Nat) :
    (generateSequentialSecondMoverQuestion m d sg g).1.category =
      QuestionCategory.sequential_second_mover ∧
    (generateSequentialSecondMoverQuestion m d sg g).1.multiSelect = false ∧
    (generateSequentialSecondMoverQuestion m d sg g).1.correctIndices = [] ∧
    0 ≤ (generateSequentialSecondMoverQuestion m d sg g).1.correctIndex ∧
    (generateSequentialSecondMoverQuestion m d sg g).1.correctIndex.toNat <
      (generateSequentialSecondMoverQuestion m d sg g).1.options.length ∧
    (generateSequentialSecondMoverQuestion m d sg g).1.options.getD
      (generateSequentialSecondMoverQuestion m d sg g).1.correctIndex.toNat "" =
        seqOutcomeAnswer m (seqGameFor m sg PlayerLabel.B) ∧
    (seqOutcomeAnswer m (seqGameFor m sg PlayerLabel.B) = "None of the Above" →
      (generateSequentialSecondMoverQuestion m d sg g).1.options.length = 4) ∧
    (seqOutcomeAnswer m (seqGameFor m sg PlayerLabel.B) ≠ "None of the Above" →
      (generateSequentialSecondMoverQuestion m d sg g).1.options.length = 5) := by
  obtain ⟨h1, h2, h3, h4, h5⟩ := question_core
    (seqOutcomeAnswer m (seqGameFor m sg PlayerLabel.B))
    ((allOutcomeLabels m).filter fun o =>
      !(o == seqOutcomeAnswer m (seqGameFor m sg PlayerLabel.B)))
    (allOutcomeLabels m) g
  exact ⟨rfl, rfl, rfl, h1, h2, h3, h4, h5⟩

theorem generateConsultingOfferQuestion_spec (m : PayoffMatrix) (d : Difficulty)
    (sg : Option SequentialGame) (g : List Nat) :
    (generateConsultingOfferQuestion m d sg g).1.category =
      QuestionCategory.consulting_offer ∧
    (generateConsultingOfferQuestion m d sg g).1.multiSelect = false ∧
    (generateConsultingOfferQuestion m d sg g).1.correctIndices = [] ∧
    0 ≤ (generateConsultingOfferQuestion m d sg g).1.correctIndex ∧
    (generateConsultingOfferQuestion m d sg g).1.correctIndex.toNat <
      (generateConsultingOfferQuestion m d sg g).1.options.length ∧
    (generateConsultingOfferQuestion m d sg g).1.options.getD
      (generateConsultingOfferQuestion m d sg g).1.correctIndex.toNat "" =
        consultingCorrectAnswer m ∧
    (consultingCorrectAnswer m = "None of the Above" →
      (generateConsultingOfferQuestion m d sg g).1.options.length = 4) ∧
    (consultingCorrectAnswer m ≠ "None of the Above" →
      (generateConsultingOfferQuestion m d sg g).1.options.length = 5) := by
  obtain ⟨h1, h2, h3, h4, h5⟩ := question_core (consultingCorrectAnswer m)
    (((consultingOffers m).map fun o => o.1).filter
      fun s => !(s == consultingCorrectAnswer m))
    (((consultingOffers m).map fun o => o.1).filter
      fun s => !(s == consultingCorrectAnswer m)) g
  exact ⟨rfl, rfl, rfl, h1, h2, h3, h4, h5⟩

theorem tf_bundle (b : Bool) :
    0 ≤ jsIndexOf trueFalseOptions (if b then "True" else "False") ∧
    (jsIndexOf trueFalseOptions (if b then "True" else "False")).toNat <
      trueFalseOptions.length ∧
    (jsIndexOf trueFalseOptions (if b then "True" else "False") = 0 ∨
     jsIndexOf trueFalseOptions (if b then "True" else "False") = 1) := by
  cases b
  · exact ⟨by decide, by decide, Or.inr (by decide)⟩
  · exact ⟨by decide, by decide, Or.inl (by decide)⟩

theorem generateTrueFalseQuestion_spec (m : PayoffMatrix) (d : Difficulty)
    (g : List Nat) :
    (generateTrueFalseQuestion m d g).1.category = QuestionCategory.true_false ∧
    (generateTrueFalseQuestion m d g).1.multiSelect = false ∧
    (generateTrueFalseQuestion m d g).1.correctIndices = [] ∧
    0 ≤ (generateTrueFalseQuestion m d g).1.correctIndex ∧
    (generateTrueFalseQuestion m d g).1.correctIndex.toNat <
      (generateTrueFalseQuestion m d g).1.options.length ∧
    (generateTrueFalseQuestion m d g).1.options = trueFalseOptions ∧
    ((generateTrueFalseQuestion m d g).1.correctIndex = 0 ∨
     (generateTrueFalseQuestion m d g).1.correctIndex = 1) := by
  refine ⟨rfl, rfl, rfl, (tf_bundle _).1, (tf_bundle _).2.1, rfl, (tf_bundle _).2.2⟩

theorem bestResponse_core (c : String) (labels : List String) (g1 : List Nat) :
    let sh1 := shuffleR (labels.filter fun s => !(s == c)) g1
    let sh2 := shuffleR (c :: sh1.1.take 3) sh1.2
    let options := if sh2.1.length < 4 then sh2.1 ++ ["None of the Above"] else sh2.1
    0 ≤ jsIndexOf options c ∧ (jsIndexOf options c).toNat < options.length ∧
    options.getD (jsIndexOf options c).toNat "" = c ∧
    2 ≤ options.length ∧ options.length ≤ 4 := by
  intro sh1 sh2 options
  have hlen2 : sh2.1.length = 1 + min 3 (sh1.1.length) := by
    show (shuffleR (c :: sh1.1.take 3) sh1.2).1.length = _
    rw [shuffleR_length]
    simp only [List.length_cons, List.length_take]
    omega
  have hmem2 : c ∈ sh2.1 := by
    show c ∈ (shuffleR (c :: sh1.1.take 3) sh1.2).1
    rw [mem_shuffleR]
    exact List.mem_cons_self _ _
  have hopts : options = if sh2.1.length < 4 then sh2.1 ++ ["None of the Above"]
      else sh2.1 := rfl
  have hmem : c ∈ options := by
    rw [hopts]
    by_cases hlt : sh2.1.length < 4
    · rw [if_pos hlt]
      exact List.mem_append_left _ hmem2
    · rw [if_neg hlt]
      exact hmem2
  have hbounds : 2 ≤ options.length ∧ options.length ≤ 4 := by
    rw [hopts]
    by_cases hlt : sh2.1.length < 4
    · rw [if_pos hlt]
      simp only [List.length_append, List.length_cons, List.length_nil]
      omega
    · rw [if_neg hlt]
      omega
  obtain ⟨j1, j2, j3⟩ := jsIndexOf_spec c options hmem
  exact ⟨j1, j2, j3, hbounds.1, hbounds.2⟩

set_option maxHeartbeats 2000000 in
theorem generateSequentialBestResponseQuestion_spec (m : PayoffMatrix)
    (d : Difficulty) (sg : Option SequentialGame) (g : List Nat) :
    (generateSequentialBestResponseQuestion m d sg g).1.category =
      QuestionCategory.sequential_best_response ∧
    (generateSequentialBestResponseQuestion m d sg g).1.multiSelect = false ∧
    (generateSequentialBestResponseQuestion m d sg g).1.correctIndices = [] ∧
    0 ≤ (generateSequentialBestResponseQuestion m d sg g).1.correctIndex ∧
    (generateSequentialBestResponseQuestion m d sg g).1.correctIndex.toNat <
      (generateSequentialBestResponseQuestion m d sg g).1.options.length ∧
    (∃ fm : PlayerLabel,
      (generateSequentialBestResponseQuestion m d sg g).1.options.getD
        (generateSequentialBestResponseQuestion m d sg g).1.correctIndex.toNat "" =
        (seqGameFor m sg fm).backwardInductionPath.getD 1 "") ∧
    2 ≤ (generateSequentialBestResponseQuestion m d sg g).1.options.length ∧
    (generateSequentialBestResponseQuestion m d sg g).1.options.length ≤ 4 := by
  obtain ⟨h1, h2, h3, h4, h5⟩ := bestResponse_core
    ((seqGameFor m sg (if (if g.headD 0 % 2 = 0 then PlayerLabel.A else PlayerLabel.B) =
        PlayerLabel.A then PlayerLabel.B else PlayerLabel.A)).backwardInductionPath.getD
      1 "")
    (if (if g.headD 0 % 2 = 0 then PlayerLabel.A else PlayerLabel.B) = PlayerLabel.A
      then m.rowLabels else m.colLabels)
    g.tail
  exact ⟨rfl, rfl, rfl, h1, h2,
    ⟨(if (if g.headD 0 % 2 = 0 then PlayerLabel.A else PlayerLabel.B) = PlayerLabel.A
        then PlayerLabel.B else PlayerLabel.A), h3⟩, h4, h5⟩

theorem nash_label_mem (m : PayoffMatrix) (ne : NashEquilibrium)
    (hne : ne ∈ findNashEquilibria m) :
    ("(" ++ ne.rowLabel ++ ", " ++ ne.colLabel ++ ")") ∈ allCellLabels m := by
  obtain ⟨hrow, hcol, -, -, hform⟩ := (mem_findNashEquilibria m ne).mp hne
  have hrl : ne.rowLabel = m.rowLabels.getD ne.row "" := by rw [hform]
  have hcl : ne.colLabel = m.colLabels.getD ne.col "" := by rw [hform]
  unfold allCellLabels
  rw [List.mem_flatMap]
  refine ⟨ne.row, List.mem_range.mpr hrow, ?_⟩
  rw [List.mem_map]
  refine ⟨ne.col, List.mem_range.mpr hcol, ?_⟩
  rw [hrl, hcl]
  rfl

theorem generateSelectAllNashQuestion_spec (m : PayoffMatrix) (d : Difficulty)
    (g : List Nat) :
    (generateSelectAllNashQuestion m d g).1.category =
      QuestionCategory.select_all_nash ∧
    (generateSelectAllNashQuestion m d g).1.multiSelect = true ∧
    (generateSelectAllNashQuestion m d g).1.options =
      allCellLabels m ++ ["No Nash Equilibrium exists"] ∧
    0 ≤ (generateSelectAllNashQuestion m d g).1.correctIndex ∧
    (generateSelectAllNashQuestion m d g).1.correctIndex.toNat <
      (generateSelectAllNashQuestion m d g).1.options.length ∧
    (∀ i ∈ (generateSelectAllNashQuestion m d g).1.correctIndices,
      0 ≤ i ∧ i.toNat < (generateSelectAllNashQuestion m d g).1.options.length) ∧
    (findNashEquilibria m = [] →
      (generateSelectAllNashQuestion m d g).1.correctIndices =
        [((allCellLabels m).length : Int)]) ∧
    (findNashEquilibria m ≠ [] →
      ∀ i ∈ (generateSelectAllNashQuestion m d g).1.correctIndices,
        ∃ ne ∈ findNashEquilibria m,
          (generateSelectAllNashQuestion m d g).1.options.getD i.toNat "" =
            "(" ++ ne.rowLabel ++ ", " ++ ne.colLabel ++ ")") := by
  have hidx : ∀ ne ∈ findNashEquilibria m,
      0 ≤ jsIndexOf (allCellLabels m ++ ["No Nash Equilibrium exists"])
        ("(" ++ ne.rowLabel ++ ", " ++ ne.colLabel ++ ")") ∧
      (jsIndexOf (allCellLabels m ++ ["No Nash Equilibrium exists"])
        ("(" ++ ne.rowLabel ++ ", " ++ ne.colLabel ++ ")")).toNat <
        (allCellLabels m ++ ["No Nash Equilibrium exists"]).length ∧
      (allCellLabels m ++ ["No Nash Equilibrium exists"]).getD
        (jsIndexOf (allCellLabels m ++ ["No Nash Equilibrium exists"])
          ("(" ++ ne.rowLabel ++ ", " ++ ne.colLabel ++ ")")).toNat "" =
        "(" ++ ne.rowLabel ++ ", " ++ ne.colLabel ++ ")" := by
    intro ne hne
    exact jsIndexOf_spec _ _ (List.mem_append_left _ (nash_label_mem m ne hne))
  have hci : (generateSelectAllNashQuestion m d g).1.correctIndices =
      if (findNashEquilibria m).length = 0 then
        [(((allCellLabels m ++ ["No Nash Equilibrium exists"]).length - 1 : Nat) : Int)]
      else (findNashEquilibria m).map fun ne =>
        jsIndexOf (allCellLabels m ++ ["No Nash Equilibrium exists"])
          ("(" ++ ne.rowLabel ++ ", " ++ ne.colLabel ++ ")") := rfl
  have hcx : (generateSelectAllNashQuestion m d g).1.correctIndex =
      (if (findNashEquilibria m).length = 0 then
        [(((allCellLabels m ++ ["No Nash Equilibrium exists"]).length - 1 : Nat) : Int)]
      else (findNashEquilibria m).map fun ne =>
        jsIndexOf (allCellLabels m ++ ["No Nash Equilibrium exists"])
          ("(" ++ ne.rowLabel ++ ", " ++ ne.colLabel ++ ")")).headD 0 := rfl
  have hop : (generateSelectAllNashQuestion m d g).1.options =
      allCellLabels m ++ ["No Nash Equilibrium exists"] := rfl
  have hlenO : (allCellLabels m ++ ["No Nash Equilibrium exists"]).length =
      (allCellLabels m).length + 1 := by
    rw [List.length_append]
    rfl
  rcases hn : findNashEquilibria m with _ | ⟨ne0, rest⟩
  · rw [hn] at hci hcx
    rw [List.length_nil] at hci hcx
    rw [if_pos rfl] at hci hcx
    rw [List.headD_cons] at hcx
    refine ⟨rfl, rfl, rfl, ?_, ?_, ?_, ?_, ?_⟩
    · rw [hcx]
      exact Int.natCast_nonneg _
    · rw [hcx, hop, Int.toNat_natCast, hlenO]
      omega
    · intro i hi
      rw [hci] at hi
      rcases List.mem_singleton.mp hi with rfl
      constructor
      · exact Int.natCast_nonneg _
      · rw [hop, Int.toNat_natCast, hlenO]
        omega
    · intro _
      rw [hci, hlenO]
      simp only [Nat.add_sub_cancel]
    · intro hcon
      exact absurd rfl hcon
  · rw [hn] at hci hcx
    rw [List.length_cons] at hci hcx
    rw [if_neg (by omega)] at hci hcx
    rw [List.map_cons, List.headD_cons] at hcx
    have hne0 : ne0 ∈ findNashEquilibria m := by
      rw [hn]
      exact List.mem_cons_self _ _
    refine ⟨rfl, rfl, rfl, ?_, ?_, ?_, ?_, ?_⟩
    · rw [hcx]
      exact (hidx ne0 hne0).1
    · rw [hcx, hop]
      exact (hidx ne0 hne0).2.1
    · intro i hi
      rw [hci] at hi
      obtain ⟨ne, hmem, heq⟩ := List.mem_map.mp hi
      have hnem : ne ∈ findNashEquilibria m := by
        rw [hn]
        exact hmem
      subst heq
      exact ⟨(hidx ne hnem).1, by rw [hop]; exact (hidx ne hnem).2.1⟩
    · intro hcon
      exact List.noConfusion hcon
    · intro _ i hi
      rw [hci] at hi
      obtain ⟨ne, hmem, heq⟩ := List.mem_map.mp hi
      have hnem : ne ∈ findNashEquilibria m := by
        rw [hn]
        exact hmem
      subst heq
      refine ⟨ne, hmem, ?_⟩
      rw [hop]
      exact (hidx ne hnem).2.2

theorem wtpValueFor_nonneg (m : PayoffMatrix) (ne : NashEquilibrium)
    (rc : List Nat) : 0 ≤ wtpValueFor m ne rc := by
  unfold wtpValueFor
  split
  · exact le_refl 0
  · exact le_max_left 0 _

set_option maxHeartbeats 2000000 in
theorem generateWillingnessToPayQuestion_spec (m : PayoffMatrix) (d : Difficulty)
    (g : List Nat) :
    (findNashEquilibria m = [] →
      generateWillingnessToPayQuestion m d g = generateNashQuestion m d g) ∧
    ((generateWillingnessToPayQuestion m d g).1.category =
        QuestionCategory.nash_equilibrium ∨
     (generateWillingnessToPayQuestion m d g).1.category =
        QuestionCategory.willingness_to_pay) ∧
    (generateWillingnessToPayQuestion m d g).1.multiSelect = false ∧
    (generateWillingnessToPayQuestion m d g).1.correctIndices = [] ∧
    0 ≤ (generateWillingnessToPayQuestion m d g).1.correctIndex ∧
    (generateWillingnessToPayQuestion m d g).1.correctIndex.toNat <
      (generateWillingnessToPayQuestion m d g).1.options.length ∧
    ((generateWillingnessToPayQuestion m d g).1.category =
        QuestionCategory.willingness_to_pay →
      ∃ ne rest, findNashEquilibria m = ne :: rest ∧ ∃ remCols : List Nat,
        0 ≤ wtpValueFor m ne remCols ∧
        (generateWillingnessToPayQuestion m d g).1.options.getD
          (generateWillingnessToPayQuestion m d g).1.correctIndex.toNat "" =
          toString (wtpValueFor m ne remCols) ∧
        (toString (wtpValueFor m ne remCols) = "None of the Above" →
          (generateWillingnessToPayQuestion m d g).1.options.length = 4) ∧
        (toString (wtpValueFor m ne remCols) ≠ "None of the Above" →
          (generateWillingnessToPayQuestion m d g).1.options.length = 5)) ∧
    ((generateWillingnessToPayQuestion m d g).1.category =
        QuestionCategory.nash_equilibrium →
      (generateWillingnessToPayQuestion m d g).1.options.getD
        (generateWillingnessToPayQuestion m d g).1.correctIndex.toNat "" =
        nashCorrectAnswer m ∧
      (nashCorrectAnswer m = "None of the Above" →
        (generateWillingnessToPayQuestion m d g).1.options.length = 4) ∧
      (nashCorrectAnswer m ≠ "None of the Above" →
        (generateWillingnessToPayQuestion m d g).1.options.length = 5)) := by
  rcases hn : findNashEquilibria m with _ | ⟨ne, rest⟩
  · have hq : generateWillingnessToPayQuestion m d g = generateNashQuestion m d g := by
      unfold generateWillingnessToPayQuestion
      rw [hn]
    rw [hq]
    obtain ⟨n1, n2, n3, n4, n5, n6, n7, n8⟩ := generateNashQuestion_spec m d g
    refine ⟨fun _ => rfl, Or.inl n1, n2, n3, n4, n5, ?_, fun _ => ⟨n6, n7, n8⟩⟩
    intro hcat
    rw [n1] at hcat
    exact QuestionCategory.noConfusion hcat
  · unfold generateWillingnessToPayQuestion
    rw [hn]
    dsimp only
    by_cases ho : ((List.range m.cols).filter fun c => !(c == ne.col)).length = 0
    · rw [if_pos ho]
      obtain ⟨n1, n2, n3, n4, n5, n6, n7, n8⟩ := generateNashQuestion_spec m d g
      refine ⟨fun hcon => absurd hcon (List.cons_ne_nil ne rest), Or.inl n1, n2, n3,
        n4, n5, ?_, fun _ => ⟨n6, n7, n8⟩⟩
      intro hcat
      rw [n1] at hcat
      exact QuestionCategory.noConfusion hcat
    · rw [if_neg ho]
      by_cases hr : ((List.range m.cols).filter fun c =>
          !(c == (if g.headD 0 % 2 = 0 then ne.col
            else ((List.range m.cols).filter fun c2 => !(c2 == ne.col)).headD 0))).length
          = 0
      · rw [if_pos hr]
        obtain ⟨n1, n2, n3, n4, n5, n6, n7, n8⟩ := generateNashQuestion_spec m d g.tail
        refine ⟨fun hcon => absurd hcon (List.cons_ne_nil ne rest), Or.inl n1, n2, n3,
          n4, n5, ?_, fun _ => ⟨n6, n7, n8⟩⟩
        intro hcat
        rw [n1] at hcat
        exact QuestionCategory.noConfusion hcat
      · rw [if_neg hr]
        refine ⟨fun hcon => absurd hcon (List.cons_ne_nil ne rest), Or.inr rfl, rfl, rfl,
          (question_core _ _ _ _).1, (question_core _ _ _ _).2.1, ?_, ?_⟩
        · intro _
          refine ⟨ne, rest, rfl,
            (List.range m.cols).filter (fun c =>
              !(c == (if g.headD 0 % 2 = 0 then ne.col
                else ((List.range m.cols).filter fun c2 => !(c2 == ne.col)).headD 0))),
            wtpValueFor_nonneg m ne _, ?_, ?_, ?_⟩
          · exact (question_core _ _ _ _).2.2.1
          · exact (question_core _ _ _ _).2.2.2.1
          · exact (question_core _ _ _ _).2.2.2.2
        · intro hcat
          exact QuestionCategory.noConfusion hcat

theorem vacuous_clause {q : Question} {K K2 : QuestionCategory} {P : Prop}
    (h1 : q.category = K) (hne : ¬ K = K2) : q.category = K2 → P :=
  fun hcat => absurd (h1 ▸ hcat) hne

theorem vacuous_clause2 {q : Question} {K1 K2 K3 : QuestionCategory} {P : Prop}
    (h12 : q.category = K1 ∨ q.category = K2) (hne1 : ¬ K1 = K3)
    (hne2 : ¬ K2 = K3) : q.category = K3 → P := by
  intro hcat
  rcases h12 with h | h
  · exact absurd (h ▸ hcat) hne1
  · exact absurd (h ▸ hcat) hne2

theorem indices_empty_clause {q : Question} (h : q.correctIndices = []) :
    ∀ i ∈ q.correctIndices, 0 ≤ i ∧ i.toNat < q.options.length := by
  intro i hi
  rw [h] at hi
  cases hi

theorem multi_iff_single {q : Question} {K : QuestionCategory}
    (h1 : q.category = K) (hms : q.multiSelect = false)
    (hne : ¬ K = QuestionCategory.select_all_nash) :
    q.multiSelect = true ↔ q.category = QuestionCategory.select_all_nash := by
  constructor
  · intro h
    rw [hms] at h
    exact Bool.noConfusion h
  · intro hcat
    exact absurd (h1 ▸ hcat) hne

theorem generateQuestionForCategory_spec (m : PayoffMatrix) (cat : QuestionCategory)
    (d : Difficulty) (sg : Option SequentialGame) (g : List Nat) :
    let q := (generateQuestionForCategory m cat d sg g).1
    0 ≤ q.correctIndex ∧
    q.correctIndex.toNat < q.options.length ∧
    (∀ i ∈ q.correctIndices, 0 ≤ i ∧ i.toNat < q.options.length) ∧
    (q.multiSelect = true ↔ q.category = QuestionCategory.select_all_nash) ∧
    (q.category = QuestionCategory.find_dominated_strategies →
      q.options.getD q.correctIndex.toNat "" = dominatedCorrectAnswer m ∧
      (dominatedCorrectAnswer m = "None of the Above" → q.options.length = 4) ∧
      (dominatedCorrectAnswer m ≠ "None of the Above" → q.options.length = 5)) ∧
    (q.category = QuestionCategory.ieds_survivors →
      q.options.getD q.correctIndex.toNat "" = iedsCorrectAnswer m ∧
      (iedsCorrectAnswer m = "None of the Above" → q.options.length = 4) ∧
      (iedsCorrectAnswer m ≠ "None of the Above" → q.options.length = 5)) ∧
    (q.category = QuestionCategory.nash_equilibrium →
      q.options.getD q.correctIndex.toNat "" = nashCorrectAnswer m ∧
      (nashCorrectAnswer m = "None of the Above" → q.options.length = 4) ∧
      (nashCorrectAnswer m ≠ "None of the Above" → q.options.length = 5)) ∧
    (q.category = QuestionCategory.residual_game →
      q.options.getD q.correctIndex.toNat "" = residualCorrectAnswer m ∧
      (residualCorrectAnswer m = "None of the Above" → q.options.length = 4) ∧
      (residualCorrectAnswer m ≠ "None of the Above" → q.options.length = 5)) ∧
    (q.category = QuestionCategory.count_nash →
      q.options.getD q.correctIndex.toNat "" = countNashCorrectAnswer m ∧
      (countNashCorrectAnswer m = "None of the Above" → q.options.length = 4) ∧
      (countNashCorrectAnswer m ≠ "None of the Above" → q.options.length = 5)) ∧
    (q.category = QuestionCategory.true_false →
      q.options = trueFalseOptions ∧ (q.correctIndex = 0 ∨ q.correctIndex = 1)) ∧
    (q.category = QuestionCategory.select_all_nash →
      q.options = allCellLabels m ++ ["No Nash Equilibrium exists"] ∧
      (findNashEquilibria m = [] →
        q.correctIndices = [((allCellLabels m).length : Int)]) ∧
      (findNashEquilibria m ≠ [] → ∀ i ∈ q.correctIndices,
        ∃ ne ∈ findNashEquilibria m,
          q.options.getD i.toNat "" = "(" ++ ne.rowLabel ++ ", " ++ ne.colLabel ++ ")")) ∧
    (q.category = QuestionCategory.willingness_to_pay →
      ∃ ne rest, findNashEquilibria m = ne :: rest ∧ ∃ remCols : List Nat,
        0 ≤ wtpValueFor m ne remCols ∧
        q.options.getD q.correctIndex.toNat "" = toString (wtpValueFor m ne remCols) ∧
        (toString (wtpValueFor m ne remCols) = "None of the Above" →
          q.options.length = 4) ∧
        (toString (wtpValueFor m ne remCols) ≠ "None of the Above" →
          q.options.length = 5)) ∧
    (q.category = QuestionCategory.sequential_first_mover →
      q.options.getD q.correctIndex.toNat "" =
        seqOutcomeAnswer m (seqGameFor m sg PlayerLabel.A) ∧
      (seqOutcomeAnswer m (seqGameFor m sg PlayerLabel.A) = "None of the Above" →
        q.options.length = 4) ∧
      (seqOutcomeAnswer m (seqGameFor m sg PlayerLabel.A) ≠ "None of the Above" →
        q.options.length = 5)) ∧
    (q.category = QuestionCategory.sequential_second_mover →
      q.options.getD q.correctIndex.toNat "" =
        seqOutcomeAnswer m (seqGameFor m sg PlayerLabel.B) ∧
      (seqOutcomeAnswer m (seqGameFor m sg PlayerLabel.B) = "None of the Above" →
        q.options.length = 4) ∧
      (seqOutcomeAnswer m (seqGameFor m sg PlayerLabel.B) ≠ "None of the Above" →
        q.options.length = 5)) ∧
    (q.category = QuestionCategory.sequential_best_response →
      (∃ fm : PlayerLabel, q.options.getD q.correctIndex.toNat "" =
        (seqGameFor m sg fm).backwardInductionPath.getD 1 "") ∧
      2 ≤ q.options.length ∧ q.options.length ≤ 4) ∧
    (q.category = QuestionCategory.consulting_offer →
      q.options.getD q.correctIndex.toNat "" = consultingCorrectAnswer m ∧
      (consultingCorrectAnswer m = "None of the Above" → q.options.length = 4) ∧
      (consultingCorrectAnswer m ≠ "None of the Above" → q.options.length = 5)) := by
  cases cat
  case find_dominated_strategies =>
    obtain ⟨h1, h2, h3, h4, h5, h6, h7, h8⟩ := generateDominatedQuestion_spec m d g
    exact ⟨h4, h5, indices_empty_clause h3, multi_iff_single h1 h2 (by decide),
      fun _ => ⟨h6, h7, h8⟩,
      vacuous_clause h1 (by decide), vacuous_clause h1 (by decide),
      vacuous_clause h1 (by decide), vacuous_clause h1 (by decide),
      vacuous_clause h1 (by decide), vacuous_clause h1 (by decide),
      vacuous_clause h1 (by decide), vacuous_clause h1 (by decide),
      vacuous_clause h1 (by decide), vacuous_clause h1 (by decide),
      vacuous_clause h1 (by decide)⟩
  case ieds_survivors =>
    obtain ⟨h1, h2, h3, h4, h5, h6, h7, h8⟩ := generateIEDSQuestion_spec m d g
    exact ⟨h4, h5, indices_empty_clause h3, multi_iff_single h1 h2 (by decide),
      vacuous_clause h1 (by decide), fun _ => ⟨h6, h7, h8⟩,
      vacuous_clause h1 (by decide), vacuous_clause h1 (by decide),
      vacuous_clause h1 (by decide), vacuous_clause h1 (by decide),
      vacuous_clause h1 (by decide), vacuous_clause h1 (by decide),
      vacuous_clause h1 (by decide), vacuous_clause h1 (by decide),
      vacuous_clause h1 (by decide), vacuous_clause h1 (by decide)⟩
  case nash_equilibrium =>
    obtain ⟨h1, h2, h3, h4, h5, h6, h7, h8⟩ := generateNashQuestion_spec m d g
    exact ⟨h4, h5, indices_empty_clause h3, multi_iff_single h1 h2 (by decide),
      vacuous_clause h1 (by decide), vacuous_clause h1 (by decide),
      fun _ => ⟨h6, h7, h8⟩,
      vacuous_clause h1 (by decide), vacuous_clause h1 (by decide),
      vacuous_clause h1 (by decide), vacuous_clause h1 (by decide),
      vacuous_clause h1 (by decide), vacuous_clause h1 (by decide),
      vacuous_clause h1 (by decide), vacuous_clause h1 (by decide),
      vacuous_clause h1 (by decide)⟩
  case residual_game =>
    obtain ⟨h1, h2, h3, h4, h5, h6, h7, h8⟩ := generateResidualGameQuestion_spec m d g
    exact ⟨h4, h5, indices_empty_clause h3, multi_iff_single h1 h2 (by decide),
      vacuous_clause h1 (by decide), vacuous_clause h1 (by decide),
      vacuous_clause h1 (by decide), fun _ => ⟨h6, h7, h8⟩,
      vacuous_clause h1 (by decide), vacuous_clause h1 (by decide),
      vacuous_clause h1 (by decide), vacuous_clause h1 (by decide),
      vacuous_clause h1 (by decide), vacuous_clause h1 (by decide),
      vacuous_clause h1 (by decide), vacuous_clause h1 (by decide)⟩
  case count_nash =>
    obtain ⟨h1, h2, h3, h4, h5, h6, h7, h8⟩ := generateCountNashQuestion_spec m d g
    exact ⟨h4, h5, indices_empty_clause h3, multi_iff_single h1 h2 (by decide),
      vacuous_clause h1 (by decide), vacuous_clause h1 (by decide),
      vacuous_clause h1 (by decide), vacuous_clause h1 (by decide),
      fun _ => ⟨h6, h7, h8⟩,
      vacuous_clause h1 (by decide), vacuous_clause h1 (by decide),
      vacuous_clause h1 (by decide), vacuous_clause h1 (by decide),
      vacuous_clause h1 (by decide), vacuous_clause h1 (by decide),
      vacuous_clause h1 (by decide)⟩
  case select_all_nash =>
    obtain ⟨s1, s2, s3, s4, s5, s6, s7, s8⟩ := generateSelectAllNashQuestion_spec m d g
    exact ⟨s4, s5, s6, ⟨fun _ => s1, fun _ => s2⟩,
      vacuous_clause s1 (by decide), vacuous_clause s1 (by decide),
      vacuous_clause s1 (by decide), vacuous_clause s1 (by decide),
      vacuous_clause s1 (by decide), vacuous_clause s1 (by decide),
      fun _ => ⟨s3, s7, s8⟩,
      vacuous_clause s1 (by decide), vacuous_clause s1 (by decide),
      vacuous_clause s1 (by decide), vacuous_clause s1 (by decide),
      vacuous_clause s1 (by decide)⟩
  case true_false =>
    obtain ⟨t1, t2, t3, t4, t5, t6, t7⟩ := generateTrueFalseQuestion_spec m d g
    exact ⟨t4, t5, indices_empty_clause t3, multi_iff_single t1 t2 (by decide),
      vacuous_clause t1 (by decide), vacuous_clause t1 (by decide),
      vacuous_clause t1 (by decide), vacuous_clause t1 (by decide),
      vacuous_clause t1 (by decide), fun _ => ⟨t6, t7⟩,
      vacuous_clause t1 (by decide), vacuous_clause t1 (by decide),
      vacuous_clause t1 (by decide), vacuous_clause t1 (by decide),
      vacuous_clause t1 (by decide), vacuous_clause t1 (by decide)⟩
  case willingness_to_pay =>
    obtain ⟨w1, w2, w3, w4, w5, w6, w7, w8⟩ :=
      generateWillingnessToPayQuestion_spec m d g
    refine ⟨w5, w6, indices_empty_clause w4, ?_,
      vacuous_clause2 w2 (by decide) (by decide),
      vacuous_clause2 w2 (by decide) (by decide),
      w8,
      vacuous_clause2 w2 (by decide) (by decide),
      vacuous_clause2 w2 (by decide) (by decide),
      vacuous_clause2 w2 (by decide) (by decide),
      vacuous_clause2 w2 (by decide) (by decide),
      w7,
      vacuous_clause2 w2 (by decide) (by decide),
      vacuous_clause2 w2 (by decide) (by decide),
      vacuous_clause2 w2 (by decide) (by decide),
      vacuous_clause2 w2 (by decide) (by decide)⟩
    constructor
    · intro h
      have h2 : (generateWillingnessToPayQuestion m d g).1.multiSelect = true := h
      rw [w3] at h2
      exact Bool.noConfusion h2
    · intro hcat
      exact vacuous_clause2 w2 (by decide) (by decide) hcat
  case sequential_first_mover =>
    obtain ⟨h1, h2, h3, h4, h5, h6, h7, h8⟩ :=
      generateSequentialFirstMoverQuestion_spec m d sg g
    exact ⟨h4, h5, indices_empty_clause h3, multi_iff_single h1 h2 (by decide),
      vacuous_clause h1 (by decide), vacuous_clause h1 (by decide),
      vacuous_clause h1 (by decide), vacuous_clause h1 (by decide),
      vacuous_clause h1 (by decide), vacuous_clause h1 (by decide),
      vacuous_clause h1 (by decide), vacuous_clause h1 (by decide),
      fun _ => ⟨h6, h7, h8⟩,
      vacuous_clause h1 (by decide), vacuous_clause h1 (by decide),
      vacuous_clause h1 (by decide)⟩
  case sequential_second_mover =>
    obtain ⟨h1, h2, h3, h4, h5, h6, h7, h8⟩ :=
      generateSequentialSecondMoverQuestion_spec m d sg g
    exact ⟨h4, h5, indices_empty_clause h3, multi_iff_single h1 h2 (by decide),
      vacuous_clause h1 (by decide), vacuous_clause h1 (by decide),
      vacuous_clause h1 (by decide), vacuous_clause h1 (by decide),
      vacuous_clause h1 (by decide), vacuous_clause h1 (by decide),
      vacuous_clause h1 (by decide), vacuous_clause h1 (by decide),
      vacuous_clause h1 (by decide), fun _ => ⟨h6, h7, h8⟩,
      vacuous_clause h1 (by decide), vacuous_clause h1 (by decide)⟩
  case sequential_best_response =>
    obtain ⟨h1, h2, h3, h4, h5, h6, h7, h8⟩ :=
      generateSequentialBestResponseQuestion_spec m d sg g
    exact ⟨h4, h5, indices_empty_clause h3, multi_iff_single h1 h2 (by decide),
      vacuous_clause h1 (by decide), vacuous_clause h1 (by decide),
      vacuous_clause h1 (by decide), vacuous_clause h1 (by decide),
      vacuous_clause h1 (by decide), vacuous_clause h1 (by decide),
      vacuous_clause h1 (by decide), vacuous_clause h1 (by decide),
      vacuous_clause h1 (by decide), vacuous_clause h1 (by decide),
      fun _ => ⟨h6, h7, h8⟩,
      vacuous_clause h1 (by decide)⟩
  case consulting_offer =>
    obtain ⟨h1, h2, h3, h4, h5, h6, h7, h8⟩ :=
      generateConsultingOfferQuestion_spec m d sg g
    exact ⟨h4, h5, indices_empty_clause h3, multi_iff_single h1 h2 (by decide),
      vacuous_clause h1 (by decide), vacuous_clause h1 (by decide),
      vacuous_clause h1 (by decide), vacuous_clause h1 (by decide),
      vacuous_clause h1 (by decide), vacuous_clause h1 (by decide),
      vacuous_clause h1 (by decide), vacuous_clause h1 (by decide),
      vacuous_clause h1 (by decide), vacuous_clause h1 (by decide),
      vacuous_clause h1 (by decide), fun _ => ⟨h6, h7, h8⟩⟩

/-- **C6** (corrected).  For every matrix, difficulty, optional sequential
game and random stream, the question produced by `generateQuestion`
satisfies: `correctIndex` (and every member of `correctIndices`) is a
valid index into `options`; `multiSelect` holds exactly for
`select_all_nash`; and the option text at `correctIndex` equals the
independently re-derived correct answer of the drawn category.  The
spec\x27s claim that single-select questions always have exactly 5 options
is FALSE: a question whose correct answer is "None of the Above" gets 4
options, and `sequential_best_response` questions get only 3 options on a
2×2 matrix (4 on 3×3) — see the counterexample theorem.  The options list
has 5 entries only when the correct answer differs from "None of the
Above" and the category is not `sequential_best_response`; multi-select
questions have `rows·cols + 1` options ending in the sentinel. -/
theorem generateQuestion_options_correct (m : PayoffMatrix) (d : Difficulty)
    (sg : Option SequentialGame) (g : List Nat) :
    let q := (generateQuestion m d sg g).1
    0 ≤ q.correctIndex ∧
    q.correctIndex.toNat < q.options.length ∧
    (∀ i ∈ q.correctIndices, 0 ≤ i ∧ i.toNat < q.options.length) ∧
    (q.multiSelect = true ↔ q.category = QuestionCategory.select_all_nash) ∧
    (q.category = QuestionCategory.find_dominated_strategies →
      q.options.getD q.correctIndex.toNat "" = dominatedCorrectAnswer m ∧
      (dominatedCorrectAnswer m = "None of the Above" → q.options.length = 4) ∧
      (dominatedCorrectAnswer m ≠ "None of the Above" → q.options.length = 5)) ∧
    (q.category = QuestionCategory.ieds_survivors →
      q.options.getD q.correctIndex.toNat "" = iedsCorrectAnswer m ∧
      (iedsCorrectAnswer m = "None of the Above" → q.options.length = 4) ∧
      (iedsCorrectAnswer m ≠ "None of the Above" → q.options.length = 5)) ∧
    (q.category = QuestionCategory.nash_equilibrium →
      q.options.getD q.correctIndex.toNat "" = nashCorrectAnswer m ∧
      (nashCorrectAnswer m = "None of the Above" → q.options.length = 4) ∧
      (nashCorrectAnswer m ≠ "None of the Above" → q.options.length = 5)) ∧
    (q.category = QuestionCategory.residual_game →
      q.options.getD q.correctIndex.toNat "" = residualCorrectAnswer m ∧
      (residualCorrectAnswer m = "None of the Above" → q.options.length = 4) ∧
      (residualCorrectAnswer m ≠ "None of the Above" → q.options.length = 5)) ∧
    (q.category = QuestionCategory.count_nash →
      q.options.getD q.correctIndex.toNat "" = countNashCorrectAnswer m ∧
      (countNashCorrectAnswer m = "None of the Above" → q.options.length = 4) ∧
      (countNashCorrectAnswer m ≠ "None of the Above" → q.options.length = 5)) ∧
    (q.category = QuestionCategory.true_false →
      q.options = trueFalseOptions ∧ (q.correctIndex = 0 ∨ q.correctIndex = 1)) ∧
    (q.category = QuestionCategory.select_all_nash →
      q.options = allCellLabels m ++ ["No Nash Equilibrium exists"] ∧
      (findNashEquilibria m = [] →
        q.correctIndices = [((allCellLabels m).length : Int)]) ∧
      (findNashEquilibria m ≠ [] → ∀ i ∈ q.correctIndices,
        ∃ ne ∈ findNashEquilibria m,
          q.options.getD i.toNat "" = "(" ++ ne.rowLabel ++ ", " ++ ne.colLabel ++ ")")) ∧
    (q.category = QuestionCategory.willingness_to_pay →
      ∃ ne rest, findNashEquilibria m = ne :: rest ∧ ∃ remCols : List Nat,
        0 ≤ wtpValueFor m ne remCols ∧
        q.options.getD q.correctIndex.toNat "" = toString (wtpValueFor m ne remCols) ∧
        (toString (wtpValueFor m ne remCols) = "None of the Above" →
          q.options.length = 4) ∧
        (toString (wtpValueFor m ne remCols) ≠ "None of the Above" →
          q.options.length = 5)) ∧
    (q.category = QuestionCategory.sequential_first_mover →
      q.options.getD q.correctIndex.toNat "" =
        seqOutcomeAnswer m (seqGameFor m sg PlayerLabel.A) ∧
      (seqOutcomeAnswer m (seqGameFor m sg PlayerLabel.A) = "None of the Above" →
        q.options.length = 4) ∧
      (seqOutcomeAnswer m (seqGameFor m sg PlayerLabel.A) ≠ "None of the Above" →
        q.options.length = 5)) ∧
    (q.category = QuestionCategory.sequential_second_mover →
      q.options.getD q.correctIndex.toNat "" =
        seqOutcomeAnswer m (seqGameFor m sg PlayerLabel.B) ∧
      (seqOutcomeAnswer m (seqGameFor m sg PlayerLabel.B) = "None of the Above" →
        q.options.length = 4) ∧
      (seqOutcomeAnswer m (seqGameFor m sg PlayerLabel.B) ≠ "None of the Above" →
        q.options.length = 5)) ∧
    (q.category = QuestionCategory.sequential_best_response →
      (∃ fm : PlayerLabel, q.options.getD q.correctIndex.toNat "" =
        (seqGameFor m sg fm).backwardInductionPath.getD 1 "") ∧
      2 ≤ q.options.length ∧ q.options.length ≤ 4) ∧
    (q.category = QuestionCategory.consulting_offer →
      q.options.getD q.correctIndex.toNat "" = consultingCorrectAnswer m ∧
      (consultingCorrectAnswer m = "None of the Above" → q.options.length = 4) ∧
      (consultingCorrectAnswer m ≠ "None of the Above" → q.options.length = 5)) :=
  generateQuestionForCategory_spec m
    ((getCategoriesForDifficulty d).getD
      (g.headD 0 % (getCategoriesForDifficulty d).length)
      QuestionCategory.nash_equilibrium) d sg g.tail

/-- Counterexample to the frozen C6 claim ("options has exactly 5 entries
for single-select questions"): on the 2×2 example matrix at hard
difficulty, the stream `[4, 0, 0]` draws the `sequential_best_response`
category and produces a single-select question with only 3 options. -/
theorem generateQuestion_options_cex :
    (generateQuestion exampleMatrix Difficulty.hard none [4, 0, 0]).1.multiSelect
      = false ∧
    (generateQuestion exampleMatrix Difficulty.hard none [4, 0, 0]).1.category
      = QuestionCategory.sequential_best_response ∧
    (generateQuestion exampleMatrix Difficulty.hard none [4, 0, 0]).1.options.length
      = 3 := by
  decide

/-- **C9.** When the willingness-to-pay generator is invoked on a matrix
with no pure Nash equilibrium it falls back to returning exactly the
`nash_equilibrium` question (same options, same index, same remaining
stream); and whenever it does produce a `willingness_to_pay` question a
Nash equilibrium exists and the correct option is the willingness-to-pay
value, which is floored at 0 by `Math.max(0, ...)` and therefore never
negative (the non-negativity holds for every reduced column set). -/
theorem generateWillingnessToPayQuestion_fallback (m : PayoffMatrix)
    (d : Difficulty) (g : List Nat) :
    (findNashEquilibria m = [] →
      generateWillingnessToPayQuestion m d g = generateNashQuestion m d g ∧
      (generateWillingnessToPayQuestion m d g).1.category =
        QuestionCategory.nash_equilibrium) ∧
    (∀ ne rc, 0 ≤ wtpValueFor m ne rc) ∧
    ((generateWillingnessToPayQuestion m d g).1.category =
        QuestionCategory.willingness_to_pay →
      findNashEquilibria m ≠ [] ∧
      ∃ ne rest, findNashEquilibria m = ne :: rest ∧ ∃ remCols : List Nat,
        (generateWillingnessToPayQuestion m d g).1.options.getD
          (generateWillingnessToPayQuestion m d g).1.correctIndex.toNat "" =
          toString (wtpValueFor m ne remCols) ∧
        0 ≤ wtpValueFor m ne remCols) := by
  obtain ⟨w1, w2, w3, w4, w5, w6, w7, w8⟩ := generateWillingnessToPayQuestion_spec m d g
  refine ⟨?_, fun ne rc => wtpValueFor_nonneg m ne rc, ?_⟩
  · intro hnil
    refine ⟨w1 hnil, ?_⟩
    rw [w1 hnil]
    exact (generateNashQuestion_spec m d g).1
  · intro hcat
    obtain ⟨ne, rest, hn, remCols, hpos, heq, -, -⟩ := w7 hcat
    exact ⟨by rw [hn]; exact List.cons_ne_nil ne rest, ne, rest, hn, remCols, heq, hpos⟩
